import Mathlib

/-!
Verification development for the wzsh shell compiler
(`shell_compiler/src/lib.rs`) and the virtual machine it targets.

The compiler is transcribed from `shell_compiler/src/lib.rs`.  The
register allocator (`registeralloc` module), the instruction set types
and the machine (`shell_vm` crate) are not part of the sources; they
are modelled from the specification, with every behavioural point that
the in-tree tests of `shell_compiler/src/lib.rs` pin down calibrated
against those tests (the tests compile fixed shell fragments, assert
the exact emitted operation list, run it and assert status, spawn log,
stdout and stderr).
-/

/-- Value model of the virtual machine,  from the spec (section 3):
a tagged union with variants None, String, List, Integer and a
waitable-status handle.  A completed waitable status is modelled by
the exit code it yields when waited on. -/
inductive Value where
  | None : Value
  | String (s : String) : Value
  | List (vs : List Value) : Value
  | Integer (n : Int) : Value
  | WaitableStatus (code : Int) : Value

/-- Operand of an operation, from the spec (section 3): immediate
value, frame-relative slot index, or the last-wait-status singleton. -/
inductive Operand where
  | Immediate (v : Value)
  | FrameRelative (n : Nat)
  | LastWaitStatus

/-- Instruction addresses are absolute indices into the program. -/
inductive InstructionAddress where
  | Absolute (addr : Nat)

/-- The instruction set, from the spec (section 4.3).  The compiler
emits exactly these operations.  `PushIoEnv` and `PopIoEnv` model the
operations called PushIo and PopIo in the source. -/
inductive Operation where
  | PushFrame (size : Nat)
  | PopFrame
  | Copy (source destination : Operand)
  | StringAppend (source destination : Operand)
  | ListAppend (value lst : Operand) (splitFlag globFlag : Bool)
  | JoinList (lst destination : Operand)
  | GetEnv (name target : Operand)
  | SetEnv (name value : Operand)
  | PushEnvironment
  | PopEnvironment
  | IsNone (source destination : Operand)
  | IsNoneOrEmptyString (source destination : Operand)
  | StringLength (string length : Operand)
  | TildeExpand (name destination : Operand)
  | JumpIfZero (condition : Operand) (target : InstructionAddress)
  | Jump (target : InstructionAddress)
  | SpawnCommand (argv status : Operand)
  | Wait (status : Operand)
  | InvertLastWait
  | PushIoEnv
  | PopIoEnv
  | OpenFile (name : Operand) (fd_number : Nat) (input output clobber append : Bool)
  | DupFd (src_fd dest_fd : Nat)
  | PushPipe
  | PopPipe
  | Error (message : Operand)
  | Exit (value : Operand)

/-- Register allocator.  Modelled from the spec (section 4.1): the
`registeralloc` module is not among the sources.  It is a free-list
allocator; a fresh allocation bumps the counter past the high-water
mark, frees push onto the free list and are preferred (most recently
freed first).  `frame_size` is the number of user slots, i.e. the
highest slot ever handed out: this accounting is pinned by the in-tree
`basic_echo` test, which records `PushFrame size 2` for the program
compiled from `echo hello`, whose highest used slot is 2 (slot 0 is
reserved, user allocations start at slot 1). -/
structure RegisterAllocator where
  free_regs : List Nat
  top : Nat

def RegisterAllocator.new : RegisterAllocator := ⟨[], 0⟩

def RegisterAllocator.allocate : RegisterAllocator → Nat × RegisterAllocator
  | ⟨r :: rest, t⟩ => (r, ⟨rest, t⟩)
  | ⟨[], t⟩ => (t + 1, ⟨[], t + 1⟩)

def RegisterAllocator.free (a : RegisterAllocator) (slot : Nat) : RegisterAllocator :=
  { a with free_regs := slot :: a.free_regs }

def RegisterAllocator.frame_size (a : RegisterAllocator) : Nat := a.top

/-- Per-frame compiler state, from `struct FrameCompiler` in the
source: the allocator for the frame and the program address of the
placeholder `PushFrame` emitted by `reserve_frame`. -/
structure FrameCompiler where
  allocator : RegisterAllocator
  frame_start_program_address : Nat

/-- Compiler state, from `struct Compiler` in the source: the program
emitted so far and a stack of frame compilers.  The source keeps the
frames in a `VecDeque` used as a stack via `push_back`, `pop_back` and
`back_mut`; here the head of the list is the back (top) of that
stack. -/
structure Compiler where
  program : List Operation
  frames : List FrameCompiler

def Compiler.new : Compiler := ⟨[], []⟩

/-- `Compiler::push`: append one operation to the program. -/
def Compiler.push (self : Compiler) (op : Operation) : Compiler :=
  { self with program := self.program ++ [op] }

/-- `Compiler::finish`: append `Exit{value: LastWaitStatus}` and return
the program.  Infallible in the source (always returns `Ok`). -/
def Compiler.finish (self : Compiler) : Except String (List Operation) :=
  .ok (self.push (.Exit .LastWaitStatus)).program

/-- `Compiler::reserve_frame`: emit a placeholder `PushFrame{size:0}`,
remember its address, and push a fresh frame compiler. -/
def reserve_frame (self : Compiler) : Compiler :=
  let frame_start_program_address := self.program.length
  let c := self.push (.PushFrame 0)
  { c with frames := ⟨RegisterAllocator.new, frame_start_program_address⟩ :: c.frames }

/-- `Compiler::commit_frame`: pop the current frame compiler, patch the
placeholder `PushFrame` in place with the final frame size, and emit
`PopFrame`. -/
def commit_frame (self : Compiler) : Except String Compiler :=
  match self.frames with
  | [] => .error "no frame to commit"
  | f :: rest =>
      let c : Compiler :=
        { program := self.program.set f.frame_start_program_address
            (.PushFrame f.allocator.frame_size),
          frames := rest }
      .ok (c.push .PopFrame)

/-- `self.frame()?.allocate()`: allocate a slot in the current frame;
fails when there is no frame. -/
def allocSlot (self : Compiler) : Except String (Nat × Compiler) :=
  match self.frames with
  | [] => .error "no frame"
  | f :: rest =>
      let (slot, a) := f.allocator.allocate
      .ok (slot, { self with frames := { f with allocator := a } :: rest })

/-- `self.frame()?.free(slot)`: return a slot to the current frame's
free list. -/
def freeSlot (self : Compiler) (slot : Nat) : Except String Compiler :=
  match self.frames with
  | [] => .error "no frame"
  | f :: rest =>
      .ok { self with frames := { f with allocator := f.allocator.free slot } :: rest }

/-- `Compiler::allocate_list`: allocate a slot and emit a `Copy` of an
immediate empty list into it. -/
def allocate_list (self : Compiler) : Except String (Nat × Compiler) := do
  let (slot, c) ← allocSlot self
  .ok (slot, c.push (.Copy (.Immediate (.List [])) (.FrameRelative slot)))

/-- `Compiler::allocate_string`: allocate a slot and emit a `Copy` of an
immediate empty string into it. -/
def allocate_string (self : Compiler) : Except String (Nat × Compiler) := do
  let (slot, c) ← allocSlot self
  .ok (slot, c.push (.Copy (.Immediate (.String "")) (.FrameRelative slot)))

/-- First stage of `Compiler::if_then_else`: record the address of the
conditional jump and emit `JumpIfZero` with a placeholder target. -/
def ite_begin (self : Compiler) (condition : Operand) : Compiler × Nat :=
  (self.push (.JumpIfZero condition (.Absolute 0)), self.program.length)

/-- Middle stage of `Compiler::if_then_else`, run after the then-body:
emit the unconditional `Jump` with a placeholder target, then patch the
`JumpIfZero` at `first_jump` to point just past the `Jump`.  Fails if
the patched slot no longer holds a `JumpIfZero`. -/
def ite_elseJump (self : Compiler) (first_jump : Nat) : Except String (Compiler × Nat) :=
  let second_jump := self.program.length
  let c := self.push (.Jump (.Absolute 0))
  match c.program.get? first_jump with
  | some (.JumpIfZero condition _) =>
      let patched := c.program.set first_jump
        (.JumpIfZero condition (.Absolute (second_jump + 1)))
      .ok ({ c with program := patched }, second_jump)
  | _ => .error "opcode mismatch while patching jump"

/-- Final stage of `Compiler::if_then_else`, run after the else-body:
patch the `Jump` at `second_jump` to point past the else body.  Fails
if the patched slot no longer holds a `Jump`. -/
def ite_done (self : Compiler) (second_jump : Nat) : Except String Compiler :=
  let after := self.program.length
  match self.program.get? second_jump with
  | some (.Jump _) =>
      .ok { self with program := self.program.set second_jump (.Jump (.Absolute after)) }
  | _ => .error "opcode mismatch while patching jump"

/-- `Compiler::if_then_else`, assembled from its three stages exactly
as the source sequences them around the two body closures. -/
def if_then_else (self : Compiler) (condition : Operand)
    (then_ else_ : Compiler → Except String Compiler) : Except String Compiler := do
  let (c, first_jump) := ite_begin self condition
  let c ← then_ c
  let (c, second_jump) ← ite_elseJump c first_jump
  let c ← else_ c
  ite_done c second_jump

/-- Parameter-expansion operators, from the spec (section 4.2 table
and section 6): the `shell_lexer` crate is not among the sources.
`allow_null = true` is the unset-only family, `allow_null = false` the
unset-or-empty family. -/
inductive ParamOper where
  | Get
  | GetDefault (allow_null : Bool)
  | AssignDefault (allow_null : Bool)
  | CheckSet (allow_null : Bool)
  | AlternativeValue (allow_null : Bool)
  | StringLength
  | RemoveSmallestSuffixPattern
  | RemoveLargestSuffixPattern
  | RemoveSmallestPrefixPattern
  | RemoveLargestPrefixPattern

/-! Word components and parameter expressions, from the spec (section
6): the `shell_lexer` crate is not among the sources.  A word is a
sequence of components; a parameter expression carries a list of
replacement words (the compiler iterates `expr.word` and expands each
element as a whole word).  The lists are given as their own inductives
so every compiler function below is structurally recursive. -/
mutual
inductive WordComponentKind where
  | Literal (s : String)
  | TildeExpand (name : Option String)
  | ParamExpand (expr : ParamExpr)
  | CommandSubstitution
inductive WordComponent where
  | mk (splittable : Bool) (kind : WordComponentKind)
inductive Word where
  | nil
  | cons (comp : WordComponent) (rest : Word)
inductive WordList where
  | nil
  | cons (w : Word) (rest : WordList)
inductive ParamExpr where
  | mk (kind : ParamOper) (name : String) (word : WordList)
end

def WordComponent.splittable : WordComponent → Bool
  | .mk s _ => s

def WordComponent.kind : WordComponent → WordComponentKind
  | .mk _ k => k

/-- Conjunction of the `splittable` flags of a word's components; the
source computes it by starting from `true` and clearing it on every
non-splittable component. -/
def Word.allSplittable : Word → Bool
  | .nil => true
  | .cons comp rest => comp.splittable && rest.allSplittable

def WordList.isEmpty : WordList → Bool
  | .nil => true
  | .cons _ _ => false

def ParamExpr.kind : ParamExpr → ParamOper
  | .mk k _ _ => k

def ParamExpr.name : ParamExpr → String
  | .mk _ n _ => n

def ParamExpr.word : ParamExpr → WordList
  | .mk _ _ w => w

/-- Assignment in a simple command, from the spec (section 6). -/
structure Assignment where
  name : String
  value : Word

/-- File redirection payload, from the spec (section 6). -/
structure FileRedir where
  file_name : Word
  fd_number : Nat
  input : Bool
  output : Bool
  clobber : Bool
  append : Bool

/-- Fd-duplication redirection payload, from the spec (section 6). -/
structure FdDup where
  src_fd_number : Nat
  dest_fd_number : Nat

/-- Redirection, from the spec (section 6). -/
inductive Redirection where
  | File (f : FileRedir)
  | Fd (f : FdDup)

/-- Simple command payload, from the spec (section 6): assignments,
words and command-local redirections. -/
structure SimpleCmd where
  assignments : List Assignment
  redirects : List Redirection
  words : WordList

/-! Command AST, from the spec (section 6): the `shell_parser` crate is
not among the sources.  The five handled `CommandType` variants are as
dispatched by `compile_command`; the remaining constructors stand for
the parser's unimplemented variants (loops, case, function definitions,
subshells), which `compile_command` rejects.  Command lists are their
own inductive so the compiler is structurally recursive. -/
mutual
inductive CommandType where
  | SimpleCommand (simple : SimpleCmd)
  | If (condition : CompoundList) (true_part : OptCompoundList)
      (false_part : OptCompoundList)
  | Program (l : CompoundList)
  | BraceGroup (l : CompoundList)
  | Pipeline (commands : CommandList) (inverted : Bool)
  | ForEach
  | While
  | Until
  | CaseMatch
  | FunctionDefinition
  | Subshell
inductive Command where
  | mk (command : CommandType) (redirects : List Redirection) (asynchronous : Bool)
inductive CommandList where
  | nil
  | cons (cmd : Command) (rest : CommandList)
inductive CompoundList where
  | mk (commands : CommandList)
inductive OptCompoundList where
  | noneCL
  | someCL (l : CompoundList)
end

def Command.command : Command → CommandType
  | .mk c _ _ => c

def CommandList.length : CommandList → Nat
  | .nil => 0
  | .cons _ rest => rest.length + 1

/-! Word expansion and parameter expansion, from `Compiler::word_expand`
and `Compiler::parameter_expand` in the source.  `expand_components`
is the component loop of `word_expand`; `expand_words` is the
`for w in words { word_expand(argv, w) }` loop that appears in
`compile_command` and in the parameter-expansion branches, with the
body of `word_expand` spelled out so that the recursion is
structural. -/
mutual
def parameter_expand (self : Compiler) (target_string : Nat) (expr : ParamExpr) :
    Except String Compiler :=
  match expr with
  | .mk kind name word => do
    let (slot, c) ← allocSlot self
    let c := c.push (.GetEnv (.Immediate (.String name)) (.FrameRelative slot))
    match kind with
    | .Get =>
        .ok (c.push (.Copy (.FrameRelative slot) (.FrameRelative target_string)))
    | .GetDefault allow_null => do
        let (test, c) ← allocSlot c
        let c := c.push (if allow_null
          then .IsNone (.FrameRelative slot) (.FrameRelative test)
          else .IsNoneOrEmptyString (.FrameRelative slot) (.FrameRelative test))
        let (c, first_jump) := ite_begin c (.FrameRelative test)
        let (argv, c) ← allocate_list c
        let c ← expand_words c argv word
        let c := c.push (.JoinList (.FrameRelative argv) (.FrameRelative target_string))
        let c ← freeSlot c argv
        let (c, second_jump) ← ite_elseJump c first_jump
        let c := c.push (.Copy (.FrameRelative slot) (.FrameRelative target_string))
        let c ← ite_done c second_jump
        freeSlot c test
    | .AssignDefault allow_null => do
        let (test, c) ← allocSlot c
        let c := c.push (if allow_null
          then .IsNone (.FrameRelative slot) (.FrameRelative test)
          else .IsNoneOrEmptyString (.FrameRelative slot) (.FrameRelative test))
        let (c, first_jump) := ite_begin c (.FrameRelative test)
        let (argv, c) ← allocate_list c
        let c ← expand_words c argv word
        let c := c.push (.JoinList (.FrameRelative argv) (.FrameRelative target_string))
        let c ← freeSlot c argv
        let c := c.push (.SetEnv (.Immediate (.String name)) (.FrameRelative target_string))
        let (c, second_jump) ← ite_elseJump c first_jump
        let c := c.push (.Copy (.FrameRelative slot) (.FrameRelative target_string))
        let c ← ite_done c second_jump
        freeSlot c test
    | .StringLength =>
        .ok (c.push (.StringLength (.FrameRelative slot) (.FrameRelative target_string)))
    | .CheckSet allow_null => do
        let (test, c) ← allocSlot c
        let c := c.push (if allow_null
          then .IsNone (.FrameRelative slot) (.FrameRelative test)
          else .IsNoneOrEmptyString (.FrameRelative slot) (.FrameRelative test))
        let (c, first_jump) := ite_begin c (.FrameRelative test)
        let c ← (match word with
          | .nil =>
              .ok (c.push (.Error (.Immediate
                (.String ("parameter " ++ name ++ " is not set")))))
          | .cons w ws => do
              let (argv, c) ← allocate_list c
              let c ← expand_words c argv (.cons w ws)
              let c := c.push (.JoinList (.FrameRelative argv) (.FrameRelative target_string))
              let c ← freeSlot c argv
              .ok (c.push (.Error (.FrameRelative target_string))))
        let (c, second_jump) ← ite_elseJump c first_jump
        let c := c.push (.Copy (.FrameRelative slot) (.FrameRelative target_string))
        let c ← ite_done c second_jump
        freeSlot c test
    | .AlternativeValue allow_null => do
        let (test, c) ← allocSlot c
        let c := c.push (if allow_null
          then .IsNone (.FrameRelative slot) (.FrameRelative test)
          else .IsNoneOrEmptyString (.FrameRelative slot) (.FrameRelative test))
        let (c, first_jump) := ite_begin c (.FrameRelative test)
        let c := c.push (.Copy (.Immediate (.String "")) (.FrameRelative target_string))
        let (c, second_jump) ← ite_elseJump c first_jump
        let (argv, c) ← allocate_list c
        let c ← expand_words c argv word
        let c := c.push (.JoinList (.FrameRelative argv) (.FrameRelative target_string))
        let c ← freeSlot c argv
        let c ← ite_done c second_jump
        freeSlot c test
    | .RemoveSmallestSuffixPattern => .error "TODO pattern removal not implemented"
    | .RemoveLargestSuffixPattern => .error "TODO pattern removal not implemented"
    | .RemoveSmallestPrefixPattern => .error "TODO pattern removal not implemented"
    | .RemoveLargestPrefixPattern => .error "TODO pattern removal not implemented"

def expand_words (self : Compiler) (argv : Nat) (words : WordList) :
    Except String Compiler :=
  match words with
  | .nil => .ok self
  | .cons w ws => do
      let (expanded_word, c) ← allocate_string self
      let c ← expand_components c expanded_word w
      let c := c.push (.ListAppend (.FrameRelative expanded_word) (.FrameRelative argv)
        w.allSplittable true)
      let c ← freeSlot c expanded_word
      expand_words c argv ws

def expand_components (self : Compiler) (expanded_word : Nat) (word : Word) :
    Except String Compiler :=
  match word with
  | .nil => .ok self
  | .cons (.mk _ compKind) rest => do
      let c ← (match compKind with
        | .Literal literal =>
            .ok (self.push (.StringAppend (.Immediate (.String literal))
              (.FrameRelative expanded_word)))
        | .TildeExpand name => do
            let (expanded, c) ← allocate_string self
            let c := c.push (.TildeExpand
              (.Immediate (match name with | some s => .String s | none => .None))
              (.FrameRelative expanded))
            let c := c.push (.StringAppend (.FrameRelative expanded)
              (.FrameRelative expanded_word))
            freeSlot c expanded
        | .ParamExpand expr => do
            let (expanded, c) ← allocate_string self
            let c ← parameter_expand c expanded expr
            let c := c.push (.StringAppend (.FrameRelative expanded)
              (.FrameRelative expanded_word))
            freeSlot c expanded
        | .CommandSubstitution => .error "command subst not implemented")
      expand_components c expanded_word rest
end

/-- `Compiler::word_expand` for a single word: expand the components
into a fresh string slot, append the result to the argv list with the
split and glob flags, free the slot.  `expand_words` unfolds to this
body on each element. -/
def word_expand (self : Compiler) (argv : Nat) (word : Word) :
    Except String Compiler := do
  let (expanded_word, c) ← allocate_string self
  let c ← expand_components c expanded_word word
  let c := c.push (.ListAppend (.FrameRelative expanded_word) (.FrameRelative argv)
    word.allSplittable true)
  freeSlot c expanded_word

/-- Loop body of `Compiler::apply_redirection`: emit `OpenFile` (file
redirection, with the file name expanded into a fresh list slot) or
`DupFd` (fd redirection) for each redirection in order. -/
def apply_redirection_loop (self : Compiler) (redir : List Redirection) :
    Except String Compiler :=
  match redir with
  | [] => .ok self
  | .File f :: rest => do
      let (filename, c) ← allocate_list self
      let c ← word_expand c filename f.file_name
      let c := c.push (.OpenFile (.FrameRelative filename) f.fd_number f.input f.output
        f.clobber f.append)
      let c ← freeSlot c filename
      apply_redirection_loop c rest
  | .Fd f :: rest =>
      apply_redirection_loop (self.push (.DupFd f.src_fd_number f.dest_fd_number)) rest

/-- `Compiler::apply_redirection`: nothing for an empty redirection
list; otherwise push a new I/O context and apply each redirection.
Returns whether a matching `PopIoEnv` is owed. -/
def apply_redirection (self : Compiler) (redir : List Redirection) :
    Except String (Bool × Compiler) :=
  match redir with
  | [] => .ok (false, self)
  | _ => do
      let c := self.push .PushIoEnv
      let c ← apply_redirection_loop c redir
      .ok (true, c)

/-- `Compiler::pop_redirection`: emit `PopIoEnv` when the matching
`apply_redirection` pushed an I/O context. -/
def pop_redirection (self : Compiler) (do_pop : Bool) : Compiler :=
  if do_pop then self.push .PopIoEnv else self

/-- `Compiler::process_assignments`: for each assignment expand the
value into a fresh list slot, join it into a single string, and emit
`SetEnv`. -/
def process_assignments (self : Compiler) (assignments : List Assignment) :
    Except String Compiler :=
  match assignments with
  | [] => .ok self
  | a :: rest => do
      let (value, c) ← allocate_list self
      let c ← word_expand c value a.value
      let c := c.push (.JoinList (.FrameRelative value) (.FrameRelative value))
      let c := c.push (.SetEnv (.Immediate (.String a.name)) (.FrameRelative value))
      let c ← freeSlot c value
      process_assignments c rest

/-!
The command compiler, from `Compiler::compile_command` and
`Compiler::compound_list` in the source.  `compile_seq` is the
`for command in &list.commands` loop; `pipeline_loop` is the indexed
loop over a pipeline of two or more commands; the `if_then_else`
helper used by the `If` arm appears through its three stages so that
the recursion stays structural.
-/
mutual
def compile_command (self : Compiler) (command : Command) : Except String Compiler :=
  match command with
  | .mk cmdty redirects asynchronous => do
    let c := reserve_frame self
    let (pop_outer_redir, c) ← apply_redirection c redirects
    let c ← (match cmdty with
      | .SimpleCommand simple => do
          let (argv, c) ← allocate_list c
          let (pop_redir, c) ← apply_redirection c simple.redirects
          let (pop_env, c) :=
            if !simple.words.isEmpty && !(simple.assignments.isEmpty) then
              (true, c.push .PushEnvironment)
            else
              (false, c)
          let c ← process_assignments c simple.assignments
          let c ← expand_words c argv simple.words
          let (status, c) ← allocSlot c
          let c := c.push (.SpawnCommand (.FrameRelative argv) (.FrameRelative status))
          let c := if asynchronous then c else c.push (.Wait (.FrameRelative status))
          let c ← freeSlot c status
          let c := if pop_env then c.push .PopEnvironment else c
          .ok (pop_redirection c pop_redir)
      | .If condition true_part false_part => do
          let c ← compound_list c condition
          let (c, first_jump) := ite_begin c .LastWaitStatus
          let c ← (match true_part with
            | .someCL tp => compound_list c tp
            | .noneCL => .ok c)
          let (c, second_jump) ← ite_elseJump c first_jump
          let c ← (match false_part with
            | .someCL fp => compound_list c fp
            | .noneCL => .ok c)
          ite_done c second_jump
      | .Program l => compound_list c l
      | .BraceGroup l => compound_list c l
      | .Pipeline commands inverted => do
          let num_commands := commands.length
          let c ← (if num_commands ≤ 1 then
              compile_seq c commands
            else
              pipeline_loop c commands 0 num_commands)
          .ok (if inverted then c.push .InvertLastWait else c)
      | .ForEach => .error "unhandled command type"
      | .While => .error "unhandled command type"
      | .Until => .error "unhandled command type"
      | .CaseMatch => .error "unhandled command type"
      | .FunctionDefinition => .error "unhandled command type"
      | .Subshell => .error "unhandled command type")
    let c := pop_redirection c pop_outer_redir
    commit_frame c

def compile_seq (self : Compiler) (commands : CommandList) : Except String Compiler :=
  match commands with
  | .nil => .ok self
  | .cons cmd rest => do
      let c ← compile_command self cmd
      compile_seq c rest

def pipeline_loop (self : Compiler) (commands : CommandList) (i num_commands : Nat) :
    Except String Compiler :=
  match commands with
  | .nil => .ok self
  | .cons cmd rest => do
      let c := self.push .PushIoEnv
      let first := i == 0
      let c := if first then c else c.push .PopPipe
      let last := i == num_commands - 1
      let c := if last then c else c.push .PushPipe
      let c ← compile_command c cmd
      let c := c.push .PopIoEnv
      pipeline_loop c rest (i + 1) num_commands

def compound_list (self : Compiler) (l : CompoundList) : Except String Compiler :=
  match l with
  | .mk commands => compile_seq self commands
end

/-- Compile a whole command into a finished program, as the in-tree
tests do: `compile_command` from a fresh compiler followed by
`finish`. -/
def compileProg (command : Command) : Except String (List Operation) := do
  let c ← compile_command Compiler.new command
  c.finish

/-!
The virtual machine.  The `shell_vm` crate is not among the sources;
the machine below is modelled from the spec (sections 4.3 and 4.4),
with three behaviours that the in-tree tests of the compiler pin down
taking precedence over the spec text where the two disagree:

1. A frame pushed by `PushFrame{size}` has slots `0..size` inclusive
   (`size` user slots plus the reserved slot 0): the `basic_echo` test
   runs a program that dereferences `FrameRelative(2)` under
   `PushFrame{size:2}` and completes successfully.

2. `ListAppend` with `split = true` field-splits the appended string
   on whitespace and drops empty fields: `test_param_get` pins argv
   `["echo"]` for `echo $foo` (unset `foo`, split set) but
   `["echo",""]` for `echo "$foo"` (split clear), and
   `test_param_get_default` pins `["echo","bar","baz"]` for
   `echo ${foo:-bar baz}`.  The spec text says both flags are ignored;
   the tests show `split` is not.  `glob` is ignored.

3. `Error` stops execution with status 1 after writing the message:
   `test_param_check_set` pins an empty spawn log, empty stdout and
   final status `Complete(1)` for `echo ${foo:?}`, which is impossible
   if execution continued into the pending `SpawnCommand`
   (`argv = ["echo"]` at that point).  The spec text says execution
   continues; the test shows it does not.

File, fd and pipe side effects (`OpenFile`, `DupFd`, `PushPipe`,
`PopPipe`) are outside the model: the operations only advance the
instruction pointer, with the I/O stack tracked as a depth counter.
Spawning is modelled on the in-tree `TestHost`: every `SpawnCommand`
execution is recorded in `spawn_log`, `true`/`echo`/`false` complete
with 0/0/1, anything else with 2, and a missing or non-string argv0 is
a spawn error surfaced in-band as a non-zero status. -/

def valueToStrList (one : Value → String) : List Value → String
  | [] => ""
  | [v] => one v
  | v :: v2 :: rest => one v ++ " " ++ valueToStrList one (v2 :: rest)

/-- String representation of a value: None is empty, strings are
themselves, integers and status handles print their number, lists join
their members with single spaces. -/
def valueToStr : Value → String
  | .None => ""
  | .String s => s
  | .Integer n => toString n
  | .WaitableStatus code => toString code
  | .List vs => valueToStrList (fun v => match v with
      | .None => ""
      | .String s => s
      | .Integer n => toString n
      | .WaitableStatus code => toString code
      | .List _ => "") vs

/-- Default IFS characters: space, tab, newline. -/
def isIfsChar (ch : Char) : Bool := ch == ' ' || ch == '\t' || ch == '\n'

def splitFieldsAux : List Char → List Char → List String
  | [], acc => if acc.isEmpty then [] else [String.mk acc.reverse]
  | ch :: rest, acc =>
      if isIfsChar ch then
        (if acc.isEmpty then [] else [String.mk acc.reverse]) ++ splitFieldsAux rest []
      else
        splitFieldsAux rest (ch :: acc)

/-- Field splitting on the default IFS: split on whitespace runs and
drop empty fields, so an empty string yields no field at all. -/
def splitFields (s : String) : List String := splitFieldsAux s.data []

def envGet (env : List (String × String)) (key : String) : Option String :=
  match env with
  | [] => none
  | (k, v) :: rest => if k = key then some v else envGet rest key

def envSet (env : List (String × String)) (key value : String) :
    List (String × String) :=
  match env with
  | [] => [(key, value)]
  | (k, v) :: rest => if k = key then (key, value) :: rest else (k, v) :: envSet rest key value

/-- Machine state, from the spec (section 4.4): instruction pointer,
frame stack, environment stack, I/O stack (depth only), last wait
status, and the observable host-side effects (stdout, stderr, spawn
log). -/
structure MachineState where
  ip : Nat
  frames : List (List Value)
  environments : List (List (String × String))
  io_depth : Nat
  last_wait : Int
  stdout : String
  stderr : String
  spawn_log : List (List Value)

/-- Outcome of one operation: keep running, stop with an exit code, or
halt the machine with a runtime error. -/
inductive StepOutcome where
  | next (st : MachineState)
  | stop (st : MachineState) (code : Int)
  | fault (msg : String)

/-- Read-operand resolution, from the spec (section 4.3). -/
def resolveOperand (st : MachineState) : Operand → Except String Value
  | .Immediate v => .ok v
  | .FrameRelative n =>
      match st.frames with
      | [] => .error "no frame"
      | f :: _ =>
          match f.get? n with
          | some v => .ok v
          | none => .error "slot out of range"
  | .LastWaitStatus => .ok (.Integer st.last_wait)

/-- Write-operand resolution: only frame-relative slots are
writable. -/
def writeOperand (st : MachineState) (dest : Operand) (v : Value) :
    Except String MachineState :=
  match dest with
  | .FrameRelative n =>
      match st.frames with
      | [] => .error "no frame"
      | f :: rest =>
          if n < f.length then .ok { st with frames := f.set n v :: rest }
          else .error "slot out of range"
  | _ => .error "destination is not frame relative"

def okNext (r : Except String MachineState) : StepOutcome :=
  match r with
  | .ok st => .next { st with ip := st.ip + 1 }
  | .error e => .fault e

/-- Condition test of `JumpIfZero`: integer zero, None and the empty
string branch. -/
def isZeroValue : Value → Bool
  | .Integer n => n == 0
  | .None => true
  | .String s => s.isEmpty
  | _ => false

/-- Home-directory lookup, modelled on the in-tree `TestHost`. -/
def lookupHomedir : Value → Except String String
  | .None => .ok "/home/wez"
  | .String "wez" => .ok "/home/wez"
  | .String "one" => .ok "/home/one"
  | _ => .error "unknown user"

/-- Stdout produced by the in-tree `TestHost` implementation of `echo`
(space before every argument but the first, newline after every
argument, nothing for zero arguments). -/
def echoOut : List Value → Nat → String
  | [], _ => ""
  | v :: rest, i =>
      (if i > 0 then " " else "")
        ++ (match v with | .String s => s | _ => "") ++ "\n"
        ++ echoOut rest (i + 1)

/-- Spawn behaviour, modelled on the in-tree `TestHost`: exit code and
stdout contribution.  A missing or non-string argv0 is a spawn error,
surfaced in-band as a non-zero completion. -/
def hostSpawn (argv : List Value) : Int × String :=
  match argv with
  | [] => (1, "")
  | argv0 :: args =>
      match argv0 with
      | .String "true" => (0, "")
      | .String "echo" => (0, echoOut args 0)
      | .String "false" => (1, "")
      | .String _ => (2, "")
      | _ => (1, "")

/-- One operation of the machine, from the spec (section 4.3) with the
test-pinned corrections listed above. -/
def execOp (st : MachineState) (op : Operation) : StepOutcome :=
  match op with
  | .PushFrame size =>
      .next { st with frames := List.replicate (size + 1) Value.None :: st.frames,
                      ip := st.ip + 1 }
  | .PopFrame =>
      match st.frames with
      | [] => .fault "frame stack underflow"
      | _ :: rest => .next { st with frames := rest, ip := st.ip + 1 }
  | .Copy source destination =>
      match resolveOperand st source with
      | .error e => .fault e
      | .ok v => okNext (writeOperand st destination v)
  | .StringAppend source destination =>
      match resolveOperand st source with
      | .error e => .fault e
      | .ok sv =>
          match resolveOperand st destination with
          | .error e => .fault e
          | .ok (.String d) => okNext (writeOperand st destination (.String (d ++ valueToStr sv)))
          | .ok _ => .fault "string append to non-string"
  | .ListAppend value lst splitFlag _globFlag =>
      match resolveOperand st value with
      | .error e => .fault e
      | .ok v =>
          match resolveOperand st lst with
          | .error e => .fault e
          | .ok (.List xs) =>
              let appended := if splitFlag
                then (splitFields (valueToStr v)).map Value.String
                else [v]
              okNext (writeOperand st lst (.List (xs ++ appended)))
          | .ok _ => .fault "list append to non-list"
  | .JoinList lst destination =>
      match resolveOperand st lst with
      | .error e => .fault e
      | .ok (.List xs) =>
          okNext (writeOperand st destination (.String (valueToStrList valueToStr xs)))
      | .ok _ => .fault "join of non-list"
  | .GetEnv name target =>
      match resolveOperand st name with
      | .error e => .fault e
      | .ok nv =>
          match st.environments with
          | [] => .fault "no environment"
          | env :: _ =>
              let v := match envGet env (valueToStr nv) with
                | some s => Value.String s
                | none => Value.None
              okNext (writeOperand st target v)
  | .SetEnv name value =>
      match resolveOperand st name with
      | .error e => .fault e
      | .ok nv =>
          match resolveOperand st value with
          | .error e => .fault e
          | .ok vv =>
              match st.environments with
              | [] => .fault "no environment"
              | env :: rest =>
                  .next { st with
                    environments := envSet env (valueToStr nv) (valueToStr vv) :: rest,
                    ip := st.ip + 1 }
  | .PushEnvironment =>
      match st.environments with
      | [] => .fault "no environment"
      | env :: rest => .next { st with environments := env :: env :: rest, ip := st.ip + 1 }
  | .PopEnvironment =>
      match st.environments with
      | [] => .fault "environment stack underflow"
      | _ :: rest => .next { st with environments := rest, ip := st.ip + 1 }
  | .IsNone source destination =>
      match resolveOperand st source with
      | .error e => .fault e
      | .ok v =>
          okNext (writeOperand st destination
            (.Integer (if (match v with | .None => true | _ => false) then 1 else 0)))
  | .IsNoneOrEmptyString source destination =>
      match resolveOperand st source with
      | .error e => .fault e
      | .ok v =>
          okNext (writeOperand st destination
            (.Integer (if (match v with
              | .None => true
              | .String s => s.isEmpty
              | _ => false) then 1 else 0)))
  | .StringLength string length =>
      match resolveOperand st string with
      | .error e => .fault e
      | .ok v =>
          okNext (writeOperand st length (.Integer (Int.ofNat (valueToStr v).length)))
  | .TildeExpand name destination =>
      match resolveOperand st name with
      | .error e => .fault e
      | .ok nv =>
          match lookupHomedir nv with
          | .error e => .fault e
          | .ok home => okNext (writeOperand st destination (.String home))
  | .JumpIfZero condition target =>
      match resolveOperand st condition with
      | .error e => .fault e
      | .ok v =>
          match target with
          | .Absolute t =>
              if isZeroValue v then .next { st with ip := t }
              else .next { st with ip := st.ip + 1 }
  | .Jump target =>
      match target with
      | .Absolute t => .next { st with ip := t }
  | .SpawnCommand argv status =>
      match resolveOperand st argv with
      | .error e => .fault e
      | .ok (.List xs) =>
          let r := hostSpawn xs
          let st := { st with spawn_log := st.spawn_log ++ [xs],
                              stdout := st.stdout ++ r.2 }
          okNext (writeOperand st status (.WaitableStatus r.1))
      | .ok _ => .fault "spawn argv is not a list"
  | .Wait status =>
      match resolveOperand st status with
      | .error e => .fault e
      | .ok (.WaitableStatus code) => .next { st with last_wait := code, ip := st.ip + 1 }
      | .ok _ => .fault "wait on non-status"
  | .InvertLastWait =>
      .next { st with last_wait := if st.last_wait == 0 then 1 else 0, ip := st.ip + 1 }
  | .PushIoEnv => .next { st with io_depth := st.io_depth + 1, ip := st.ip + 1 }
  | .PopIoEnv =>
      match st.io_depth with
      | 0 => .fault "io stack underflow"
      | d + 1 => .next { st with io_depth := d, ip := st.ip + 1 }
  | .OpenFile _ _ _ _ _ _ => .next { st with ip := st.ip + 1 }
  | .DupFd _ _ => .next { st with ip := st.ip + 1 }
  | .PushPipe => .next { st with ip := st.ip + 1 }
  | .PopPipe => .next { st with ip := st.ip + 1 }
  | .Error message =>
      match resolveOperand st message with
      | .error e => .fault e
      | .ok v =>
          .stop { st with stderr := st.stderr ++ valueToStr v,
                          last_wait := 1, ip := st.ip + 1 } 1
  | .Exit value =>
      match resolveOperand st value with
      | .error e => .fault e
      | .ok (.Integer n) => .stop st n
      | .ok (.WaitableStatus n) => .stop st n
      | .ok _ => .fault "exit value is not an integer"

/-- Fetch-and-execute: running off the end of the program is
equivalent to `Exit{LastWaitStatus}` (spec, section 4.4). -/
def stepM (prog : List Operation) (st : MachineState) : StepOutcome :=
  match prog.get? st.ip with
  | none => .stop st st.last_wait
  | some op => execOp st op

/-- Fuel-bounded run loop; every program considered here terminates
well within its fuel. -/
def runFuel (prog : List Operation) : Nat → MachineState → Except String (MachineState × Int)
  | 0, _ => .error "out of fuel"
  | fuel + 1, st =>
      match stepM prog st with
      | .next st2 => runFuel prog fuel st2
      | .stop st2 code => .ok (st2, code)
      | .fault e => .error e

/-- Initial machine state, as built by the in-tree tests: one empty
environment, one I/O context, last wait status 0. -/
def initState : MachineState :=
  ⟨0, [], [[]], 1, 0, "", "", []⟩

/-- Spawn log projected to strings: the argv lists as the host sees
them. -/
def spawnLogStrings (st : MachineState) : List (List String) :=
  st.spawn_log.map (fun xs => xs.map valueToStr)

/-!
Concrete ASTs for the shell fragments exercised by the in-tree tests.
The parser is external; these terms are the parse results the tests
feed to the compiler (a lone simple command parses to the simple
command itself, with unquoted components splittable and double-quoted
components not splittable).
-/

/-- One-component literal word. -/
def litWord (s : String) : Word := .cons (.mk true (.Literal s)) .nil

/-- AST of `echo hello`, the input of the in-tree `basic_echo` test. -/
def echoHelloCmd : Command :=
  .mk (.SimpleCommand ⟨[], [], .cons (litWord "echo") (.cons (litWord "hello") .nil)⟩)
    [] false

/-- AST of `echo ${foo:?}`, from the in-tree `test_param_check_set`. -/
def checkSetEmptyCmd : Command :=
  .mk (.SimpleCommand ⟨[], [],
    .cons (litWord "echo")
      (.cons (.cons (.mk true (.ParamExpand (.mk (.CheckSet false) "foo" .nil))) .nil)
        .nil)⟩) [] false

/-- AST of `echo ${foo:?bar}`, from the in-tree `test_param_check_set`. -/
def checkSetBarCmd : Command :=
  .mk (.SimpleCommand ⟨[], [],
    .cons (litWord "echo")
      (.cons (.cons (.mk true (.ParamExpand
        (.mk (.CheckSet false) "foo" (.cons (litWord "bar") .nil)))) .nil)
        .nil)⟩) [] false

/-- AST of `echo $foo` (unquoted, so the expansion is splittable),
from the in-tree `test_param_get`. -/
def paramGetCmd : Command :=
  .mk (.SimpleCommand ⟨[], [],
    .cons (litWord "echo")
      (.cons (.cons (.mk true (.ParamExpand (.mk .Get "foo" .nil))) .nil) .nil)⟩)
    [] false

/-- AST of `echo "$foo"` (double-quoted, so the expansion is not
splittable), from the in-tree `test_param_get`. -/
def paramGetQuotedCmd : Command :=
  .mk (.SimpleCommand ⟨[], [],
    .cons (litWord "echo")
      (.cons (.cons (.mk false (.ParamExpand (.mk .Get "foo" .nil))) .nil) .nil)⟩)
    [] false

/-!
Static checkers over emitted programs, used to state the frame-slot
and frame-balance invariants.
-/

/-- Frame slots named by an operand. -/
def operandSlots : Operand → List Nat
  | .FrameRelative n => [n]
  | _ => []

/-- Every frame slot an operation dereferences (reads or writes). -/
def opSlots : Operation → List Nat
  | .PushFrame _ => []
  | .PopFrame => []
  | .Copy s d => operandSlots s ++ operandSlots d
  | .StringAppend s d => operandSlots s ++ operandSlots d
  | .ListAppend v l _ _ => operandSlots v ++ operandSlots l
  | .JoinList l d => operandSlots l ++ operandSlots d
  | .GetEnv n t => operandSlots n ++ operandSlots t
  | .SetEnv n v => operandSlots n ++ operandSlots v
  | .PushEnvironment => []
  | .PopEnvironment => []
  | .IsNone s d => operandSlots s ++ operandSlots d
  | .IsNoneOrEmptyString s d => operandSlots s ++ operandSlots d
  | .StringLength s l => operandSlots s ++ operandSlots l
  | .TildeExpand n d => operandSlots n ++ operandSlots d
  | .JumpIfZero cond _ => operandSlots cond
  | .Jump _ => []
  | .SpawnCommand a s => operandSlots a ++ operandSlots s
  | .Wait s => operandSlots s
  | .InvertLastWait => []
  | .PushIoEnv => []
  | .PopIoEnv => []
  | .OpenFile n _ _ _ _ _ => operandSlots n
  | .DupFd _ _ => []
  | .PushPipe => []
  | .PopPipe => []
  | .Error m => operandSlots m
  | .Exit v => operandSlots v

/-- Slot check against the innermost frame size, inclusive bound:
`1 ≤ n ≤ size`. -/
def checkSlotLe (bound : Option Nat) (n : Nat) : Bool :=
  match bound with
  | some m => decide (1 ≤ n) && decide (n ≤ m)
  | none => false

/-- Slot check with the strict bound `1 ≤ n < size` that the spec
text states. -/
def checkSlotLt (bound : Option Nat) (n : Nat) : Bool :=
  match bound with
  | some m => decide (1 ≤ n) && decide (n < m)
  | none => false

/-- Walk a program keeping the stack of enclosing `PushFrame` sizes and
check every dereferenced slot `n` against the innermost size with
`1 ≤ n ≤ size`; also fails on a `PopFrame` without a matching
`PushFrame`.  Returns the remaining frame-size stack. -/
def checkOpsLe : List Operation → List Nat → Option (List Nat)
  | [], s => some s
  | op :: rest, s =>
      match op with
      | .PushFrame size => checkOpsLe rest (size :: s)
      | .PopFrame =>
          match s with
          | [] => none
          | _ :: s2 => checkOpsLe rest s2
      | _ => if (opSlots op).all (checkSlotLe s.head?) then checkOpsLe rest s else none

/-- Same walk with the strict per-slot bound `1 ≤ n < size`. -/
def checkOpsLt : List Operation → List Nat → Option (List Nat)
  | [], s => some s
  | op :: rest, s =>
      match op with
      | .PushFrame size => checkOpsLt rest (size :: s)
      | .PopFrame =>
          match s with
          | [] => none
          | _ :: s2 => checkOpsLt rest s2
      | _ => if (opSlots op).all (checkSlotLt s.head?) then checkOpsLt rest s else none

/-- Frame-balance walk: track only the `PushFrame`/`PopFrame` nesting
depth, failing on underflow. -/
def frameDepthWalk : List Operation → Nat → Option Nat
  | [], d => some d
  | .PushFrame _ :: rest, d => frameDepthWalk rest (d + 1)
  | .PopFrame :: rest, d =>
      match d with
      | 0 => none
      | d2 + 1 => frameDepthWalk rest d2
  | _ :: rest, d => frameDepthWalk rest d

/-- Operations an in-frame emission helper may produce: anything but
frame or environment push/pop. -/
def isFlat : Operation → Bool
  | .PushFrame _ => false
  | .PopFrame => false
  | .PushEnvironment => false
  | .PopEnvironment => false
  | _ => true

/-!
Emission invariants used to verify the compiler's frame discipline:
well-formedness of the register allocator, the shape of code emitted
inside one frame, segment- and command-level emission relations, and
the shape predicates for pipeline lowering and environment scoping.
-/

/-- Well-formed allocator: every recycled slot is a user slot at or
below the high-water mark. -/
def allocWF (a : RegisterAllocator) : Prop :=
  ∀ r ∈ a.free_regs, 1 ≤ r ∧ r ≤ a.top

/-- Every slot the operation touches lies in `1..m`. -/
def slotsBound (m : Nat) (op : Operation) : Prop :=
  ∀ n ∈ opSlots op, 1 ≤ n ∧ n ≤ m

/-- Operations an in-frame emission helper may produce: flat (no frame
or environment push/pop) with all slots in `1..m`. -/
def innerOps (m : Nat) (ops : List Operation) : Prop :=
  ∀ op ∈ ops, isFlat op = true ∧ slotsBound m op

/-- Emission inside the current frame: the frame stack keeps its tail,
the top frame keeps its start address, the allocator high-water mark
only grows and stays well formed, and the program grows by flat
operations bounded by the new high-water mark. -/
def InnerEmitTo (fc : FrameCompiler) (rest : List FrameCompiler)
    (c c2 : Compiler) (fc2 : FrameCompiler) : Prop :=
  c2.frames = fc2 :: rest ∧
  fc2.frame_start_program_address = fc.frame_start_program_address ∧
  fc.allocator.top ≤ fc2.allocator.top ∧
  allocWF fc2.allocator ∧
  ∃ new, c2.program = c.program ++ new ∧ innerOps fc2.allocator.top new

/-- Operations that manipulate the frame stack in the slot checkers. -/
def isFrameOp : Operation → Bool
  | .PushFrame _ => true
  | .PopFrame => true
  | _ => false

/-- A program segment that leaves any checker stack unchanged: the shape
every compiled command block and command sequence has. -/
def SegOk (ops : List Operation) : Prop :=
  ∀ s : List Nat, checkOpsLe ops s = some s

/-- A segment emitted inside a frame of final size `m`: passes the
checker under that frame. -/
def mixOps (m : Nat) (ops : List Operation) : Prop :=
  ∀ s : List Nat, checkOpsLe ops (m :: s) = some (m :: s)

/-- Emission of a self-contained segment: the frame stack is untouched
and the appended operations pass the slot checker under any enclosing
stack. -/
def SegEmit (c c2 : Compiler) : Prop :=
  c2.frames = c.frames ∧ ∃ new, c2.program = c.program ++ new ∧ SegOk new

/-- Result of compiling one whole command starting from `c`: the frame
stack is restored, and the program grows by one balanced
`PushFrame`/.../`PopFrame` block that passes the inclusive slot
checker under any enclosing stack. -/
def CmdEmit (c c2 : Compiler) : Prop :=
  c2.frames = c.frames ∧
  ∃ sz T, c2.program = c.program ++ (Operation.PushFrame sz :: (T ++ [Operation.PopFrame])) ∧
    SegOk (Operation.PushFrame sz :: (T ++ [Operation.PopFrame]))

def pipeSegs : Nat → Nat → Nat → List Operation → Prop
  | 0, _, _, segs => segs = []
  | k + 1, i, n, segs => ∃ sz B restSegs,
      segs = [Operation.PushIoEnv] ++ (if i == 0 then [] else [Operation.PopPipe]) ++
        (if i == n - 1 then [] else [Operation.PushPipe]) ++
        (Operation.PushFrame sz :: (B ++ [Operation.PopFrame])) ++
        [Operation.PopIoEnv] ++ restSegs ∧
      pipeSegs k (i + 1) n restSegs

def pipeTwoCmd : Command :=
  .mk (.Pipeline (.cons echoHelloCmd (.cons echoHelloCmd .nil)) false) [] false

def assignWordCmd : Command :=
  .mk (.SimpleCommand ⟨[⟨"x", litWord "1"⟩], [], .cons (litWord "echo") .nil⟩) [] false

def PipelineLowered (commands : CommandList) (inverted : Bool)
    (redirects : List Redirection) (c c2 : Compiler) : Prop :=
  ∃ b0 cR cP,
    apply_redirection (reserve_frame c) redirects = .ok (b0, cR) ∧
    ((CommandList.length commands ≤ 1 ∧ compile_seq cR commands = .ok cP) ∨
     (¬CommandList.length commands ≤ 1 ∧
       pipeline_loop cR commands 0 (CommandList.length commands) = .ok cP ∧
       ∃ segs, cP.program = cR.program ++ segs ∧
         pipeSegs (CommandList.length commands) 0 (CommandList.length commands) segs)) ∧
    commit_frame (pop_redirection
      (if inverted then cP.push Operation.InvertLastWait else cP) b0) = .ok c2

def EnvScoped (simple : SimpleCmd) (c c2 : Compiler) : Prop :=
  ∃ new, c2.program = c.program ++ new ∧
    ((!WordList.isEmpty simple.words && !simple.assignments.isEmpty) = true →
      ∃ A B C argv status,
        new = A ++ ([Operation.PushEnvironment] ++ (B ++ ([Operation.PopEnvironment] ++ C))) ∧
        Operation.SpawnCommand (Operand.FrameRelative argv) (Operand.FrameRelative status) ∈ B) ∧
    ((!WordList.isEmpty simple.words && !simple.assignments.isEmpty) = false →
      Operation.PushEnvironment ∉ new ∧ Operation.PopEnvironment ∉ new)

/-!
List index helpers used when reasoning about jump patching.
-/

theorem list_set_append_length_add {α : Type} (l m : List α) (k : Nat) (v : α) :
    (l ++ m).set (l.length + k) v = l ++ m.set k v := by
  induction l with
  | nil => simp
  | cons a l ih => simp [List.set, Nat.succ_add, ih]

theorem list_getElem?_append_length_add {α : Type} (l m : List α) (k : Nat) :
    (l ++ m)[l.length + k]? = m[k]? := by
  induction l with
  | nil => simp
  | cons a l ih => simpa [Nat.succ_add] using ih

theorem list_get?_append_length_add {α : Type} (l m : List α) (k : Nat) :
    (l ++ m).get? (l.length + k) = m.get? k := by
  simpa [List.get?_eq_getElem?] using list_getElem?_append_length_add l m k

/-- C10: `Compiler::finish` never fails and appends exactly one
operation, `Exit{LastWaitStatus}`; the finished program is therefore
non-empty with that exit as its final operation, and executing that
exit stops the machine with the last wait status as the exit code. -/
theorem finish_emits_exit_last_wait :
    ∀ c : Compiler,
      Compiler.finish c = .ok (c.program ++ [Operation.Exit Operand.LastWaitStatus]) ∧
      c.program ++ [Operation.Exit Operand.LastWaitStatus] ≠ [] ∧
      (c.program ++ [Operation.Exit Operand.LastWaitStatus]).getLast?
        = some (Operation.Exit Operand.LastWaitStatus) ∧
      (∀ st : MachineState, execOp st (.Exit .LastWaitStatus) = .stop st st.last_wait) := by
  intro c
  refine ⟨rfl, by simp, ?_, fun st => rfl⟩
  simp [List.getLast?_concat]

/-!
Jump patching: helper lemmas about the three stages of
`Compiler::if_then_else`.
-/


theorem ite_elseJump_ok (base T : List Operation) (cond : Operand)
    (fr : List FrameCompiler) :
    ite_elseJump ⟨base ++ [.JumpIfZero cond (.Absolute 0)] ++ T, fr⟩ base.length
    = .ok (⟨base ++ [.JumpIfZero cond (.Absolute (base.length + 1 + T.length + 1))]
            ++ T ++ [.Jump (.Absolute 0)], fr⟩,
           base.length + 1 + T.length) := by
  have hget : ((base ++ [Operation.JumpIfZero cond (.Absolute 0)] ++ T)
      ++ [Operation.Jump (.Absolute 0)]).get? base.length
      = some (.JumpIfZero cond (.Absolute 0)) := by
    have := list_get?_append_length_add base
      ([Operation.JumpIfZero cond (.Absolute 0)] ++ T ++ [Operation.Jump (.Absolute 0)]) 0
    simpa [List.append_assoc] using this
  have hset : ∀ v : Operation,
      ((base ++ [Operation.JumpIfZero cond (.Absolute 0)] ++ T)
        ++ [Operation.Jump (.Absolute 0)]).set base.length v
      = base ++ [v] ++ T ++ [Operation.Jump (.Absolute 0)] := by
    intro v
    have := list_set_append_length_add base
      ([Operation.JumpIfZero cond (.Absolute 0)] ++ T ++ [Operation.Jump (.Absolute 0)]) 0 v
    simpa [List.append_assoc] using this
  have hlen : (base ++ [Operation.JumpIfZero cond (.Absolute 0)] ++ T).length
      = base.length + 1 + T.length := by
    simp only [List.length_append, List.length_cons, List.length_nil]
  simp only [ite_elseJump, Compiler.push, hlen]
  simp only [hget, hset]

theorem ite_done_ok (base E : List Operation) (t : InstructionAddress)
    (fr : List FrameCompiler) :
    ite_done ⟨base ++ [.Jump t] ++ E, fr⟩ base.length
    = .ok ⟨base ++ [.Jump (.Absolute (base.length + 1 + E.length))] ++ E, fr⟩ := by
  have hget : (base ++ [Operation.Jump t] ++ E).get? base.length = some (.Jump t) := by
    have := list_get?_append_length_add base ([Operation.Jump t] ++ E) 0
    simpa [List.append_assoc] using this
  have hset : ∀ v : Operation,
      (base ++ [Operation.Jump t] ++ E).set base.length v = base ++ [v] ++ E := by
    intro v
    have := list_set_append_length_add base ([Operation.Jump t] ++ E) 0 v
    simpa [List.append_assoc] using this
  have hlen : (base ++ [Operation.Jump t] ++ E).length = base.length + 1 + E.length := by
    simp only [List.length_append, List.length_cons, List.length_nil]
  simp only [ite_done, hlen, hget, hset]

theorem if_then_else_patch_correct
    (c : Compiler) (cond : Operand) (then_ else_ : Compiler → Except String Compiler)
    (T E : List Operation) (fr2 fr4 : List FrameCompiler)
    (hthen : then_ (c.push (.JumpIfZero cond (.Absolute 0)))
      = .ok ⟨c.program ++ [.JumpIfZero cond (.Absolute 0)] ++ T, fr2⟩)
    (helse : else_ ⟨c.program
        ++ [.JumpIfZero cond (.Absolute (c.program.length + 1 + T.length + 1))]
        ++ T ++ [.Jump (.Absolute 0)], fr2⟩
      = .ok ⟨c.program
        ++ [.JumpIfZero cond (.Absolute (c.program.length + 1 + T.length + 1))]
        ++ T ++ [.Jump (.Absolute 0)] ++ E, fr4⟩) :
    if_then_else c cond then_ else_
      = .ok ⟨c.program
          ++ [.JumpIfZero cond (.Absolute (c.program.length + 1 + T.length + 1))]
          ++ T
          ++ [.Jump (.Absolute (c.program.length + 1 + T.length + 1 + E.length))]
          ++ E, fr4⟩ := by
  have hb : (c.program
      ++ [Operation.JumpIfZero cond (.Absolute (c.program.length + 1 + T.length + 1))]
      ++ T).length = c.program.length + 1 + T.length := by
    simp only [List.length_append, List.length_cons, List.length_nil]
  simp only [if_then_else, ite_begin, bind, Except.bind, hthen]
  rw [ite_elseJump_ok c.program T cond fr2]
  simp only [helse]
  have hd := ite_done_ok
    (c.program
      ++ [Operation.JumpIfZero cond (.Absolute (c.program.length + 1 + T.length + 1))]
      ++ T) E (.Absolute 0) fr4
  rw [hb] at hd
  rw [hd]

theorem ite_elseJump_mismatch (c2 : Compiler) (fj : Nat)
    (hbad : ∀ cnd tgt, c2.program[fj]? ≠ some (.JumpIfZero cnd tgt)) :
    ite_elseJump c2 fj = .error "opcode mismatch while patching jump" := by
  unfold ite_elseJump
  simp only [Compiler.push, List.get?_eq_getElem?]
  cases hg : (c2.program ++ [Operation.Jump (.Absolute 0)])[fj]? with
  | none => rfl
  | some op =>
      cases op with
      | JumpIfZero cnd tgt =>
          exfalso
          by_cases h : fj < c2.program.length
          · exact hbad cnd tgt (by rw [List.getElem?_append_left h] at hg; exact hg)
          · rw [List.getElem?_append_right (le_of_not_lt h)] at hg
            cases hk : fj - c2.program.length with
            | zero => rw [hk] at hg; simp at hg
            | succ k => rw [hk] at hg; simp at hg
      | _ => rfl

theorem ite_done_mismatch (c4 : Compiler) (sj : Nat)
    (hbad : ∀ tgt, c4.program[sj]? ≠ some (.Jump tgt)) :
    ite_done c4 sj = .error "opcode mismatch while patching jump" := by
  unfold ite_done
  simp only [List.get?_eq_getElem?]

/-- C6: for every if-then-else emission with body emitters that append
to the program, the `JumpIfZero` emitted before the then-body is
patched to target the instruction immediately after the unconditional
`Jump` that follows the then-body, and that `Jump` is patched to
target the instruction immediately after the else-body; and if either
patch site does not hold the expected opcode at patch time,
compilation fails with the jump-patching error. -/
theorem if_then_else_patching :
    (∀ (c : Compiler) (cond : Operand) (then_ else_ : Compiler → Except String Compiler)
        (T E : List Operation) (fr2 fr4 : List FrameCompiler),
      then_ (c.push (.JumpIfZero cond (.Absolute 0)))
          = .ok ⟨c.program ++ [.JumpIfZero cond (.Absolute 0)] ++ T, fr2⟩ →
      else_ ⟨c.program
          ++ [.JumpIfZero cond (.Absolute (c.program.length + 1 + T.length + 1))]
          ++ T ++ [.Jump (.Absolute 0)], fr2⟩
        = .ok ⟨c.program
          ++ [.JumpIfZero cond (.Absolute (c.program.length + 1 + T.length + 1))]
          ++ T ++ [.Jump (.Absolute 0)] ++ E, fr4⟩ →
      if_then_else c cond then_ else_
        = .ok ⟨c.program
            ++ [.JumpIfZero cond (.Absolute (c.program.length + 1 + T.length + 1))]
            ++ T
            ++ [.Jump (.Absolute (c.program.length + 1 + T.length + 1 + E.length))]
            ++ E, fr4⟩) ∧
    (∀ (c : Compiler) (cond : Operand) (then_ else_ : Compiler → Except String Compiler)
        (c2 : Compiler),
      then_ (c.push (.JumpIfZero cond (.Absolute 0))) = .ok c2 →
      (∀ cnd tgt, c2.program[c.program.length]? ≠ some (.JumpIfZero cnd tgt)) →
      if_then_else c cond then_ else_ = .error "opcode mismatch while patching jump") ∧
    (∀ (c : Compiler) (cond : Operand) (then_ else_ : Compiler → Except String Compiler)
        (c2 c3 : Compiler) (sj : Nat) (c4 : Compiler),
      then_ (c.push (.JumpIfZero cond (.Absolute 0))) = .ok c2 →
      ite_elseJump c2 c.program.length = .ok (c3, sj) →
      else_ c3 = .ok c4 →
      (∀ tgt, c4.program[sj]? ≠ some (.Jump tgt)) →
      if_then_else c cond then_ else_ = .error "opcode mismatch while patching jump") := by
  refine ⟨?_, ?_, ?_⟩
  · intro c cond then_ else_ T E fr2 fr4 hthen helse
    exact if_then_else_patch_correct c cond then_ else_ T E fr2 fr4 hthen helse
  · intro c cond then_ else_ c2 hthen hbad
    simp only [if_then_else, ite_begin, bind, Except.bind, hthen]
    rw [ite_elseJump_mismatch c2 c.program.length hbad]
  · intro c cond then_ else_ c2 c3 sj c4 hthen h2 h3 hbad
    simp only [if_then_else, ite_begin, bind, Except.bind, hthen, h2, h3]
    exact ite_done_mismatch c4 sj hbad

/-- Witness for C6: a concrete if-then-else emission from a fresh
compiler, with one-operation bodies, yields the fully patched
sequence. -/
theorem if_then_else_patching_witness :
    if_then_else Compiler.new .LastWaitStatus
      (fun x => .ok (x.push (.Copy (.Immediate .None) (.FrameRelative 1))))
      (fun x => .ok (x.push (.SetEnv (.Immediate .None) (.Immediate .None))))
    = .ok ⟨[.JumpIfZero .LastWaitStatus (.Absolute 3),
            .Copy (.Immediate .None) (.FrameRelative 1),
            .Jump (.Absolute 4),
            .SetEnv (.Immediate .None) (.Immediate .None)], []⟩ :=
  if_then_else_patching.1 Compiler.new .LastWaitStatus
    (fun x => .ok (x.push (.Copy (.Immediate .None) (.FrameRelative 1))))
    (fun x => .ok (x.push (.SetEnv (.Immediate .None) (.Immediate .None))))
    [.Copy (.Immediate .None) (.FrameRelative 1)]
    [.SetEnv (.Immediate .None) (.Immediate .None)] [] [] rfl rfl

/-!
Unimplemented constructs: predicates and failure lemmas.
-/


def Word.hasCommandSubst : Word → Bool
  | .nil => false
  | .cons (.mk _ k) rest =>
      (match k with | WordComponentKind.CommandSubstitution => true | _ => false)
        || rest.hasCommandSubst

def ParamOper.isPatternRemoval : ParamOper → Bool
  | .RemoveSmallestSuffixPattern => true
  | .RemoveLargestSuffixPattern => true
  | .RemoveSmallestPrefixPattern => true
  | .RemoveLargestPrefixPattern => true
  | _ => false

def CommandType.isHandled : CommandType → Bool
  | .SimpleCommand _ => true
  | .If _ _ _ => true
  | .Program _ => true
  | .BraceGroup _ => true
  | .Pipeline _ _ => true
  | _ => false

theorem exceptBind_isOk_false {α β : Type} (x : Except String α)
    (f : α → Except String β) (hf : ∀ a, (f a).isOk = false) :
    (x >>= f).isOk = false := by
  cases x with
  | error e => rfl
  | ok a => simpa [bind, Except.bind] using hf a

theorem expand_components_commandsubst_fails :
    ∀ (w : Word) (c : Compiler) (ew : Nat), w.hasCommandSubst = true →
      (expand_components c ew w).isOk = false
  | .nil => by intro c ew h; simp [Word.hasCommandSubst] at h
  | .cons (.mk sp k) rest => by
      intro c ew h
      cases k with
      | CommandSubstitution => rfl
      | Literal s =>
          have hrest : rest.hasCommandSubst = true := by
            simpa [Word.hasCommandSubst] using h
          simp only [expand_components]
          exact expand_components_commandsubst_fails rest _ _ hrest
      | TildeExpand name =>
          have hrest : rest.hasCommandSubst = true := by
            simpa [Word.hasCommandSubst] using h
          simp only [expand_components]
          exact exceptBind_isOk_false _ _
            (fun c2 => expand_components_commandsubst_fails rest c2 ew hrest)
      | ParamExpand expr =>
          have hrest : rest.hasCommandSubst = true := by
            simpa [Word.hasCommandSubst] using h
          simp only [expand_components]
          exact exceptBind_isOk_false _ _
            (fun c2 => expand_components_commandsubst_fails rest c2 ew hrest)

theorem exceptBind_isOk_false_left {α β : Type} (x : Except String α)
    (f : α → Except String β) (hx : x.isOk = false) :
    (x >>= f).isOk = false := by
  cases x with
  | error e => rfl
  | ok a => simp [Except.isOk, Except.toBool] at hx

theorem word_expand_commandsubst_fails (c : Compiler) (argv : Nat) (w : Word)
    (h : w.hasCommandSubst = true) : (word_expand c argv w).isOk = false := by
  simp only [word_expand]
  apply exceptBind_isOk_false
  intro p
  apply exceptBind_isOk_false_left
  exact expand_components_commandsubst_fails w p.2 p.1 h

theorem parameter_expand_removal_fails (c : Compiler) (t : Nat) (expr : ParamExpr)
    (h : expr.kind.isPatternRemoval = true) :
    (parameter_expand c t expr).isOk = false := by
  obtain ⟨kind, name, w⟩ := expr
  cases kind <;> simp [ParamExpr.kind, ParamOper.isPatternRemoval] at h <;>
    · simp only [parameter_expand]
      apply exceptBind_isOk_false
      intro p
      rfl

theorem compile_command_unhandled_fails (c : Compiler) (cmd : Command)
    (h : cmd.command.isHandled = false) : (compile_command c cmd).isOk = false := by
  obtain ⟨kind, rd, as⟩ := cmd
  cases kind <;> simp [Command.command, CommandType.isHandled] at h <;>
    · simp only [compile_command]
      apply exceptBind_isOk_false
      intro p
      obtain ⟨b, c1⟩ := p
      rfl

/-- C9: compilation always fails with an error for each unimplemented
construct: a word containing a command-substitution component (both at
the component loop and for the whole word), a parameter expansion
using one of the four pattern-removal operators, and any command type
other than simple command, if, program, brace group and pipeline. -/
theorem unimplemented_constructs_fail :
    (∀ (c : Compiler) (ew : Nat) (w : Word), w.hasCommandSubst = true →
      (expand_components c ew w).isOk = false) ∧
    (∀ (c : Compiler) (argv : Nat) (w : Word), w.hasCommandSubst = true →
      (word_expand c argv w).isOk = false) ∧
    (∀ (c : Compiler) (t : Nat) (expr : ParamExpr), expr.kind.isPatternRemoval = true →
      (parameter_expand c t expr).isOk = false) ∧
    (∀ (c : Compiler) (cmd : Command), cmd.command.isHandled = false →
      (compile_command c cmd).isOk = false) :=
  ⟨fun c ew w h => expand_components_commandsubst_fails w c ew h,
   fun c argv w h => word_expand_commandsubst_fails c argv w h,
   fun c t expr h => parameter_expand_removal_fails c t expr h,
   fun c cmd h => compile_command_unhandled_fails c cmd h⟩

/-- Witness for C9: the three failure modes at concrete inputs: a word
that is one command substitution, a smallest-suffix pattern removal,
and an until-loop command. -/
theorem unimplemented_constructs_fail_witness :
    (word_expand Compiler.new 1 (.cons (.mk true .CommandSubstitution) .nil)).isOk
      = false ∧
    (parameter_expand Compiler.new 1
      (.mk .RemoveSmallestSuffixPattern "x" .nil)).isOk = false ∧
    (compile_command Compiler.new (.mk .Until [] false)).isOk = false :=
  ⟨unimplemented_constructs_fail.2.1 Compiler.new 1
      (.cons (.mk true .CommandSubstitution) .nil) rfl,
   unimplemented_constructs_fail.2.2.1 Compiler.new 1
      (.mk .RemoveSmallestSuffixPattern "x" .nil) rfl,
   unimplemented_constructs_fail.2.2.2 Compiler.new (.mk .Until [] false) rfl⟩

/-- Compile a command and run it, summarising the observables: exit
code, argv log as the host sees it, stdout, stderr. -/
def runShell (cmd : Command) : Except String (Int × List (List String) × String × String) :=
  (compileProg cmd).bind (fun prog =>
    (runFuel prog 100 initState).map (fun r =>
      (r.2, spawnLogStrings r.1, r.1.stdout, r.1.stderr)))

/-- Strip the split and glob flags off every `ListAppend`, leaving all
other operations untouched; two programs with the same image differ at
most in those flags. -/
def eraseFlags : Operation → Operation
  | .ListAppend v l _ _ => .ListAppend v l false false
  | op => op

/-- Counterexample to C1 as stated: the program compiled from
`echo ${foo:?}` holds its pending `SpawnCommand` at index 15, after
the `Error` at index 10, yet the run (which matches the in-tree
`test_param_check_set` exactly: status 1, stderr
`parameter foo is not set`, nothing on stdout) has an empty spawn log:
the instructions that follow the executed `Error` did not execute. -/
theorem error_does_not_continue_counterexample :
    (compileProg checkSetEmptyCmd).map (fun p => p.get? 15)
      = .ok (some (.SpawnCommand (.FrameRelative 1) (.FrameRelative 2))) ∧
    (compileProg checkSetEmptyCmd).map (fun p => p.get? 10)
      = .ok (some (.Error (.Immediate (.String "parameter foo is not set")))) ∧
    runShell checkSetEmptyCmd = .ok (1, [], "", "parameter foo is not set") :=
  ⟨rfl, rfl, rfl⟩

/-- C1 as amended: executing `Error{message}` writes the resolved
message to stderr without a trailing newline and sets the last wait
status to 1, but it terminates execution with status 1 — subsequent
instructions, including a pending `SpawnCommand` of the enclosing
simple command, do not execute.  The two runs reproduce the in-tree
`test_param_check_set` observations. -/
theorem error_writes_stderr_and_stops :
    (∀ (st : MachineState) (message : Operand) (v : Value),
      resolveOperand st message = .ok v →
      execOp st (.Error message)
        = .stop { st with stderr := st.stderr ++ valueToStr v,
                          last_wait := 1, ip := st.ip + 1 } 1) ∧
    runShell checkSetEmptyCmd = .ok (1, [], "", "parameter foo is not set") ∧
    runShell checkSetBarCmd = .ok (1, [], "", "bar") := by
  refine ⟨?_, rfl, rfl⟩
  intro st message v h
  simp [execOp, h]

/-- Witness for the amended C1 at a concrete state and message. -/
theorem error_writes_stderr_and_stops_witness :
    execOp initState (.Error (.Immediate (.String "msg")))
      = .stop ⟨1, [], [[]], 1, 1, "", "msg", []⟩ 1 :=
  error_writes_stderr_and_stops.1 initState (.Immediate (.String "msg"))
    (.String "msg") rfl

/-- Counterexample to C3 as stated: the programs compiled from
`echo $foo` and `echo "$foo"` are identical except for the split and
glob flags of their `ListAppend` operations, yet their runs hand the
host different argv lists (matching the in-tree `test_param_get`):
the flags are observable, so the runtime does not ignore them. -/
theorem listappend_flags_advisory_counterexample :
    (compileProg paramGetCmd).map (fun p => p.map eraseFlags)
      = (compileProg paramGetQuotedCmd).map (fun p => p.map eraseFlags) ∧
    runShell paramGetCmd = .ok (0, [["echo"]], "", "") ∧
    runShell paramGetQuotedCmd = .ok (0, [["echo", ""]], "\n", "") ∧
    ([["echo"]] : List (List String)) ≠ [["echo", ""]] :=
  ⟨rfl, rfl, rfl, by decide⟩

/-- C3 as amended: the glob flag of `ListAppend` is unused by the
runtime (execution is identical for either value), but the split flag
is applied: with split set the appended string is field-split on the
default IFS, so an empty expansion contributes no field and the argv
for `echo $foo` is `["echo"]` while the quoted `echo "$foo"` yields
`["echo",""]`, as the in-tree `test_param_get` pins. -/
theorem listappend_split_applied :
    (∀ (st : MachineState) (v l : Operand) (s g g2 : Bool),
      execOp st (.ListAppend v l s g) = execOp st (.ListAppend v l s g2)) ∧
    (∀ (st : MachineState) (v l : Operand) (g : Bool) (val : Value) (xs : List Value),
      resolveOperand st v = .ok val →
      resolveOperand st l = .ok (.List xs) →
      execOp st (.ListAppend v l true g)
          = okNext (writeOperand st l
              (.List (xs ++ (splitFields (valueToStr val)).map Value.String))) ∧
      execOp st (.ListAppend v l false g)
          = okNext (writeOperand st l (.List (xs ++ [val])))) ∧
    runShell paramGetCmd = .ok (0, [["echo"]], "", "") ∧
    runShell paramGetQuotedCmd = .ok (0, [["echo", ""]], "\n", "") := by
  refine ⟨?_, ?_, rfl, rfl⟩
  · intro st v l s g g2
    rfl
  · intro st v l g val xs h1 h2
    constructor <;> simp [execOp, h1, h2]

/-- Witness for the amended C3 at a concrete machine state: appending
the string containing one space-separated pair with split set pushes
two fields; with split clear it pushes the string unchanged. -/
theorem listappend_split_applied_witness :
    execOp ⟨0, [[Value.None, Value.List []]], [[]], 1, 0, "", "", []⟩
        (.ListAppend (.Immediate (.String "a b")) (.FrameRelative 1) true true)
      = okNext (writeOperand ⟨0, [[Value.None, Value.List []]], [[]], 1, 0, "", "", []⟩
          (.FrameRelative 1)
          (.List ((splitFields (valueToStr (.String "a b"))).map Value.String))) ∧
    execOp ⟨0, [[Value.None, Value.List []]], [[]], 1, 0, "", "", []⟩
        (.ListAppend (.Immediate (.String "a b")) (.FrameRelative 1) false true)
      = okNext (writeOperand ⟨0, [[Value.None, Value.List []]], [[]], 1, 0, "", "", []⟩
          (.FrameRelative 1) (.List [.String "a b"])) :=
  listappend_split_applied.2.1 ⟨0, [[Value.None, Value.List []]], [[]], 1, 0, "", "", []⟩
    (.Immediate (.String "a b")) (.FrameRelative 1) true (.String "a b") [] rfl rfl

/-!
Refinement of the CheckSet lowering against the spec text.
-/


theorem exceptOk_bind {ε α β : Type} (a : α) (f : α → Except ε β) :
    (Except.ok a : Except ε α) >>= f = f a := rfl

theorem exceptBind_assoc {ε α β γ : Type} (x : Except ε α)
    (f : α → Except ε β) (g : β → Except ε γ) :
    (x >>= f) >>= g = x >>= fun a => f a >>= g := by
  cases x <;> rfl

/-- The CheckSet parameter-expansion lowering exactly as the spec's
table row and preamble describe it (section 4.2): allocate a raw slot
and emit `GetEnv`; allocate a test slot and emit the null check
(`IsNone` when `allow_null`, else `IsNoneOrEmptyString`); then an
if-then-else whose then-branch emits the not-set `Error` when the
replacement word list is empty, and otherwise expands the words,
joins them into the target and emits `Error{target}`; the else-branch
copies the raw value into the target. -/
def checkSet_lowering_spec (self : Compiler) (target_string : Nat)
    (allow_null : Bool) (name : String) (word : WordList) : Except String Compiler := do
  let (raw, c) ← allocSlot self
  let c := c.push (.GetEnv (.Immediate (.String name)) (.FrameRelative raw))
  let (test, c) ← allocSlot c
  let c := c.push (if allow_null
    then .IsNone (.FrameRelative raw) (.FrameRelative test)
    else .IsNoneOrEmptyString (.FrameRelative raw) (.FrameRelative test))
  let c ← if_then_else c (.FrameRelative test)
    (fun me => do
      match word with
      | .nil =>
          .ok (me.push (.Error (.Immediate
            (.String ("parameter " ++ name ++ " is not set")))))
      | .cons w ws => do
          let (argv, me2) ← allocate_list me
          let me2 ← expand_words me2 argv (.cons w ws)
          let me2 := me2.push (.JoinList (.FrameRelative argv) (.FrameRelative target_string))
          let me2 ← freeSlot me2 argv
          .ok (me2.push (.Error (.FrameRelative target_string))))
    (fun me =>
      .ok (me.push (.Copy (.FrameRelative raw) (.FrameRelative target_string))))
  freeSlot c test

/-- C7: the compiler's CheckSet lowering coincides with the spec's
description of it for every compiler state, target slot, null-check
mode, parameter name and replacement word list. -/
theorem parameter_expand_checkSet_eq_spec (self : Compiler) (target_string : Nat)
    (allow_null : Bool) (name : String) (word : WordList) :
    parameter_expand self target_string (.mk (.CheckSet allow_null) name word)
      = checkSet_lowering_spec self target_string allow_null name word := by
  unfold parameter_expand checkSet_lowering_spec if_then_else ite_begin
  cases hx : allocSlot self with
  | error e => simp only [hx, bind, Except.bind]
  | ok p =>
      obtain ⟨slot, c⟩ := p
      simp only [hx, exceptOk_bind]
      cases hy : allocSlot (c.push (.GetEnv (.Immediate (.String name))
          (.FrameRelative slot))) with
      | error e => simp only [hy, bind, Except.bind]
      | ok q =>
          obtain ⟨test, c2⟩ := q
          simp only [hy, exceptOk_bind]
          cases word with
          | nil => simp only [exceptBind_assoc, exceptOk_bind]
          | cons w ws => simp only [exceptBind_assoc, exceptOk_bind]

theorem innerOps_mono {m m2 : Nat} {ops : List Operation} (h : m ≤ m2)
    (ho : innerOps m ops) : innerOps m2 ops := by
  intro op hop
  obtain ⟨hf, hb⟩ := ho op hop
  exact ⟨hf, fun n hn => ⟨(hb n hn).1, le_trans (hb n hn).2 h⟩⟩

theorem innerOps_nil {m : Nat} : innerOps m [] := by
  intro op hop
  simp at hop

theorem innerOps_append {m : Nat} {a b : List Operation}
    (ha : innerOps m a) (hb : innerOps m b) : innerOps m (a ++ b) := by
  intro op hop
  rcases List.mem_append.mp hop with h | h
  · exact ha op h
  · exact hb op h

theorem innerEmit_refl {fc : FrameCompiler} {rest : List FrameCompiler} {c : Compiler}
    (h : c.frames = fc :: rest) (hwf : allocWF fc.allocator) :
    InnerEmitTo fc rest c c fc :=
  ⟨h, rfl, le_refl _, hwf, [], by simp, innerOps_nil⟩

theorem innerEmit_trans {fc fc2 fc3 : FrameCompiler} {rest : List FrameCompiler}
    {c c2 c3 : Compiler} (h1 : InnerEmitTo fc rest c c2 fc2)
    (h2 : InnerEmitTo fc2 rest c2 c3 fc3) : InnerEmitTo fc rest c c3 fc3 := by
  obtain ⟨hf1, ha1, ht1, hw1, new1, hp1, ho1⟩ := h1
  obtain ⟨hf2, ha2, ht2, hw2, new2, hp2, ho2⟩ := h2
  exact ⟨hf2, ha2.trans ha1, le_trans ht1 ht2, hw2, new1 ++ new2,
    by rw [hp2, hp1, List.append_assoc],
    innerOps_append (innerOps_mono ht2 ho1) ho2⟩

theorem innerEmit_push {fc fc2 : FrameCompiler} {rest : List FrameCompiler}
    {c c2 : Compiler} (h : InnerEmitTo fc rest c c2 fc2) (op : Operation)
    (hf : isFlat op = true) (hb : slotsBound fc2.allocator.top op) :
    InnerEmitTo fc rest c (c2.push op) fc2 := by
  obtain ⟨hfr, ha, ht, hw, new, hp, ho⟩ := h
  refine ⟨hfr, ha, ht, hw, new ++ [op], ?_, ?_⟩
  · simp [Compiler.push, hp]
  · refine innerOps_append ho ?_
    intro o hmem
    simp at hmem
    subst hmem
    exact ⟨hf, hb⟩

theorem allocate_spec (a : RegisterAllocator) (slot : Nat) (a2 : RegisterAllocator)
    (h : a.allocate = (slot, a2)) (hwf : allocWF a) :
    a.top ≤ a2.top ∧ allocWF a2 ∧ 1 ≤ slot ∧ slot ≤ a2.top := by
  obtain ⟨fr, t⟩ := a
  cases fr with
  | nil =>
      simp [RegisterAllocator.allocate] at h
      obtain ⟨h1, h2⟩ := h
      subst h1
      subst h2
      exact ⟨Nat.le_succ t, by intro r hr; simp at hr, Nat.succ_le_succ (Nat.zero_le t),
        le_refl _⟩
  | cons r rs =>
      simp [RegisterAllocator.allocate] at h
      obtain ⟨h1, h2⟩ := h
      subst h1
      subst h2
      have hr := hwf r (by simp)
      refine ⟨le_refl _, ?_, hr.1, hr.2⟩
      intro x hx
      exact hwf x (by simp [hx])

theorem free_wf (a : RegisterAllocator) (slot : Nat) (hwf : allocWF a)
    (h1 : 1 ≤ slot) (h2 : slot ≤ a.top) : allocWF (a.free slot) := by
  intro r hr
  simp [RegisterAllocator.free] at hr
  rcases hr with h | h
  · subst h; exact ⟨h1, h2⟩
  · exact hwf r h

theorem allocSlot_spec {c : Compiler} {slot : Nat} {c2 : Compiler}
    {fc : FrameCompiler} {rest : List FrameCompiler}
    (h : allocSlot c = .ok (slot, c2)) (hf : c.frames = fc :: rest)
    (hwf : allocWF fc.allocator) :
    ∃ a2, c2 = { c with frames := ⟨a2, fc.frame_start_program_address⟩ :: rest } ∧
      fc.allocator.top ≤ a2.top ∧ allocWF a2 ∧ 1 ≤ slot ∧ slot ≤ a2.top := by
  unfold allocSlot at h
  rw [hf] at h
  cases ha : fc.allocator.allocate with
  | mk s a2 =>
      simp [ha] at h
      obtain ⟨hs, hc⟩ := h
      obtain ⟨htop, hwf2, h1, h2⟩ := allocate_spec fc.allocator s a2 ha hwf
      refine ⟨a2, hc.symm, htop, hwf2, by omega, by omega⟩

theorem freeSlot_spec {c : Compiler} {slot : Nat} {c2 : Compiler}
    {fc : FrameCompiler} {rest : List FrameCompiler}
    (h : freeSlot c slot = .ok c2) (hf : c.frames = fc :: rest) :
    c2 = { c with frames := ⟨fc.allocator.free slot, fc.frame_start_program_address⟩ :: rest } := by
  unfold freeSlot at h
  rw [hf] at h
  simp at h
  exact h.symm

theorem allocate_list_emit {c : Compiler} {slot : Nat} {c2 : Compiler}
    {fc : FrameCompiler} {rest : List FrameCompiler}
    (h : allocate_list c = .ok (slot, c2)) (hf : c.frames = fc :: rest)
    (hwf : allocWF fc.allocator) :
    ∃ fc2, InnerEmitTo fc rest c c2 fc2 ∧ 1 ≤ slot ∧ slot ≤ fc2.allocator.top := by
  unfold allocate_list at h
  cases hh : allocSlot c with
  | error e => rw [hh] at h; exact absurd h (by simp [bind, Except.bind])
  | ok p =>
      obtain ⟨s, cm⟩ := p
      rw [hh] at h
      simp [bind, Except.bind] at h
      obtain ⟨hs, hc⟩ := h
      obtain ⟨a2, hcm, htop, hwf2, h1, h2⟩ := allocSlot_spec hh hf hwf
      subst hcm
      refine ⟨⟨a2, fc.frame_start_program_address⟩, ⟨?_, rfl, htop, hwf2,
        [.Copy (.Immediate (.List [])) (.FrameRelative s)], ?_, ?_⟩, by omega,
        by show slot ≤ a2.top; omega⟩
      · rw [← hc]; rfl
      · rw [← hc]; rfl
      · intro op hop
        simp at hop
        subst hop
        refine ⟨rfl, ?_⟩
        intro n hn
        simp [opSlots, operandSlots] at hn
        subst hn
        exact ⟨h1, h2⟩

theorem allocate_string_emit {c : Compiler} {slot : Nat} {c2 : Compiler}
    {fc : FrameCompiler} {rest : List FrameCompiler}
    (h : allocate_string c = .ok (slot, c2)) (hf : c.frames = fc :: rest)
    (hwf : allocWF fc.allocator) :
    ∃ fc2, InnerEmitTo fc rest c c2 fc2 ∧ 1 ≤ slot ∧ slot ≤ fc2.allocator.top := by
  unfold allocate_string at h
  cases hh : allocSlot c with
  | error e => rw [hh] at h; exact absurd h (by simp [bind, Except.bind])
  | ok p =>
      obtain ⟨s, cm⟩ := p
      rw [hh] at h
      simp [bind, Except.bind] at h
      obtain ⟨hs, hc⟩ := h
      obtain ⟨a2, hcm, htop, hwf2, h1, h2⟩ := allocSlot_spec hh hf hwf
      subst hcm
      refine ⟨⟨a2, fc.frame_start_program_address⟩, ⟨?_, rfl, htop, hwf2,
        [.Copy (.Immediate (.String "")) (.FrameRelative s)], ?_, ?_⟩, by omega,
        by show slot ≤ a2.top; omega⟩
      · rw [← hc]; rfl
      · rw [← hc]; rfl
      · intro op hop
        simp at hop
        subst hop
        refine ⟨rfl, ?_⟩
        intro n hn
        simp [opSlots, operandSlots] at hn
        subst hn
        exact ⟨h1, h2⟩

theorem ite_elseJump_emit {cB : Compiler} {cond : Operand} {fc fc2 : FrameCompiler}
    {rest : List FrameCompiler} {c2 : Compiler}
    (hbody : InnerEmitTo fc rest (cB.push (.JumpIfZero cond (.Absolute 0))) c2 fc2)
    (hcond : ∀ n ∈ operandSlots cond, 1 ≤ n ∧ n ≤ fc.allocator.top) :
    ∃ c3, ite_elseJump c2 cB.program.length = .ok (c3, c2.program.length) ∧
      InnerEmitTo fc rest cB c3 fc2 ∧
      (∀ (c4 : Compiler) (fc3 : FrameCompiler), InnerEmitTo fc2 rest c3 c4 fc3 →
        ∃ c5, ite_done c4 c2.program.length = .ok c5 ∧ InnerEmitTo fc rest cB c5 fc3) := by
  obtain ⟨hfr, haddr, htop, hwf, T, hp, hops⟩ := hbody
  have hp2 : c2.program = cB.program ++ [.JumpIfZero cond (.Absolute 0)] ++ T := by
    simpa [Compiler.push, List.append_assoc] using hp
  have hlen : c2.program.length = cB.program.length + 1 + T.length := by
    rw [hp2]; simp only [List.length_append, List.length_cons, List.length_nil]
  have hje := ite_elseJump_ok cB.program T cond c2.frames
  have hc2eta : c2 = ⟨c2.program, c2.frames⟩ := rfl
  rw [hp2] at hc2eta
  rw [← hc2eta] at hje
  set jzP : Operation :=
    .JumpIfZero cond (.Absolute (cB.program.length + 1 + T.length + 1)) with hjzP
  refine ⟨⟨cB.program ++ [jzP] ++ T ++ [.Jump (.Absolute 0)], c2.frames⟩, ?_, ?_, ?_⟩
  · rw [hje, hlen]
  · refine ⟨by rw [hfr], haddr, htop, hwf,
      [jzP] ++ T ++ [.Jump (.Absolute 0)], by simp [List.append_assoc], ?_⟩
    intro op hop
    simp only [List.mem_append, List.mem_singleton] at hop
    rcases hop with (h | h) | h
    · subst h
      refine ⟨rfl, fun n hn => ?_⟩
      have := hcond n (by simpa [opSlots] using hn)
      exact ⟨this.1, le_trans this.2 htop⟩
    · exact hops op h
    · subst h
      exact ⟨rfl, fun n hn => by simp [opSlots] at hn⟩
  · intro c4 fc3 h4
    obtain ⟨hfr4, haddr4, htop4, hwf4, E, hp4, hops4⟩ := h4
    have hp4b : c4.program
        = (cB.program ++ [jzP] ++ T) ++ [.Jump (.Absolute 0)] ++ E := by
      rw [hp4]
    have hblen : (cB.program ++ [jzP] ++ T).length = c2.program.length := by
      simp only [hlen, List.length_append, List.length_cons, List.length_nil]
    have hid := ite_done_ok (cB.program ++ [jzP] ++ T) E (.Absolute 0) c4.frames
    have hc4eta : c4 = ⟨c4.program, c4.frames⟩ := rfl
    rw [hp4b] at hc4eta
    rw [← hc4eta, hblen] at hid
    refine ⟨_, hid, ?_⟩
    refine ⟨by rw [hfr4], haddr4.trans haddr, le_trans htop htop4, hwf4,
      [jzP] ++ T ++ [.Jump (.Absolute (c2.program.length + 1 + E.length))] ++ E,
      by simp [List.append_assoc], ?_⟩
    intro op hop
    simp only [List.mem_append, List.mem_singleton] at hop
    rcases hop with ((h | h) | h) | h
    · subst h
      refine ⟨rfl, fun n hn => ?_⟩
      have := hcond n (by simpa [opSlots] using hn)
      exact ⟨this.1, le_trans this.2 (le_trans htop htop4)⟩
    · exact (fun hx => ⟨hx.1, fun n hn => ⟨(hx.2 n hn).1, le_trans (hx.2 n hn).2 htop4⟩⟩)
        (hops op h)
    · subst h
      exact ⟨rfl, fun n hn => by simp [opSlots] at hn⟩
    · exact hops4 op h

theorem exceptBind_ok {ε α β : Type} {x : Except ε α} {f : α → Except ε β} {b : β}
    (h : (x >>= f) = .ok b) : ∃ a, x = .ok a ∧ f a = .ok b := by
  cases x with
  | error e => simp [bind, Except.bind] at h
  | ok a => exact ⟨a, rfl, by simpa [bind, Except.bind] using h⟩

theorem allocSlot_emit {c : Compiler} {slot : Nat} {c2 : Compiler}
    {fc : FrameCompiler} {rest : List FrameCompiler}
    (h : allocSlot c = .ok (slot, c2)) (hf : c.frames = fc :: rest)
    (hwf : allocWF fc.allocator) :
    ∃ fc2, InnerEmitTo fc rest c c2 fc2 ∧ 1 ≤ slot ∧ slot ≤ fc2.allocator.top := by
  obtain ⟨a2, hc2, htop, hwf2, h1, h2⟩ := allocSlot_spec h hf hwf
  subst hc2
  exact ⟨⟨a2, fc.frame_start_program_address⟩,
    ⟨rfl, rfl, htop, hwf2, [], by simp, innerOps_nil⟩, h1, h2⟩

theorem innerEmit_free {fc fc2 : FrameCompiler} {rest : List FrameCompiler}
    {c c2 c3 : Compiler} {slot : Nat}
    (hemit : InnerEmitTo fc rest c c2 fc2) (h : freeSlot c2 slot = .ok c3)
    (h1 : 1 ≤ slot) (h2 : slot ≤ fc2.allocator.top) :
    ∃ fc3, InnerEmitTo fc rest c c3 fc3 ∧ fc3.allocator.top = fc2.allocator.top := by
  obtain ⟨hfr, haddr, htop, hwf, new, hp, hops⟩ := hemit
  have hc3 := freeSlot_spec h hfr
  subst hc3
  refine ⟨⟨fc2.allocator.free slot, fc2.frame_start_program_address⟩,
    ⟨rfl, haddr, htop, free_wf fc2.allocator slot hwf h1 h2, new, hp, hops⟩, rfl⟩

mutual

theorem parameter_expand_emit :
    ∀ (expr : ParamExpr) (c : Compiler) (t : Nat) (c2 : Compiler)
      (fc : FrameCompiler) (rest : List FrameCompiler),
      parameter_expand c t expr = .ok c2 →
      c.frames = fc :: rest → allocWF fc.allocator →
      1 ≤ t → t ≤ fc.allocator.top →
      ∃ fc2, InnerEmitTo fc rest c c2 fc2
  | .mk kind name word => by
    intro c t c2 fc rest h hf hwf ht1 ht2
    cases kind with
    | Get =>
        simp only [parameter_expand] at h
        cases hx : allocSlot c with
        | error e => rw [hx] at h; exact absurd h (by simp [bind, Except.bind])
        | ok p =>
            obtain ⟨slot, c1⟩ := p
            rw [hx] at h
            simp only [exceptOk_bind] at h
            obtain ⟨fcA, hemitA, hs1, hs2⟩ := allocSlot_emit hx hf hwf
            injection h with h
            subst h
            refine ⟨fcA, innerEmit_push (innerEmit_push hemitA
              (.GetEnv (.Immediate (.String name)) (.FrameRelative slot)) rfl ?_)
              (.Copy (.FrameRelative slot) (.FrameRelative t)) rfl ?_⟩
            · intro n hn
              simp [opSlots, operandSlots] at hn
              subst hn
              exact ⟨hs1, hs2⟩
            · have htA := hemitA.2.2.1
              intro n hn
              simp [opSlots, operandSlots] at hn
              rcases hn with rfl | rfl
              · exact ⟨hs1, hs2⟩
              · exact ⟨ht1, le_trans ht2 htA⟩
    | StringLength =>
        simp only [parameter_expand] at h
        cases hx : allocSlot c with
        | error e => rw [hx] at h; exact absurd h (by simp [bind, Except.bind])
        | ok p =>
            obtain ⟨slot, c1⟩ := p
            rw [hx] at h
            simp only [exceptOk_bind] at h
            obtain ⟨fcA, hemitA, hs1, hs2⟩ := allocSlot_emit hx hf hwf
            injection h with h
            subst h
            refine ⟨fcA, innerEmit_push (innerEmit_push hemitA
              (.GetEnv (.Immediate (.String name)) (.FrameRelative slot)) rfl ?_)
              (.StringLength (.FrameRelative slot) (.FrameRelative t)) rfl ?_⟩
            · intro n hn
              simp [opSlots, operandSlots] at hn
              subst hn
              exact ⟨hs1, hs2⟩
            · have htA := hemitA.2.2.1
              intro n hn
              simp [opSlots, operandSlots] at hn
              rcases hn with rfl | rfl
              · exact ⟨hs1, hs2⟩
              · exact ⟨ht1, le_trans ht2 htA⟩
    | GetDefault allow_null =>
        simp only [parameter_expand] at h
        cases hx : allocSlot c with
        | error e => rw [hx] at h; exact absurd h (by simp [bind, Except.bind])
        | ok p =>
          obtain ⟨slot, c1⟩ := p
          rw [hx] at h
          simp only [exceptOk_bind] at h
          cases hy : allocSlot (c1.push (.GetEnv (.Immediate (.String name))
              (.FrameRelative slot))) with
          | error e => rw [hy] at h; exact absurd h (by simp [bind, Except.bind])
          | ok q =>
            obtain ⟨test, cT⟩ := q
            rw [hy] at h
            simp only [exceptOk_bind, ite_begin] at h
            obtain ⟨q2, hz, hc1⟩ := exceptBind_ok h
            obtain ⟨argv, cA⟩ := q2
            obtain ⟨cW, hw, hc2⟩ := exceptBind_ok hc1
            obtain ⟨cF, hfrA, hc3⟩ := exceptBind_ok hc2
            obtain ⟨q3, hj, hc4⟩ := exceptBind_ok hc3
            obtain ⟨cJ, sj⟩ := q3
            obtain ⟨cD, hd, hc5⟩ := exceptBind_ok hc4
            obtain ⟨fcA, hemitA, hs1, hs2⟩ := allocSlot_emit hx hf hwf
            have hemitG := innerEmit_push hemitA
              (.GetEnv (.Immediate (.String name)) (.FrameRelative slot)) rfl (by
                intro n hn
                simp [opSlots, operandSlots] at hn
                subst hn
                exact ⟨hs1, hs2⟩)
            obtain ⟨fcB, hemitB0, hts1, hts2⟩ := allocSlot_emit hy hemitG.1 hemitG.2.2.2.1
            have hemitB := innerEmit_trans hemitG hemitB0
            have hemitNC := innerEmit_push hemitB (if allow_null
                then Operation.IsNone (Operand.FrameRelative slot) (Operand.FrameRelative test)
                else Operation.IsNoneOrEmptyString (Operand.FrameRelative slot)
                  (Operand.FrameRelative test))
              (by cases allow_null <;> rfl) (by
                cases allow_null <;>
                · intro n hn
                  simp [opSlots, operandSlots] at hn
                  rcases hn with rfl | rfl
                  · exact ⟨hs1, le_trans hs2 hemitB0.2.2.1⟩
                  · exact ⟨hts1, hts2⟩)
            obtain ⟨fcC, hemitC, hv1, hv2⟩ := allocate_list_emit hz hemitB0.1 hemitB0.2.2.2.1
            obtain ⟨fcW, hemitW0⟩ := expand_words_emit word cA argv cW fcC rest hw
              hemitC.1 hemitC.2.2.2.1 hv1 hv2
            have hemitW := innerEmit_trans hemitC hemitW0
            have hemitJn := innerEmit_push hemitW
              (.JoinList (.FrameRelative argv) (.FrameRelative t)) rfl (by
                intro n hn
                simp [opSlots, operandSlots] at hn
                rcases hn with rfl | rfl
                · exact ⟨hv1, le_trans hv2 hemitW0.2.2.1⟩
                · exact ⟨ht1, le_trans ht2 (le_trans hemitB.2.2.1 hemitW.2.2.1)⟩)
            obtain ⟨fcF, hemitF, htopF⟩ := innerEmit_free hemitJn hfrA hv1
              (le_trans hv2 hemitW0.2.2.1)
            obtain ⟨c3, hje, hemitMid, hcont⟩ := ite_elseJump_emit hemitF (by
                intro n hn
                simp [operandSlots] at hn
                subst hn
                exact ⟨hts1, hts2⟩)
            have hpair := hj.symm.trans hje
            injection hpair with hpair
            injection hpair with h1 h2
            subst h1
            subst h2
            have hemitCopy := innerEmit_push (innerEmit_refl hemitMid.1 hemitMid.2.2.2.1)
              (.Copy (.FrameRelative slot) (.FrameRelative t)) rfl (by
                intro n hn
                simp [opSlots, operandSlots] at hn
                rcases hn with rfl | rfl
                · exact ⟨hs1, le_trans hs2 (le_trans hemitB0.2.2.1 hemitF.2.2.1)⟩
                · exact ⟨ht1, le_trans ht2 (le_trans hemitB.2.2.1 hemitF.2.2.1)⟩)
            obtain ⟨c5, hd', hemitDone⟩ := hcont
              (cJ.push (.Copy (.FrameRelative slot) (.FrameRelative t))) fcF hemitCopy
            have hpair2 := hd.symm.trans hd'
            injection hpair2 with h3
            subst h3
            have hemitAll := innerEmit_trans hemitNC hemitDone
            obtain ⟨fcZ, hemitZ, htopZ⟩ := innerEmit_free hemitAll hc5 hts1
              (le_trans hts2 hemitF.2.2.1)
            exact ⟨fcZ, hemitZ⟩
    | AssignDefault allow_null =>
        simp only [parameter_expand] at h
        cases hx : allocSlot c with
        | error e => rw [hx] at h; exact absurd h (by simp [bind, Except.bind])
        | ok p =>
          obtain ⟨slot, c1⟩ := p
          rw [hx] at h
          simp only [exceptOk_bind] at h
          cases hy : allocSlot (c1.push (.GetEnv (.Immediate (.String name))
              (.FrameRelative slot))) with
          | error e => rw [hy] at h; exact absurd h (by simp [bind, Except.bind])
          | ok q =>
            obtain ⟨test, cT⟩ := q
            rw [hy] at h
            simp only [exceptOk_bind, ite_begin] at h
            obtain ⟨q2, hz, hc1⟩ := exceptBind_ok h
            obtain ⟨argv, cA⟩ := q2
            obtain ⟨cW, hw, hc2⟩ := exceptBind_ok hc1
            obtain ⟨cF, hfrA, hc3⟩ := exceptBind_ok hc2
            obtain ⟨q3, hj, hc4⟩ := exceptBind_ok hc3
            obtain ⟨cJ, sj⟩ := q3
            obtain ⟨cD, hd, hc5⟩ := exceptBind_ok hc4
            obtain ⟨fcA, hemitA, hs1, hs2⟩ := allocSlot_emit hx hf hwf
            have hemitG := innerEmit_push hemitA
              (.GetEnv (.Immediate (.String name)) (.FrameRelative slot)) rfl (by
                intro n hn
                simp [opSlots, operandSlots] at hn
                subst hn
                exact ⟨hs1, hs2⟩)
            obtain ⟨fcB, hemitB0, hts1, hts2⟩ := allocSlot_emit hy hemitG.1 hemitG.2.2.2.1
            have hemitB := innerEmit_trans hemitG hemitB0
            have hemitNC := innerEmit_push hemitB (if allow_null
                then Operation.IsNone (Operand.FrameRelative slot) (Operand.FrameRelative test)
                else Operation.IsNoneOrEmptyString (Operand.FrameRelative slot)
                  (Operand.FrameRelative test))
              (by cases allow_null <;> rfl) (by
                cases allow_null <;>
                · intro n hn
                  simp [opSlots, operandSlots] at hn
                  rcases hn with rfl | rfl
                  · exact ⟨hs1, le_trans hs2 hemitB0.2.2.1⟩
                  · exact ⟨hts1, hts2⟩)
            obtain ⟨fcC, hemitC, hv1, hv2⟩ := allocate_list_emit hz hemitB0.1 hemitB0.2.2.2.1
            obtain ⟨fcW, hemitW0⟩ := expand_words_emit word cA argv cW fcC rest hw
              hemitC.1 hemitC.2.2.2.1 hv1 hv2
            have hemitW := innerEmit_trans hemitC hemitW0
            have hemitJn := innerEmit_push hemitW
              (.JoinList (.FrameRelative argv) (.FrameRelative t)) rfl (by
                intro n hn
                simp [opSlots, operandSlots] at hn
                rcases hn with rfl | rfl
                · exact ⟨hv1, le_trans hv2 hemitW0.2.2.1⟩
                · exact ⟨ht1, le_trans ht2 (le_trans hemitB.2.2.1 hemitW.2.2.1)⟩)
            obtain ⟨fcF0, hemitF0, htopF0⟩ := innerEmit_free hemitJn hfrA hv1
              (le_trans hv2 hemitW0.2.2.1)
            have hemitF := innerEmit_push hemitF0
              (.SetEnv (.Immediate (.String name)) (.FrameRelative t)) rfl (by
                intro n hn
                simp [opSlots, operandSlots] at hn
                subst hn
                exact ⟨ht1, le_trans ht2 (le_trans hemitB.2.2.1 hemitF0.2.2.1)⟩)
            obtain ⟨c3, hje, hemitMid, hcont⟩ := ite_elseJump_emit hemitF (by
                intro n hn
                simp [operandSlots] at hn
                subst hn
                exact ⟨hts1, hts2⟩)
            have hpair := hj.symm.trans hje
            injection hpair with hpair
            injection hpair with h1 h2
            subst h1
            subst h2
            have hemitCopy := innerEmit_push (innerEmit_refl hemitMid.1 hemitMid.2.2.2.1)
              (.Copy (.FrameRelative slot) (.FrameRelative t)) rfl (by
                intro n hn
                simp [opSlots, operandSlots] at hn
                rcases hn with rfl | rfl
                · exact ⟨hs1, le_trans hs2 (le_trans hemitB0.2.2.1 hemitF.2.2.1)⟩
                · exact ⟨ht1, le_trans ht2 (le_trans hemitB.2.2.1 hemitF.2.2.1)⟩)
            obtain ⟨c5, hd', hemitDone⟩ := hcont
              (cJ.push (.Copy (.FrameRelative slot) (.FrameRelative t))) fcF0 hemitCopy
            have hpair2 := hd.symm.trans hd'
            injection hpair2 with h3
            subst h3
            have hemitAll := innerEmit_trans hemitNC hemitDone
            obtain ⟨fcZ, hemitZ, htopZ⟩ := innerEmit_free hemitAll hc5 hts1
              (le_trans hts2 hemitF.2.2.1)
            exact ⟨fcZ, hemitZ⟩
    | CheckSet allow_null =>
        cases word with
        | nil =>
            simp only [parameter_expand] at h
            cases hx : allocSlot c with
            | error e => rw [hx] at h; exact absurd h (by simp [bind, Except.bind])
            | ok p =>
              obtain ⟨slot, c1⟩ := p
              rw [hx] at h
              simp only [exceptOk_bind] at h
              cases hy : allocSlot (c1.push (.GetEnv (.Immediate (.String name))
                  (.FrameRelative slot))) with
              | error e => rw [hy] at h; exact absurd h (by simp [bind, Except.bind])
              | ok q =>
                obtain ⟨test, cT⟩ := q
                rw [hy] at h
                simp only [exceptOk_bind, ite_begin] at h
                obtain ⟨fcA, hemitA, hs1, hs2⟩ := allocSlot_emit hx hf hwf
                have hemitG := innerEmit_push hemitA
                  (.GetEnv (.Immediate (.String name)) (.FrameRelative slot)) rfl (by
                    intro n hn
                    simp [opSlots, operandSlots] at hn
                    subst hn
                    exact ⟨hs1, hs2⟩)
                obtain ⟨fcB, hemitB0, hts1, hts2⟩ := allocSlot_emit hy hemitG.1 hemitG.2.2.2.1
                have hemitB := innerEmit_trans hemitG hemitB0
                have hemitNC := innerEmit_push hemitB (if allow_null
                    then Operation.IsNone (Operand.FrameRelative slot) (Operand.FrameRelative test)
                    else Operation.IsNoneOrEmptyString (Operand.FrameRelative slot)
                      (Operand.FrameRelative test))
                  (by cases allow_null <;> rfl) (by
                    cases allow_null <;>
                    · intro n hn
                      simp [opSlots, operandSlots] at hn
                      rcases hn with rfl | rfl
                      · exact ⟨hs1, le_trans hs2 hemitB0.2.2.1⟩
                      · exact ⟨hts1, hts2⟩)
                obtain ⟨q3, hj, hc4⟩ := exceptBind_ok h
                obtain ⟨cJ, sj⟩ := q3
                obtain ⟨cD, hd, hc5⟩ := exceptBind_ok hc4
                have hfrB : ((cT.push (if allow_null
                    then Operation.IsNone (Operand.FrameRelative slot)
                      (Operand.FrameRelative test)
                    else Operation.IsNoneOrEmptyString (Operand.FrameRelative slot)
                      (Operand.FrameRelative test))).push (Operation.JumpIfZero
                    (Operand.FrameRelative test) (InstructionAddress.Absolute 0))).frames
                    = fcB :: rest := hemitB0.1
                have hemitErr := innerEmit_push (innerEmit_refl hfrB hemitB0.2.2.2.1)
                  (Operation.Error (Operand.Immediate
                    (Value.String ("parameter " ++ name ++ " is not set")))) rfl (by
                    intro n hn
                    simp [opSlots, operandSlots] at hn)
                obtain ⟨c3, hje, hemitMid, hcont⟩ := ite_elseJump_emit hemitErr (by
                    intro n hn
                    simp [operandSlots] at hn
                    subst hn
                    exact ⟨hts1, hts2⟩)
                have hpair := hj.symm.trans hje
                injection hpair with hpair
                injection hpair with h1 h2
                subst h1
                subst h2
                have hemitCopy := innerEmit_push (innerEmit_refl hemitMid.1 hemitMid.2.2.2.1)
                  (.Copy (.FrameRelative slot) (.FrameRelative t)) rfl (by
                    intro n hn
                    simp [opSlots, operandSlots] at hn
                    rcases hn with rfl | rfl
                    · exact ⟨hs1, le_trans hs2 hemitB0.2.2.1⟩
                    · exact ⟨ht1, le_trans ht2 hemitB.2.2.1⟩)
                obtain ⟨c5, hd', hemitDone⟩ := hcont
                  (cJ.push (.Copy (.FrameRelative slot) (.FrameRelative t))) fcB hemitCopy
                have hpair2 := hd.symm.trans hd'
                injection hpair2 with h3
                subst h3
                have hemitAll := innerEmit_trans hemitNC hemitDone
                obtain ⟨fcZ, hemitZ, htopZ⟩ := innerEmit_free hemitAll hc5 hts1 hts2
                exact ⟨fcZ, hemitZ⟩
        | cons w ws =>
            simp only [parameter_expand] at h
            cases hx : allocSlot c with
            | error e => rw [hx] at h; exact absurd h (by simp [bind, Except.bind])
            | ok p =>
              obtain ⟨slot, c1⟩ := p
              rw [hx] at h
              simp only [exceptOk_bind] at h
              cases hy : allocSlot (c1.push (.GetEnv (.Immediate (.String name))
                  (.FrameRelative slot))) with
              | error e => rw [hy] at h; exact absurd h (by simp [bind, Except.bind])
              | ok q =>
                obtain ⟨test, cT⟩ := q
                rw [hy] at h
                simp only [exceptOk_bind, ite_begin] at h
                obtain ⟨fcA, hemitA, hs1, hs2⟩ := allocSlot_emit hx hf hwf
                have hemitG := innerEmit_push hemitA
                  (.GetEnv (.Immediate (.String name)) (.FrameRelative slot)) rfl (by
                    intro n hn
                    simp [opSlots, operandSlots] at hn
                    subst hn
                    exact ⟨hs1, hs2⟩)
                obtain ⟨fcB, hemitB0, hts1, hts2⟩ := allocSlot_emit hy hemitG.1 hemitG.2.2.2.1
                have hemitB := innerEmit_trans hemitG hemitB0
                have hemitNC := innerEmit_push hemitB (if allow_null
                    then Operation.IsNone (Operand.FrameRelative slot) (Operand.FrameRelative test)
                    else Operation.IsNoneOrEmptyString (Operand.FrameRelative slot)
                      (Operand.FrameRelative test))
                  (by cases allow_null <;> rfl) (by
                    cases allow_null <;>
                    · intro n hn
                      simp [opSlots, operandSlots] at hn
                      rcases hn with rfl | rfl
                      · exact ⟨hs1, le_trans hs2 hemitB0.2.2.1⟩
                      · exact ⟨hts1, hts2⟩)
                obtain ⟨cErr, hInner, hc4⟩ := exceptBind_ok h
                obtain ⟨q2, hz, hi1⟩ := exceptBind_ok hInner
                obtain ⟨argv, cA⟩ := q2
                obtain ⟨cW, hw, hi2⟩ := exceptBind_ok hi1
                obtain ⟨cF, hfrA, hi3⟩ := exceptBind_ok hi2
                injection hi3 with hi3
                subst hi3
                obtain ⟨q3, hj, hc5⟩ := exceptBind_ok hc4
                obtain ⟨cJ, sj⟩ := q3
                obtain ⟨cD, hd, hc6⟩ := exceptBind_ok hc5
                obtain ⟨fcC, hemitC, hv1, hv2⟩ := allocate_list_emit hz hemitB0.1
                  hemitB0.2.2.2.1
                obtain ⟨fcW, hemitW0⟩ := expand_words_emit (.cons w ws) cA argv cW fcC rest
                  hw hemitC.1 hemitC.2.2.2.1 hv1 hv2
                have hemitW := innerEmit_trans hemitC hemitW0
                have hemitJn := innerEmit_push hemitW
                  (.JoinList (.FrameRelative argv) (.FrameRelative t)) rfl (by
                    intro n hn
                    simp [opSlots, operandSlots] at hn
                    rcases hn with rfl | rfl
                    · exact ⟨hv1, le_trans hv2 hemitW0.2.2.1⟩
                    · exact ⟨ht1, le_trans ht2 (le_trans hemitB.2.2.1 hemitW.2.2.1)⟩)
                obtain ⟨fcF0, hemitF0, htopF0⟩ := innerEmit_free hemitJn hfrA hv1
                  (le_trans hv2 hemitW0.2.2.1)
                have hemitF := innerEmit_push hemitF0
                  (.Error (.FrameRelative t)) rfl (by
                    intro n hn
                    simp [opSlots, operandSlots] at hn
                    subst hn
                    exact ⟨ht1, le_trans ht2 (le_trans hemitB.2.2.1 hemitF0.2.2.1)⟩)
                obtain ⟨c3, hje, hemitMid, hcont⟩ := ite_elseJump_emit hemitF (by
                    intro n hn
                    simp [operandSlots] at hn
                    subst hn
                    exact ⟨hts1, hts2⟩)
                have hpair := hj.symm.trans hje
                injection hpair with hpair
                injection hpair with h1 h2
                subst h1
                subst h2
                have hemitCopy := innerEmit_push (innerEmit_refl hemitMid.1 hemitMid.2.2.2.1)
                  (.Copy (.FrameRelative slot) (.FrameRelative t)) rfl (by
                    intro n hn
                    simp [opSlots, operandSlots] at hn
                    rcases hn with rfl | rfl
                    · exact ⟨hs1, le_trans hs2 (le_trans hemitB0.2.2.1 hemitF.2.2.1)⟩
                    · exact ⟨ht1, le_trans ht2 (le_trans hemitB.2.2.1 hemitF.2.2.1)⟩)
                obtain ⟨c5, hd', hemitDone⟩ := hcont
                  (cJ.push (.Copy (.FrameRelative slot) (.FrameRelative t))) fcF0 hemitCopy
                have hpair2 := hd.symm.trans hd'
                injection hpair2 with h3
                subst h3
                have hemitAll := innerEmit_trans hemitNC hemitDone
                obtain ⟨fcZ, hemitZ, htopZ⟩ := innerEmit_free hemitAll hc6 hts1
                  (le_trans hts2 hemitF.2.2.1)
                exact ⟨fcZ, hemitZ⟩
    | AlternativeValue allow_null =>
        simp only [parameter_expand] at h
        cases hx : allocSlot c with
        | error e => rw [hx] at h; exact absurd h (by simp [bind, Except.bind])
        | ok p =>
          obtain ⟨slot, c1⟩ := p
          rw [hx] at h
          simp only [exceptOk_bind] at h
          cases hy : allocSlot (c1.push (.GetEnv (.Immediate (.String name))
              (.FrameRelative slot))) with
          | error e => rw [hy] at h; exact absurd h (by simp [bind, Except.bind])
          | ok q =>
            obtain ⟨test, cT⟩ := q
            rw [hy] at h
            simp only [exceptOk_bind, ite_begin] at h
            obtain ⟨q3, hj, hc1⟩ := exceptBind_ok h
            obtain ⟨cJ, sj⟩ := q3
            obtain ⟨q2, hz, hc2⟩ := exceptBind_ok hc1
            obtain ⟨argv, cA⟩ := q2
            obtain ⟨cW, hw, hc3⟩ := exceptBind_ok hc2
            obtain ⟨cF, hfrA, hc4⟩ := exceptBind_ok hc3
            obtain ⟨cD, hd, hc5⟩ := exceptBind_ok hc4
            obtain ⟨fcA, hemitA, hs1, hs2⟩ := allocSlot_emit hx hf hwf
            have hemitG := innerEmit_push hemitA
              (.GetEnv (.Immediate (.String name)) (.FrameRelative slot)) rfl (by
                intro n hn
                simp [opSlots, operandSlots] at hn
                subst hn
                exact ⟨hs1, hs2⟩)
            obtain ⟨fcB, hemitB0, hts1, hts2⟩ := allocSlot_emit hy hemitG.1 hemitG.2.2.2.1
            have hemitB := innerEmit_trans hemitG hemitB0
            have hemitNC := innerEmit_push hemitB (if allow_null
                then Operation.IsNone (Operand.FrameRelative slot) (Operand.FrameRelative test)
                else Operation.IsNoneOrEmptyString (Operand.FrameRelative slot)
                  (Operand.FrameRelative test))
              (by cases allow_null <;> rfl) (by
                cases allow_null <;>
                · intro n hn
                  simp [opSlots, operandSlots] at hn
                  rcases hn with rfl | rfl
                  · exact ⟨hs1, le_trans hs2 hemitB0.2.2.1⟩
                  · exact ⟨hts1, hts2⟩)
            have hfrB : ((cT.push (if allow_null
                then Operation.IsNone (Operand.FrameRelative slot)
                  (Operand.FrameRelative test)
                else Operation.IsNoneOrEmptyString (Operand.FrameRelative slot)
                  (Operand.FrameRelative test))).push (Operation.JumpIfZero
                (Operand.FrameRelative test) (InstructionAddress.Absolute 0))).frames
                = fcB :: rest := hemitB0.1
            have hemitCI := innerEmit_push (innerEmit_refl hfrB hemitB0.2.2.2.1)
              (.Copy (.Immediate (.String "")) (.FrameRelative t)) rfl (by
                intro n hn
                simp [opSlots, operandSlots] at hn
                subst hn
                exact ⟨ht1, le_trans ht2 hemitB.2.2.1⟩)
            obtain ⟨c3, hje, hemitMid, hcont⟩ := ite_elseJump_emit hemitCI (by
                intro n hn
                simp [operandSlots] at hn
                subst hn
                exact ⟨hts1, hts2⟩)
            have hpair := hj.symm.trans hje
            injection hpair with hpair
            injection hpair with h1 h2
            subst h1
            subst h2
            obtain ⟨fcC, hemitC0, hv1, hv2⟩ := allocate_list_emit hz hemitMid.1
              hemitMid.2.2.2.1
            obtain ⟨fcW, hemitW0⟩ := expand_words_emit word cA argv cW fcC rest hw
              hemitC0.1 hemitC0.2.2.2.1 hv1 hv2
            have hemitW := innerEmit_trans hemitC0 hemitW0
            have hemitJn := innerEmit_push hemitW
              (.JoinList (.FrameRelative argv) (.FrameRelative t)) rfl (by
                intro n hn
                simp [opSlots, operandSlots] at hn
                rcases hn with rfl | rfl
                · exact ⟨hv1, le_trans hv2 hemitW0.2.2.1⟩
                · exact ⟨ht1, le_trans ht2 (le_trans hemitB.2.2.1
                    (le_trans hemitC0.2.2.1 hemitW0.2.2.1))⟩)
            obtain ⟨fcF, hemitE, htopF⟩ := innerEmit_free hemitJn hfrA hv1
              (le_trans hv2 hemitW0.2.2.1)
            obtain ⟨c5, hd', hemitDone⟩ := hcont cF fcF hemitE
            have hpair2 := hd.symm.trans hd'
            injection hpair2 with h3
            subst h3
            have hemitAll := innerEmit_trans hemitNC hemitDone
            obtain ⟨fcZ, hemitZ, htopZ⟩ := innerEmit_free hemitAll hc5 hts1
              (le_trans hts2 (le_trans hemitC0.2.2.1 (le_trans hemitW0.2.2.1 (by
                rw [htopF]))))
            exact ⟨fcZ, hemitZ⟩
    | RemoveSmallestSuffixPattern =>
        simp only [parameter_expand] at h
        cases hx : allocSlot c with
        | error e => rw [hx] at h; exact absurd h (by simp [bind, Except.bind])
        | ok p =>
            obtain ⟨slot, c1⟩ := p
            rw [hx] at h
            simp only [exceptOk_bind] at h
            exact absurd h (by simp)
    | RemoveLargestSuffixPattern =>
        simp only [parameter_expand] at h
        cases hx : allocSlot c with
        | error e => rw [hx] at h; exact absurd h (by simp [bind, Except.bind])
        | ok p =>
            obtain ⟨slot, c1⟩ := p
            rw [hx] at h
            simp only [exceptOk_bind] at h
            exact absurd h (by simp)
    | RemoveSmallestPrefixPattern =>
        simp only [parameter_expand] at h
        cases hx : allocSlot c with
        | error e => rw [hx] at h; exact absurd h (by simp [bind, Except.bind])
        | ok p =>
            obtain ⟨slot, c1⟩ := p
            rw [hx] at h
            simp only [exceptOk_bind] at h
            exact absurd h (by simp)
    | RemoveLargestPrefixPattern =>
        simp only [parameter_expand] at h
        cases hx : allocSlot c with
        | error e => rw [hx] at h; exact absurd h (by simp [bind, Except.bind])
        | ok p =>
            obtain ⟨slot, c1⟩ := p
            rw [hx] at h
            simp only [exceptOk_bind] at h
            exact absurd h (by simp)
termination_by expr => sizeOf expr

theorem expand_words_emit :
    ∀ (ws : WordList) (c : Compiler) (argv : Nat) (c2 : Compiler)
      (fc : FrameCompiler) (rest : List FrameCompiler),
      expand_words c argv ws = .ok c2 →
      c.frames = fc :: rest → allocWF fc.allocator →
      1 ≤ argv → argv ≤ fc.allocator.top →
      ∃ fc2, InnerEmitTo fc rest c c2 fc2
  | .nil => by
      intro c argv c2 fc rest h hf hwf ha1 ha2
      simp only [expand_words] at h
      injection h with h
      subst h
      exact ⟨fc, innerEmit_refl hf hwf⟩
  | .cons w ws => by
      intro c argv c2 fc rest h hf hwf ha1 ha2
      simp only [expand_words] at h
      cases hx : allocate_string c with
      | error e => rw [hx] at h; exact absurd h (by simp [bind, Except.bind])
      | ok p =>
          obtain ⟨ew, cS⟩ := p
          rw [hx] at h
          simp only [exceptOk_bind] at h
          cases he : expand_components cS ew w with
          | error e => rw [he] at h; exact absurd h (by simp [bind, Except.bind])
          | ok cE =>
              rw [he] at h
              simp only [exceptOk_bind] at h
              cases hfr : freeSlot (cE.push (.ListAppend (.FrameRelative ew)
                  (.FrameRelative argv) w.allSplittable true)) ew with
              | error e => rw [hfr] at h; exact absurd h (by simp [bind, Except.bind])
              | ok cF =>
                  rw [hfr] at h
                  simp only [exceptOk_bind] at h
                  obtain ⟨fcS, hemitS, he1, he2⟩ := allocate_string_emit hx hf hwf
                  obtain ⟨fcE, hemitE0⟩ := expand_components_emit w cS ew cE fcS rest
                    he hemitS.1 hemitS.2.2.2.1 he1 he2
                  have hemitE := innerEmit_trans hemitS hemitE0
                  have hemitL := innerEmit_push hemitE (.ListAppend (.FrameRelative ew)
                    (.FrameRelative argv) w.allSplittable true) rfl (by
                      intro n hn
                      simp [opSlots, operandSlots] at hn
                      rcases hn with rfl | rfl
                      · exact ⟨he1, le_trans he2 hemitE0.2.2.1⟩
                      · exact ⟨ha1, le_trans ha2 hemitE.2.2.1⟩)
                  obtain ⟨fcF, hemitF, htopF⟩ := innerEmit_free hemitL hfr he1
                    (le_trans he2 hemitE0.2.2.1)
                  obtain ⟨fcZ, hemitZ⟩ := expand_words_emit ws cF argv c2 fcF rest
                    h hemitF.1 hemitF.2.2.2.1 ha1 (le_trans ha2 hemitF.2.2.1)
                  exact ⟨fcZ, innerEmit_trans hemitF hemitZ⟩
termination_by ws => sizeOf ws

theorem expand_components_emit :
    ∀ (w : Word) (c : Compiler) (ew : Nat) (c2 : Compiler)
      (fc : FrameCompiler) (rest : List FrameCompiler),
      expand_components c ew w = .ok c2 →
      c.frames = fc :: rest → allocWF fc.allocator →
      1 ≤ ew → ew ≤ fc.allocator.top →
      ∃ fc2, InnerEmitTo fc rest c c2 fc2
  | .nil => by
      intro c ew c2 fc rest h hf hwf he1 he2
      simp only [expand_components] at h
      injection h with h
      subst h
      exact ⟨fc, innerEmit_refl hf hwf⟩
  | .cons (.mk sp k) restW => by
      intro c ew c2 fc rest h hf hwf he1 he2
      cases k with
      | Literal s =>
          simp only [expand_components] at h
          simp only [exceptOk_bind] at h
          have hemitP : InnerEmitTo fc rest c
              (c.push (.StringAppend (.Immediate (.String s)) (.FrameRelative ew))) fc :=
            innerEmit_push (innerEmit_refl hf hwf) _ rfl (by
              intro n hn
              simp [opSlots, operandSlots] at hn
              subst hn
              exact ⟨he1, he2⟩)
          obtain ⟨fcZ, hemitZ⟩ := expand_components_emit restW _ ew c2 fc rest
            h hemitP.1 hemitP.2.2.2.1 he1 he2
          exact ⟨fcZ, innerEmit_trans hemitP hemitZ⟩
      | TildeExpand name =>
          simp only [expand_components] at h
          cases hx : allocate_string c with
          | error e => rw [hx] at h; exact absurd h (by simp [bind, Except.bind])
          | ok p =>
              obtain ⟨xp, cS⟩ := p
              rw [hx] at h
              simp only [exceptOk_bind] at h
              obtain ⟨cF, hfr, h⟩ := exceptBind_ok h
              obtain ⟨fcS, hemitS, hx1, hx2⟩ := allocate_string_emit hx hf hwf
              obtain ⟨fcF, hemitF, htopF⟩ := innerEmit_free
                (innerEmit_push (innerEmit_push hemitS _ (by rfl) (by
                  intro n hn
                  simp [opSlots, operandSlots] at hn
                  subst hn
                  exact ⟨hx1, hx2⟩)) _ (by rfl) (by
                  intro n hn
                  simp [opSlots, operandSlots] at hn
                  rcases hn with rfl | rfl
                  · exact ⟨hx1, hx2⟩
                  · exact ⟨he1, le_trans he2 hemitS.2.2.1⟩)) hfr hx1 hx2
              obtain ⟨fcZ, hemitZ⟩ := expand_components_emit restW cF ew c2 fcF rest
                h hemitF.1 hemitF.2.2.2.1 he1 (le_trans he2 hemitF.2.2.1)
              exact ⟨fcZ, innerEmit_trans hemitF hemitZ⟩
      | ParamExpand expr =>
          simp only [expand_components] at h
          cases hx : allocate_string c with
          | error e => rw [hx] at h; exact absurd h (by simp [bind, Except.bind])
          | ok p =>
              obtain ⟨xp, cS⟩ := p
              rw [hx] at h
              simp only [exceptOk_bind] at h
              cases hpe : parameter_expand cS xp expr with
              | error e => rw [hpe] at h; exact absurd h (by simp [bind, Except.bind])
              | ok cP =>
                  rw [hpe] at h
                  simp only [exceptOk_bind] at h
                  cases hfr : freeSlot (cP.push (.StringAppend (.FrameRelative xp)
                      (.FrameRelative ew))) xp with
                  | error e => rw [hfr] at h; exact absurd h (by simp [bind, Except.bind])
                  | ok cF =>
                      rw [hfr] at h
                      simp only [exceptOk_bind] at h
                      obtain ⟨fcS, hemitS, hx1, hx2⟩ := allocate_string_emit hx hf hwf
                      obtain ⟨fcP, hemitP0⟩ := parameter_expand_emit expr cS xp cP fcS rest
                        hpe hemitS.1 hemitS.2.2.2.1 hx1 hx2
                      have hemitP := innerEmit_trans hemitS hemitP0
                      have hemitA := innerEmit_push hemitP (.StringAppend (.FrameRelative xp)
                        (.FrameRelative ew)) rfl (by
                          intro n hn
                          simp [opSlots, operandSlots] at hn
                          rcases hn with rfl | rfl
                          · exact ⟨hx1, le_trans hx2 hemitP0.2.2.1⟩
                          · exact ⟨he1, le_trans he2 hemitP.2.2.1⟩)
                      obtain ⟨fcF, hemitF, htopF⟩ := innerEmit_free hemitA hfr hx1
                        (le_trans hx2 hemitP0.2.2.1)
                      obtain ⟨fcZ, hemitZ⟩ := expand_components_emit restW cF ew c2 fcF rest
                        h hemitF.1 hemitF.2.2.2.1 he1 (le_trans he2 hemitF.2.2.1)
                      exact ⟨fcZ, innerEmit_trans hemitF hemitZ⟩
      | CommandSubstitution =>
          simp only [expand_components] at h
          exact absurd h (by simp [bind, Except.bind])
termination_by w => sizeOf w

end

theorem word_expand_emit {c : Compiler} {argv : Nat} {w : Word} {c2 : Compiler}
    {fc : FrameCompiler} {rest : List FrameCompiler}
    (h : word_expand c argv w = .ok c2) (hf : c.frames = fc :: rest)
    (hwf : allocWF fc.allocator) (ha1 : 1 ≤ argv) (ha2 : argv ≤ fc.allocator.top) :
    ∃ fc2, InnerEmitTo fc rest c c2 fc2 := by
  unfold word_expand at h
  cases hx : allocate_string c with
  | error e => rw [hx] at h; exact absurd h (by simp [bind, Except.bind])
  | ok p =>
      obtain ⟨ew, cS⟩ := p
      rw [hx] at h
      simp only [exceptOk_bind] at h
      obtain ⟨cE, he, hc1⟩ := exceptBind_ok h
      obtain ⟨fcS, hemitS, he1, he2⟩ := allocate_string_emit hx hf hwf
      obtain ⟨fcE, hemitE0⟩ := expand_components_emit w cS ew cE fcS rest he
        hemitS.1 hemitS.2.2.2.1 he1 he2
      have hemitE := innerEmit_trans hemitS hemitE0
      obtain ⟨fcF, hemitF, htopF⟩ := innerEmit_free
        (innerEmit_push hemitE _ (by rfl) (by
          intro n hn
          simp [opSlots, operandSlots] at hn
          rcases hn with rfl | rfl
          · exact ⟨he1, le_trans he2 hemitE0.2.2.1⟩
          · exact ⟨ha1, le_trans ha2 hemitE.2.2.1⟩)) hc1 he1 (le_trans he2 hemitE0.2.2.1)
      exact ⟨fcF, hemitF⟩

theorem apply_redirection_loop_emit :
    ∀ (redir : List Redirection) (c c2 : Compiler) (fc : FrameCompiler)
      (rest : List FrameCompiler),
      apply_redirection_loop c redir = .ok c2 →
      c.frames = fc :: rest → allocWF fc.allocator →
      ∃ fc2, InnerEmitTo fc rest c c2 fc2
  | [] => by
      intro c c2 fc rest h hf hwf
      simp only [apply_redirection_loop] at h
      injection h with h
      subst h
      exact ⟨fc, innerEmit_refl hf hwf⟩
  | .File f :: rs => by
      intro c c2 fc rest h hf hwf
      simp only [apply_redirection_loop] at h
      cases hx : allocate_list c with
      | error e => rw [hx] at h; exact absurd h (by simp [bind, Except.bind])
      | ok p =>
          obtain ⟨fn, cA⟩ := p
          rw [hx] at h
          simp only [exceptOk_bind] at h
          obtain ⟨cW, hw, hc1⟩ := exceptBind_ok h
          obtain ⟨cF, hfr, hc2⟩ := exceptBind_ok hc1
          obtain ⟨fcA, hemitA, hv1, hv2⟩ := allocate_list_emit hx hf hwf
          obtain ⟨fcW, hemitW0⟩ := word_expand_emit hw hemitA.1 hemitA.2.2.2.1 hv1 hv2
          have hemitW := innerEmit_trans hemitA hemitW0
          obtain ⟨fcF, hemitF, htopF⟩ := innerEmit_free
            (innerEmit_push hemitW _ (by rfl) (by
              intro n hn
              simp [opSlots, operandSlots] at hn
              subst hn
              exact ⟨hv1, le_trans hv2 hemitW0.2.2.1⟩)) hfr hv1
            (le_trans hv2 hemitW0.2.2.1)
          obtain ⟨fcZ, hemitZ⟩ := apply_redirection_loop_emit rs cF c2 fcF rest hc2
            hemitF.1 hemitF.2.2.2.1
          exact ⟨fcZ, innerEmit_trans hemitF hemitZ⟩
  | .Fd f :: rs => by
      intro c c2 fc rest h hf hwf
      simp only [apply_redirection_loop] at h
      have hemitP : InnerEmitTo fc rest c
          (c.push (.DupFd f.src_fd_number f.dest_fd_number)) fc :=
        innerEmit_push (innerEmit_refl hf hwf) _ rfl (by
          intro n hn
          simp [opSlots] at hn)
      obtain ⟨fcZ, hemitZ⟩ := apply_redirection_loop_emit rs _ c2 fc rest h
        hemitP.1 hemitP.2.2.2.1
      exact ⟨fcZ, innerEmit_trans hemitP hemitZ⟩

theorem apply_redirection_emit {c : Compiler} {redir : List Redirection} {b : Bool}
    {c2 : Compiler} {fc : FrameCompiler} {rest : List FrameCompiler}
    (h : apply_redirection c redir = .ok (b, c2)) (hf : c.frames = fc :: rest)
    (hwf : allocWF fc.allocator) :
    ∃ fc2, InnerEmitTo fc rest c c2 fc2 := by
  cases redir with
  | nil =>
      simp only [apply_redirection] at h
      injection h with h
      injection h with h1 h2
      subst h2
      exact ⟨fc, innerEmit_refl hf hwf⟩
  | cons r rs =>
      simp only [apply_redirection] at h
      obtain ⟨cL, hl, hc1⟩ := exceptBind_ok h
      injection hc1 with hc1
      injection hc1 with h1 h2
      subst h2
      have hemitP : InnerEmitTo fc rest c (c.push .PushIoEnv) fc :=
        innerEmit_push (innerEmit_refl hf hwf) _ rfl (by
          intro n hn
          simp [opSlots] at hn)
      obtain ⟨fcZ, hemitZ⟩ := apply_redirection_loop_emit (r :: rs) _ cL fc rest hl
        hemitP.1 hemitP.2.2.2.1
      exact ⟨fcZ, innerEmit_trans hemitP hemitZ⟩

theorem process_assignments_emit :
    ∀ (assignments : List Assignment) (c c2 : Compiler) (fc : FrameCompiler)
      (rest : List FrameCompiler),
      process_assignments c assignments = .ok c2 →
      c.frames = fc :: rest → allocWF fc.allocator →
      ∃ fc2, InnerEmitTo fc rest c c2 fc2
  | [] => by
      intro c c2 fc rest h hf hwf
      simp only [process_assignments] at h
      injection h with h
      subst h
      exact ⟨fc, innerEmit_refl hf hwf⟩
  | a :: rs => by
      intro c c2 fc rest h hf hwf
      simp only [process_assignments] at h
      cases hx : allocate_list c with
      | error e => rw [hx] at h; exact absurd h (by simp [bind, Except.bind])
      | ok p =>
          obtain ⟨v, cA⟩ := p
          rw [hx] at h
          simp only [exceptOk_bind] at h
          obtain ⟨cW, hw, hc1⟩ := exceptBind_ok h
          obtain ⟨cF, hfr, hc2⟩ := exceptBind_ok hc1
          obtain ⟨fcA, hemitA, hv1, hv2⟩ := allocate_list_emit hx hf hwf
          obtain ⟨fcW, hemitW0⟩ := word_expand_emit hw hemitA.1 hemitA.2.2.2.1 hv1 hv2
          have hemitW := innerEmit_trans hemitA hemitW0
          have hvW : v ≤ fcW.allocator.top := le_trans hv2 hemitW0.2.2.1
          have hemitJ := innerEmit_push hemitW
            (.JoinList (.FrameRelative v) (.FrameRelative v)) rfl (by
              intro n hn
              simp [opSlots, operandSlots] at hn
              subst hn
              exact ⟨hv1, hvW⟩)
          have hemitSE := innerEmit_push hemitJ
            (.SetEnv (.Immediate (.String a.name)) (.FrameRelative v)) rfl (by
              intro n hn
              simp [opSlots, operandSlots] at hn
              subst hn
              exact ⟨hv1, hvW⟩)
          obtain ⟨fcF, hemitF, htopF⟩ := innerEmit_free hemitSE hfr hv1 hvW
          obtain ⟨fcZ, hemitZ⟩ := process_assignments_emit rs cF c2 fcF rest hc2
            hemitF.1 hemitF.2.2.2.1
          exact ⟨fcZ, innerEmit_trans hemitF hemitZ⟩

theorem checkOpsLe_cons_flat (op : Operation) (hop : isFrameOp op = false)
    (rest : List Operation) (s : List Nat) :
    checkOpsLe (op :: rest) s =
      if (opSlots op).all (checkSlotLe s.head?) then checkOpsLe rest s else none := by
  cases op <;> first | rfl | simp [isFrameOp] at hop

theorem checkOpsLe_append : ∀ (a b : List Operation) (s : List Nat),
    checkOpsLe (a ++ b) s = (checkOpsLe a s).bind (fun s2 => checkOpsLe b s2)
  | [], b, s => by simp [checkOpsLe]
  | op :: rest, b, s => by
      by_cases hfr : isFrameOp op = true
      · cases op <;> simp [isFrameOp] at hfr
        · rename_i size
          simp only [List.cons_append, checkOpsLe]
          exact checkOpsLe_append rest b (size :: s)
        · cases s with
          | nil => simp [List.cons_append, checkOpsLe]
          | cons s0 s2 =>
              simp only [List.cons_append, checkOpsLe]
              exact checkOpsLe_append rest b s2
      · replace hfr : isFrameOp op = false := by simpa using hfr
        rw [List.cons_append, checkOpsLe_cons_flat op hfr, checkOpsLe_cons_flat op hfr]
        by_cases hc : (opSlots op).all (checkSlotLe s.head?) = true
        · rw [if_pos hc, if_pos hc]
          exact checkOpsLe_append rest b s
        · rw [if_neg hc, if_neg hc]
          rfl

theorem segOk_nil : SegOk [] := fun s => by simp [checkOpsLe]

theorem segOk_append {a b : List Operation} (ha : SegOk a) (hb : SegOk b) :
    SegOk (a ++ b) := by
  intro s
  rw [checkOpsLe_append, ha s]
  exact hb s

theorem segOk_single {op : Operation} (hop : isFrameOp op = false)
    (hs : opSlots op = []) : SegOk [op] := by
  intro s
  rw [checkOpsLe_cons_flat op hop]
  simp [hs, checkOpsLe]

theorem mixOps_nil {m : Nat} : mixOps m [] := fun s => by simp [checkOpsLe]

theorem mixOps_append {m : Nat} {a b : List Operation} (ha : mixOps m a)
    (hb : mixOps m b) : mixOps m (a ++ b) := by
  intro s
  rw [checkOpsLe_append, ha s]
  exact hb s

theorem mixOps_of_seg {m : Nat} {ops : List Operation} (h : SegOk ops) : mixOps m ops :=
  fun s => h (m :: s)

theorem mixOps_of_inner {m : Nat} : ∀ {new : List Operation}, innerOps m new →
    mixOps m new
  | [], _ => mixOps_nil
  | op :: rest, h => by
      intro s
      obtain ⟨hfl, hb⟩ := h op (by simp)
      have hrest : innerOps m rest := fun o ho => h o (by simp [ho])
      have hfr : isFrameOp op = false := by
        cases op <;> first | rfl | simp [isFlat] at hfl
      rw [checkOpsLe_cons_flat op hfr]
      have hall : (opSlots op).all (checkSlotLe (some m)) = true := by
        rw [List.all_eq_true]
        intro n hn
        have hbn := hb n hn
        simp only [checkSlotLe, Bool.and_eq_true, decide_eq_true_eq]
        omega
      rw [List.head?_cons, if_pos hall]
      exact mixOps_of_inner hrest s

theorem segOk_block {sz : Nat} {T : List Operation} (h : mixOps sz T) :
    SegOk (Operation.PushFrame sz :: (T ++ [Operation.PopFrame])) := by
  intro s
  show checkOpsLe (Operation.PushFrame sz :: (T ++ [Operation.PopFrame])) s = some s
  rw [show checkOpsLe (Operation.PushFrame sz :: (T ++ [Operation.PopFrame])) s
      = checkOpsLe (T ++ [Operation.PopFrame]) (sz :: s) from rfl]
  rw [checkOpsLe_append, h s]
  simp [checkOpsLe]

theorem frameDepth_of_checkOpsLe : ∀ (ops : List Operation) (s : List Nat)
    (s2 : List Nat), checkOpsLe ops s = some s2 →
    frameDepthWalk ops s.length = some s2.length
  | [], s, s2 => by
      intro h
      simp [checkOpsLe] at h
      subst h
      simp [frameDepthWalk]
  | op :: rest, s, s2 => by
      intro h
      by_cases hfr : isFrameOp op = true
      · cases op <;> simp [isFrameOp] at hfr
        · rename_i size
          simp only [checkOpsLe] at h
          have := frameDepth_of_checkOpsLe rest (size :: s) s2 h
          simpa [frameDepthWalk] using this
        · cases s with
          | nil => simp [checkOpsLe] at h
          | cons s0 s3 =>
              simp only [checkOpsLe] at h
              have := frameDepth_of_checkOpsLe rest s3 s2 h
              simpa [frameDepthWalk] using this
      · replace hfr : isFrameOp op = false := by simpa using hfr
        rw [checkOpsLe_cons_flat op hfr] at h
        by_cases hc : (opSlots op).all (checkSlotLe s.head?) = true
        · rw [if_pos hc] at h
          have := frameDepth_of_checkOpsLe rest s s2 h
          rw [show frameDepthWalk (op :: rest) s.length
              = frameDepthWalk rest s.length from by
            cases op <;> first | rfl | simp [isFrameOp] at hfr]
          exact this
        · rw [if_neg hc] at h
          simp at h

theorem segEmit_refl (c : Compiler) : SegEmit c c := ⟨rfl, [], by simp, segOk_nil⟩

theorem segEmit_trans {c c2 c3 : Compiler} (h1 : SegEmit c c2) (h2 : SegEmit c2 c3) :
    SegEmit c c3 := by
  obtain ⟨hf1, n1, hp1, hs1⟩ := h1
  obtain ⟨hf2, n2, hp2, hs2⟩ := h2
  exact ⟨hf2.trans hf1, n1 ++ n2, by rw [hp2, hp1, List.append_assoc],
    segOk_append hs1 hs2⟩

theorem segEmit_push {c c2 : Compiler} (h : SegEmit c c2) (op : Operation)
    (hop : isFrameOp op = false) (hs : opSlots op = []) : SegEmit c (c2.push op) := by
  obtain ⟨hf, n1, hp, hsk⟩ := h
  exact ⟨hf, n1 ++ [op], by simp [Compiler.push, hp], segOk_append hsk (segOk_single hop hs)⟩

theorem ite_elseJump_seg {cB : Compiler} {cond : Operand} {c2 : Compiler}
    (hbody : SegEmit (cB.push (.JumpIfZero cond (.Absolute 0))) c2)
    (hcond : operandSlots cond = []) :
    ∃ c3, ite_elseJump c2 cB.program.length = .ok (c3, c2.program.length) ∧
      SegEmit cB c3 ∧
      (∀ c4 : Compiler, SegEmit c3 c4 →
        ∃ c5, ite_done c4 c2.program.length = .ok c5 ∧ SegEmit cB c5) := by
  obtain ⟨hfr, T, hp, hops⟩ := hbody
  have hp2 : c2.program = cB.program ++ [.JumpIfZero cond (.Absolute 0)] ++ T := by
    simpa [Compiler.push, List.append_assoc] using hp
  have hlen : c2.program.length = cB.program.length + 1 + T.length := by
    rw [hp2]
    simp only [List.length_append, List.length_cons, List.length_nil]
  have hje := ite_elseJump_ok cB.program T cond c2.frames
  have hc2eta : c2 = ⟨c2.program, c2.frames⟩ := rfl
  rw [hp2] at hc2eta
  rw [← hc2eta] at hje
  set jzP : Operation :=
    .JumpIfZero cond (.Absolute (cB.program.length + 1 + T.length + 1)) with hjzP
  have hjz1 : SegOk [jzP] := segOk_single rfl (by simp [hjzP, opSlots, hcond])
  refine ⟨⟨cB.program ++ [jzP] ++ T ++ [.Jump (.Absolute 0)], c2.frames⟩, ?_, ?_, ?_⟩
  · rw [hje, hlen]
  · exact ⟨hfr, [jzP] ++ T ++ [.Jump (.Absolute 0)], by simp [List.append_assoc],
      segOk_append (segOk_append hjz1 hops)
        (@segOk_single (.Jump (.Absolute 0)) rfl rfl)⟩
  · intro c4 h4
    obtain ⟨hfr4, E, hp4, hops4⟩ := h4
    have hp4b : c4.program
        = (cB.program ++ [jzP] ++ T) ++ [.Jump (.Absolute 0)] ++ E := by
      rw [hp4]
    have hblen : (cB.program ++ [jzP] ++ T).length = c2.program.length := by
      simp only [hlen, List.length_append, List.length_cons, List.length_nil]
    have hid := ite_done_ok (cB.program ++ [jzP] ++ T) E (.Absolute 0) c4.frames
    have hc4eta : c4 = ⟨c4.program, c4.frames⟩ := rfl
    rw [hp4b] at hc4eta
    rw [← hc4eta, hblen] at hid
    refine ⟨_, hid, hfr4.trans hfr,
      [jzP] ++ T ++ [.Jump (.Absolute (c2.program.length + 1 + E.length))] ++ E,
      by simp [List.append_assoc], ?_⟩
    exact segOk_append (segOk_append (segOk_append hjz1 hops)
      (@segOk_single (.Jump (.Absolute (c2.program.length + 1 + E.length))) rfl rfl)) hops4

theorem segEmit_of_cmd {c c2 : Compiler} (h : CmdEmit c c2) : SegEmit c c2 := by
  obtain ⟨hf, sz, T, hp, hs⟩ := h
  exact ⟨hf, _, hp, hs⟩

theorem commit_frame_spec {c : Compiler} {f : FrameCompiler} {rest : List FrameCompiler}
    (hf : c.frames = f :: rest) :
    commit_frame c = .ok ⟨(c.program.set f.frame_start_program_address
      (.PushFrame f.allocator.frame_size)) ++ [.PopFrame], rest⟩ := by
  unfold commit_frame
  rw [hf]
  rfl

theorem cmdEmit_pack {c cM c2 : Compiler} {b0 : Bool} {fcF : FrameCompiler}
    {body : List Operation}
    (hfrM : cM.frames = fcF :: c.frames)
    (haddr : fcF.frame_start_program_address = c.program.length)
    (hprog : cM.program = (c.program ++ [Operation.PushFrame 0]) ++ body)
    (hmix : mixOps fcF.allocator.top body)
    (hc2 : commit_frame (pop_redirection cM b0) = .ok c2) :
    CmdEmit c c2 := by
  have hstep : ∃ body2, (pop_redirection cM b0).program
        = (c.program ++ [Operation.PushFrame 0]) ++ body2 ∧
      mixOps fcF.allocator.top body2 ∧
      (pop_redirection cM b0).frames = fcF :: c.frames := by
    cases b0 with
    | false => exact ⟨body, hprog, hmix, hfrM⟩
    | true =>
        refine ⟨body ++ [Operation.PopIoEnv], ?_, ?_, hfrM⟩
        · show cM.program ++ [Operation.PopIoEnv] = _
          rw [hprog, List.append_assoc]
        · exact mixOps_append hmix (mixOps_of_seg (@segOk_single Operation.PopIoEnv rfl rfl))
  obtain ⟨body2, hprog2, hmix2, hfr2⟩ := hstep
  have hcommit := commit_frame_spec hfr2
  rw [hcommit] at hc2
  injection hc2 with hc2
  subst hc2
  have hset : ((c.program ++ [Operation.PushFrame 0]) ++ body2).set
        c.program.length (Operation.PushFrame fcF.allocator.frame_size)
      = c.program ++ (Operation.PushFrame fcF.allocator.frame_size :: body2) := by
    have h0 := list_set_append_length_add c.program ([Operation.PushFrame 0] ++ body2) 0
      (Operation.PushFrame fcF.allocator.frame_size)
    simpa [List.append_assoc] using h0
  refine ⟨rfl, fcF.allocator.frame_size, body2, ?_, segOk_block hmix2⟩
  show ((pop_redirection cM b0).program.set fcF.frame_start_program_address
      (Operation.PushFrame fcF.allocator.frame_size)) ++ [Operation.PopFrame] = _
  rw [hprog2, haddr, hset]
  simp

theorem pop_redirection_prog (x : Compiler) (b : Bool) :
    ∃ extra, (pop_redirection x b).program = x.program ++ extra ∧
      SegOk extra ∧ (pop_redirection x b).frames = x.frames := by
  cases b with
  | false => exact ⟨[], by simp [pop_redirection], segOk_nil, rfl⟩
  | true => exact ⟨[Operation.PopIoEnv], rfl,
      @segOk_single Operation.PopIoEnv rfl rfl, rfl⟩

theorem ite_arm_seg {cR cC cT cJ cE cD : Compiler} {sj : Nat}
    (hsegC : SegEmit cR cC)
    (hsegT : SegEmit (cC.push (.JumpIfZero .LastWaitStatus (.Absolute 0))) cT)
    (hj : ite_elseJump cT cC.program.length = .ok (cJ, sj))
    (hsegE : SegEmit cJ cE)
    (hd : ite_done cE sj = .ok cD) :
    SegEmit cR cD := by
  obtain ⟨c3, hje, hmidSeg, hcont⟩ := ite_elseJump_seg hsegT rfl
  have hpair := hj.symm.trans hje
  injection hpair with hpair
  injection hpair with h1 h2
  subst h1
  subst h2
  obtain ⟨c5, hd2, hfinSeg⟩ := hcont cE hsegE
  have hpair2 := hd.symm.trans hd2
  injection hpair2 with h3
  subst h3
  exact segEmit_trans hsegC hfinSeg

mutual

theorem compile_command_emit :
    ∀ (cmd : Command) (c c2 : Compiler),
      compile_command c cmd = .ok c2 → CmdEmit c c2
  | .mk cmdty redirects asynchronous => by
    intro c c2 h
    have hrcf : (reserve_frame c).frames
        = (⟨RegisterAllocator.new, c.program.length⟩ : FrameCompiler) :: c.frames := rfl
    have hwf0 : allocWF RegisterAllocator.new := by
      intro r hr
      simp [RegisterAllocator.new] at hr
    cases cmdty with
    | SimpleCommand simple =>
        simp only [compile_command] at h
        obtain ⟨pb, hred, hc1⟩ := exceptBind_ok h
        obtain ⟨b0, cR⟩ := pb
        obtain ⟨cM, harm, hc2⟩ := exceptBind_ok hc1
        obtain ⟨fc1, hemitR⟩ := apply_redirection_emit hred hrcf hwf0
        obtain ⟨pA, hargv, hs1c⟩ := exceptBind_ok harm
        obtain ⟨argv, cA⟩ := pA
        obtain ⟨pR, hred2, hs2c⟩ := exceptBind_ok hs1c
        obtain ⟨b1, cR2⟩ := pR
        obtain ⟨fcA0, hemitA0, hv1, hv2⟩ := allocate_list_emit hargv hemitR.1 hemitR.2.2.2.1
        obtain ⟨fcRi, hemitRi0⟩ := apply_redirection_emit hred2 hemitA0.1 hemitA0.2.2.2.1
        have hemitRi := innerEmit_trans (innerEmit_trans hemitR hemitA0) hemitRi0
        have hvRi : argv ≤ fcRi.allocator.top := le_trans hv2 hemitRi0.2.2.1
        cases hcnd : (!WordList.isEmpty simple.words && !simple.assignments.isEmpty) with
        | true =>
            rw [hcnd] at hs2c
            obtain ⟨cAs, hassign, hs3c⟩ := exceptBind_ok hs2c
            obtain ⟨cW, hwords, hs4c⟩ := exceptBind_ok hs3c
            obtain ⟨pS, hstat, hs5c⟩ := exceptBind_ok hs4c
            obtain ⟨status, cS⟩ := pS
            obtain ⟨cF, hfree, hs6c⟩ := exceptBind_ok hs5c
            have hMeq := Except.ok.inj hs6c
            have hfrY : (cR2.push Operation.PushEnvironment).frames = fcRi :: c.frames :=
              hemitRi0.1
            obtain ⟨fcAs, hemitAs0⟩ := process_assignments_emit simple.assignments
              (cR2.push Operation.PushEnvironment) cAs fcRi c.frames hassign hfrY
              hemitRi0.2.2.2.1
            obtain ⟨fcW, hemitW0⟩ := expand_words_emit simple.words cAs argv cW fcAs
              c.frames hwords hemitAs0.1 hemitAs0.2.2.2.1 hv1
              (le_trans hvRi hemitAs0.2.2.1)
            have hchain2 := innerEmit_trans hemitAs0 hemitW0
            obtain ⟨fcS, hemitS0, hst1, hst2⟩ := allocSlot_emit hstat hchain2.1
              hchain2.2.2.2.1
            have hchain3 := innerEmit_trans hchain2 hemitS0
            have hargvS : argv ≤ fcS.allocator.top :=
              le_trans hvRi (le_trans hchain2.2.2.1 hemitS0.2.2.1)
            have hsp := innerEmit_push hchain3
              (.SpawnCommand (.FrameRelative argv) (.FrameRelative status)) rfl (by
                intro n hn
                simp [opSlots, operandSlots] at hn
                rcases hn with rfl | rfl
                · exact ⟨hv1, hargvS⟩
                · exact ⟨hst1, hst2⟩)
            have hwait : InnerEmitTo fcRi c.frames (cR2.push Operation.PushEnvironment)
                (if asynchronous
                  then cS.push (Operation.SpawnCommand (Operand.FrameRelative argv)
                    (Operand.FrameRelative status))
                  else (cS.push (Operation.SpawnCommand (Operand.FrameRelative argv)
                    (Operand.FrameRelative status))).push
                    (Operation.Wait (Operand.FrameRelative status))) fcS := by
              cases asynchronous with
              | true => exact hsp
              | false =>
                  exact innerEmit_push hsp (Operation.Wait (Operand.FrameRelative status))
                    rfl (by
                      intro n hn
                      simp [opSlots, operandSlots] at hn
                      subst hn
                      exact ⟨hst1, hst2⟩)
            obtain ⟨fcF, hemitP2, htopP2⟩ := innerEmit_free hwait hfree hst1 hst2
            obtain ⟨extra, hpx, hsx, hfx⟩ := pop_redirection_prog
              (cF.push Operation.PopEnvironment) b1
            obtain ⟨hfrR2, haddr2, htop2, hwf2, new1, hp1, hops1⟩ := hemitRi
            obtain ⟨hfrF, haddrF, htopF, hwfF, new2, hp2, hops2⟩ := hemitP2
            refine @cmdEmit_pack c cM c2 b0 fcF
              (new1 ++ ([Operation.PushEnvironment] ++ (new2 ++
                ([Operation.PopEnvironment] ++ extra)))) ?_ ?_ ?_ ?_ hc2
            · rw [← hMeq]
              exact hfx.trans hfrF
            · exact haddrF.trans haddr2
            · rw [← hMeq]
              have hpe : (pop_redirection (cF.push Operation.PopEnvironment) b1).program
                  = (c.program ++ [Operation.PushFrame 0]) ++
                    (new1 ++ ([Operation.PushEnvironment] ++ (new2 ++
                      ([Operation.PopEnvironment] ++ extra)))) := by
                rw [hpx]
                simp [Compiler.push, hp2, hp1, reserve_frame, List.append_assoc]
              exact hpe
            · exact mixOps_append (mixOps_of_inner (innerOps_mono htopF hops1))
                (mixOps_append
                  (mixOps_of_seg (@segOk_single Operation.PushEnvironment rfl rfl))
                  (mixOps_append (mixOps_of_inner hops2)
                    (mixOps_append
                      (mixOps_of_seg (@segOk_single Operation.PopEnvironment rfl rfl))
                      (mixOps_of_seg hsx))))
        | false =>
            rw [hcnd] at hs2c
            obtain ⟨cAs, hassign, hs3c⟩ := exceptBind_ok hs2c
            obtain ⟨cW, hwords, hs4c⟩ := exceptBind_ok hs3c
            obtain ⟨pS, hstat, hs5c⟩ := exceptBind_ok hs4c
            obtain ⟨status, cS⟩ := pS
            obtain ⟨cF, hfree, hs6c⟩ := exceptBind_ok hs5c
            have hMeq := Except.ok.inj hs6c
            obtain ⟨fcAs, hemitAs0⟩ := process_assignments_emit simple.assignments
              cR2 cAs fcRi c.frames hassign hemitRi0.1 hemitRi0.2.2.2.1
            obtain ⟨fcW, hemitW0⟩ := expand_words_emit simple.words cAs argv cW fcAs
              c.frames hwords hemitAs0.1 hemitAs0.2.2.2.1 hv1
              (le_trans hvRi hemitAs0.2.2.1)
            have hchain2 := innerEmit_trans hemitAs0 hemitW0
            obtain ⟨fcS, hemitS0, hst1, hst2⟩ := allocSlot_emit hstat hchain2.1
              hchain2.2.2.2.1
            have hchain3 := innerEmit_trans hchain2 hemitS0
            have hargvS : argv ≤ fcS.allocator.top :=
              le_trans hvRi (le_trans hchain2.2.2.1 hemitS0.2.2.1)
            have hsp := innerEmit_push hchain3
              (.SpawnCommand (.FrameRelative argv) (.FrameRelative status)) rfl (by
                intro n hn
                simp [opSlots, operandSlots] at hn
                rcases hn with rfl | rfl
                · exact ⟨hv1, hargvS⟩
                · exact ⟨hst1, hst2⟩)
            have hwait : InnerEmitTo fcRi c.frames cR2
                (if asynchronous
                  then cS.push (Operation.SpawnCommand (Operand.FrameRelative argv)
                    (Operand.FrameRelative status))
                  else (cS.push (Operation.SpawnCommand (Operand.FrameRelative argv)
                    (Operand.FrameRelative status))).push
                    (Operation.Wait (Operand.FrameRelative status))) fcS := by
              cases asynchronous with
              | true => exact hsp
              | false =>
                  exact innerEmit_push hsp (Operation.Wait (Operand.FrameRelative status))
                    rfl (by
                      intro n hn
                      simp [opSlots, operandSlots] at hn
                      subst hn
                      exact ⟨hst1, hst2⟩)
            obtain ⟨fcF, hemitP2, htopP2⟩ := innerEmit_free hwait hfree hst1 hst2
            obtain ⟨extra, hpx, hsx, hfx⟩ := pop_redirection_prog cF b1
            obtain ⟨hfrR2, haddr2, htop2, hwf2, new1, hp1, hops1⟩ := hemitRi
            obtain ⟨hfrF, haddrF, htopF, hwfF, new2, hp2, hops2⟩ := hemitP2
            refine @cmdEmit_pack c cM c2 b0 fcF
              (new1 ++ (new2 ++ extra)) ?_ ?_ ?_ ?_ hc2
            · rw [← hMeq]
              exact hfx.trans hfrF
            · exact haddrF.trans haddr2
            · rw [← hMeq]
              have hpe : (pop_redirection cF b1).program
                  = (c.program ++ [Operation.PushFrame 0]) ++ (new1 ++ (new2 ++ extra)) := by
                rw [hpx]
                simp [Compiler.push, hp2, hp1, reserve_frame, List.append_assoc]
              exact hpe
            · exact mixOps_append (mixOps_of_inner (innerOps_mono htopF hops1))
                (mixOps_append (mixOps_of_inner hops2) (mixOps_of_seg hsx))
    | If condition true_part false_part =>
        cases true_part with
        | someCL tp =>
          cases false_part with
          | someCL fp =>
            simp only [compile_command] at h
            cases hred : apply_redirection (reserve_frame c) redirects with
            | error e => rw [hred] at h; exact absurd h (by simp [bind, Except.bind])
            | ok pb =>
              obtain ⟨b0, cR⟩ := pb
              rw [hred] at h
              simp only [exceptOk_bind] at h
              cases hcond : compound_list cR condition with
              | error e => rw [hcond] at h; exact absurd h (by simp [bind, Except.bind])
              | ok cC =>
                rw [hcond] at h
                simp only [exceptOk_bind, ite_begin] at h
                obtain ⟨fc1, hemitR⟩ := apply_redirection_emit hred hrcf hwf0
                have hsegC := compound_list_emit condition cR cC hcond
                cases hthen : compound_list (cC.push (Operation.JumpIfZero Operand.LastWaitStatus (InstructionAddress.Absolute 0))) tp with
                | error e => rw [hthen] at h; exact absurd h (by simp [bind, Except.bind])
                | ok cT =>
                  rw [hthen] at h
                  simp only [exceptOk_bind] at h
                  have hsegT : SegEmit (cC.push (.JumpIfZero .LastWaitStatus (.Absolute 0))) cT := compound_list_emit tp _ cT hthen
                  cases hj : ite_elseJump cT cC.program.length with
                  | error e => rw [hj] at h; exact absurd h (by simp [bind, Except.bind])
                  | ok pJ =>
                    obtain ⟨cJ, sj⟩ := pJ
                    rw [hj] at h
                    simp only [exceptOk_bind] at h
                    cases helse : compound_list cJ fp with
                    | error e => rw [helse] at h; exact absurd h (by simp [bind, Except.bind])
                    | ok cE =>
                      rw [helse] at h
                      simp only [exceptOk_bind] at h
                      have hsegE : SegEmit cJ cE := compound_list_emit fp cJ cE helse
                      cases hd : ite_done cE sj with
                      | error e => rw [hd] at h; exact absurd h (by simp [bind, Except.bind])
                      | ok cD =>
                        rw [hd] at h
                        simp only [exceptOk_bind] at h
                        have hsegArm := ite_arm_seg hsegC hsegT hj hsegE hd
                        obtain ⟨hfrR, haddrR, htopR, hwfR, new1, hp1, hops1⟩ := hemitR
                        obtain ⟨hfrS, new2, hp2, hsk2⟩ := hsegArm
                        exact @cmdEmit_pack c cD c2 b0 fc1 (new1 ++ new2) (by rw [hfrS, hfrR]) haddrR
                          (by rw [hp2, hp1]; simp [reserve_frame, Compiler.push, List.append_assoc])
                          (mixOps_append (mixOps_of_inner hops1) (mixOps_of_seg hsk2)) h
          | noneCL =>
            simp only [compile_command] at h
            cases hred : apply_redirection (reserve_frame c) redirects with
            | error e => rw [hred] at h; exact absurd h (by simp [bind, Except.bind])
            | ok pb =>
              obtain ⟨b0, cR⟩ := pb
              rw [hred] at h
              simp only [exceptOk_bind] at h
              cases hcond : compound_list cR condition with
              | error e => rw [hcond] at h; exact absurd h (by simp [bind, Except.bind])
              | ok cC =>
                rw [hcond] at h
                simp only [exceptOk_bind, ite_begin] at h
                obtain ⟨fc1, hemitR⟩ := apply_redirection_emit hred hrcf hwf0
                have hsegC := compound_list_emit condition cR cC hcond
                cases hthen : compound_list (cC.push (Operation.JumpIfZero Operand.LastWaitStatus (InstructionAddress.Absolute 0))) tp with
                | error e => rw [hthen] at h; exact absurd h (by simp [bind, Except.bind])
                | ok cT =>
                  rw [hthen] at h
                  simp only [exceptOk_bind] at h
                  have hsegT : SegEmit (cC.push (.JumpIfZero .LastWaitStatus (.Absolute 0))) cT := compound_list_emit tp _ cT hthen
                  cases hj : ite_elseJump cT cC.program.length with
                  | error e => rw [hj] at h; exact absurd h (by simp [bind, Except.bind])
                  | ok pJ =>
                    obtain ⟨cJ, sj⟩ := pJ
                    rw [hj] at h
                    simp only [exceptOk_bind] at h
                    cases hd : ite_done cJ sj with
                    | error e => rw [hd] at h; exact absurd h (by simp [bind, Except.bind])
                    | ok cD =>
                      rw [hd] at h
                      simp only [exceptOk_bind] at h
                      have hsegArm := ite_arm_seg hsegC hsegT hj (segEmit_refl cJ) hd
                      obtain ⟨hfrR, haddrR, htopR, hwfR, new1, hp1, hops1⟩ := hemitR
                      obtain ⟨hfrS, new2, hp2, hsk2⟩ := hsegArm
                      exact @cmdEmit_pack c cD c2 b0 fc1 (new1 ++ new2) (by rw [hfrS, hfrR]) haddrR
                        (by rw [hp2, hp1]; simp [reserve_frame, Compiler.push, List.append_assoc])
                        (mixOps_append (mixOps_of_inner hops1) (mixOps_of_seg hsk2)) h
        | noneCL =>
          cases false_part with
          | someCL fp =>
            simp only [compile_command] at h
            cases hred : apply_redirection (reserve_frame c) redirects with
            | error e => rw [hred] at h; exact absurd h (by simp [bind, Except.bind])
            | ok pb =>
              obtain ⟨b0, cR⟩ := pb
              rw [hred] at h
              simp only [exceptOk_bind] at h
              cases hcond : compound_list cR condition with
              | error e => rw [hcond] at h; exact absurd h (by simp [bind, Except.bind])
              | ok cC =>
                rw [hcond] at h
                simp only [exceptOk_bind, ite_begin] at h
                obtain ⟨fc1, hemitR⟩ := apply_redirection_emit hred hrcf hwf0
                have hsegC := compound_list_emit condition cR cC hcond
                have hsegT : SegEmit (cC.push (.JumpIfZero .LastWaitStatus (.Absolute 0))) (cC.push (Operation.JumpIfZero Operand.LastWaitStatus (InstructionAddress.Absolute 0))) := segEmit_refl _
                cases hj : ite_elseJump (cC.push (Operation.JumpIfZero Operand.LastWaitStatus (InstructionAddress.Absolute 0))) cC.program.length with
                | error e => rw [hj] at h; exact absurd h (by simp [bind, Except.bind])
                | ok pJ =>
                  obtain ⟨cJ, sj⟩ := pJ
                  rw [hj] at h
                  simp only [exceptOk_bind] at h
                  cases helse : compound_list cJ fp with
                  | error e => rw [helse] at h; exact absurd h (by simp [bind, Except.bind])
                  | ok cE =>
                    rw [helse] at h
                    simp only [exceptOk_bind] at h
                    have hsegE : SegEmit cJ cE := compound_list_emit fp cJ cE helse
                    cases hd : ite_done cE sj with
                    | error e => rw [hd] at h; exact absurd h (by simp [bind, Except.bind])
                    | ok cD =>
                      rw [hd] at h
                      simp only [exceptOk_bind] at h
                      have hsegArm := ite_arm_seg hsegC hsegT hj hsegE hd
                      obtain ⟨hfrR, haddrR, htopR, hwfR, new1, hp1, hops1⟩ := hemitR
                      obtain ⟨hfrS, new2, hp2, hsk2⟩ := hsegArm
                      exact @cmdEmit_pack c cD c2 b0 fc1 (new1 ++ new2) (by rw [hfrS, hfrR]) haddrR
                        (by rw [hp2, hp1]; simp [reserve_frame, Compiler.push, List.append_assoc])
                        (mixOps_append (mixOps_of_inner hops1) (mixOps_of_seg hsk2)) h
          | noneCL =>
            simp only [compile_command] at h
            cases hred : apply_redirection (reserve_frame c) redirects with
            | error e => rw [hred] at h; exact absurd h (by simp [bind, Except.bind])
            | ok pb =>
              obtain ⟨b0, cR⟩ := pb
              rw [hred] at h
              simp only [exceptOk_bind] at h
              cases hcond : compound_list cR condition with
              | error e => rw [hcond] at h; exact absurd h (by simp [bind, Except.bind])
              | ok cC =>
                rw [hcond] at h
                simp only [exceptOk_bind, ite_begin] at h
                obtain ⟨fc1, hemitR⟩ := apply_redirection_emit hred hrcf hwf0
                have hsegC := compound_list_emit condition cR cC hcond
                have hsegT : SegEmit (cC.push (.JumpIfZero .LastWaitStatus (.Absolute 0))) (cC.push (Operation.JumpIfZero Operand.LastWaitStatus (InstructionAddress.Absolute 0))) := segEmit_refl _
                cases hj : ite_elseJump (cC.push (Operation.JumpIfZero Operand.LastWaitStatus (InstructionAddress.Absolute 0))) cC.program.length with
                | error e => rw [hj] at h; exact absurd h (by simp [bind, Except.bind])
                | ok pJ =>
                  obtain ⟨cJ, sj⟩ := pJ
                  rw [hj] at h
                  simp only [exceptOk_bind] at h
                  cases hd : ite_done cJ sj with
                  | error e => rw [hd] at h; exact absurd h (by simp [bind, Except.bind])
                  | ok cD =>
                    rw [hd] at h
                    simp only [exceptOk_bind] at h
                    have hsegArm := ite_arm_seg hsegC hsegT hj (segEmit_refl cJ) hd
                    obtain ⟨hfrR, haddrR, htopR, hwfR, new1, hp1, hops1⟩ := hemitR
                    obtain ⟨hfrS, new2, hp2, hsk2⟩ := hsegArm
                    exact @cmdEmit_pack c cD c2 b0 fc1 (new1 ++ new2) (by rw [hfrS, hfrR]) haddrR
                      (by rw [hp2, hp1]; simp [reserve_frame, Compiler.push, List.append_assoc])
                      (mixOps_append (mixOps_of_inner hops1) (mixOps_of_seg hsk2)) h
    | Program l =>
        simp only [compile_command] at h
        obtain ⟨pb, hred, hc1⟩ := exceptBind_ok h
        obtain ⟨b0, cR⟩ := pb
        obtain ⟨cM, harm, hc2⟩ := exceptBind_ok hc1
        obtain ⟨fc1, hemitR⟩ := apply_redirection_emit hred hrcf hwf0
        have hseg := compound_list_emit l cR cM harm
        obtain ⟨hfrR, haddrR, htopR, hwfR, new1, hp1, hops1⟩ := hemitR
        obtain ⟨hfrS, new2, hp2, hsk2⟩ := hseg
        exact @cmdEmit_pack c cM c2 b0 fc1 (new1 ++ new2) (by rw [hfrS, hfrR]) haddrR
          (by rw [hp2, hp1]; simp [reserve_frame, Compiler.push, List.append_assoc])
          (mixOps_append (mixOps_of_inner hops1) (mixOps_of_seg hsk2)) hc2
    | BraceGroup l =>
        simp only [compile_command] at h
        obtain ⟨pb, hred, hc1⟩ := exceptBind_ok h
        obtain ⟨b0, cR⟩ := pb
        obtain ⟨cM, harm, hc2⟩ := exceptBind_ok hc1
        obtain ⟨fc1, hemitR⟩ := apply_redirection_emit hred hrcf hwf0
        have hseg := compound_list_emit l cR cM harm
        obtain ⟨hfrR, haddrR, htopR, hwfR, new1, hp1, hops1⟩ := hemitR
        obtain ⟨hfrS, new2, hp2, hsk2⟩ := hseg
        exact @cmdEmit_pack c cM c2 b0 fc1 (new1 ++ new2) (by rw [hfrS, hfrR]) haddrR
          (by rw [hp2, hp1]; simp [reserve_frame, Compiler.push, List.append_assoc])
          (mixOps_append (mixOps_of_inner hops1) (mixOps_of_seg hsk2)) hc2
    | Pipeline commands inverted =>
        simp only [compile_command] at h
        obtain ⟨pb, hred, hc1⟩ := exceptBind_ok h
        obtain ⟨b0, cR⟩ := pb
        obtain ⟨cM, harm, hc2⟩ := exceptBind_ok hc1
        obtain ⟨fc1, hemitR⟩ := apply_redirection_emit hred hrcf hwf0
        obtain ⟨cP, hpipe, hi1⟩ := exceptBind_ok harm
        have hMeq := Except.ok.inj hi1
        have hsegP : SegEmit cR cP := by
          by_cases hn : CommandList.length commands ≤ 1
          · rw [if_pos hn] at hpipe
            exact compile_seq_emit commands cR cP hpipe
          · rw [if_neg hn] at hpipe
            exact pipeline_loop_emit commands cR cP 0 (CommandList.length commands) hpipe
        have hsegArm : SegEmit cR cM := by
          rw [← hMeq]
          cases inverted with
          | true => exact segEmit_push hsegP Operation.InvertLastWait rfl rfl
          | false => exact hsegP
        obtain ⟨hfrR, haddrR, htopR, hwfR, new1, hp1, hops1⟩ := hemitR
        obtain ⟨hfrS, new2, hp2, hsk2⟩ := hsegArm
        exact @cmdEmit_pack c cM c2 b0 fc1 (new1 ++ new2) (by rw [hfrS, hfrR]) haddrR
          (by rw [hp2, hp1]; simp [reserve_frame, Compiler.push, List.append_assoc])
          (mixOps_append (mixOps_of_inner hops1) (mixOps_of_seg hsk2)) hc2
    | ForEach =>
        simp only [compile_command] at h
        obtain ⟨pb, hred, hc1⟩ := exceptBind_ok h
        obtain ⟨b0, cR⟩ := pb
        obtain ⟨cX, hbad, hc2⟩ := exceptBind_ok hc1
        exact absurd hbad (by simp)
    | While =>
        simp only [compile_command] at h
        obtain ⟨pb, hred, hc1⟩ := exceptBind_ok h
        obtain ⟨b0, cR⟩ := pb
        obtain ⟨cX, hbad, hc2⟩ := exceptBind_ok hc1
        exact absurd hbad (by simp)
    | Until =>
        simp only [compile_command] at h
        obtain ⟨pb, hred, hc1⟩ := exceptBind_ok h
        obtain ⟨b0, cR⟩ := pb
        obtain ⟨cX, hbad, hc2⟩ := exceptBind_ok hc1
        exact absurd hbad (by simp)
    | CaseMatch =>
        simp only [compile_command] at h
        obtain ⟨pb, hred, hc1⟩ := exceptBind_ok h
        obtain ⟨b0, cR⟩ := pb
        obtain ⟨cX, hbad, hc2⟩ := exceptBind_ok hc1
        exact absurd hbad (by simp)
    | FunctionDefinition =>
        simp only [compile_command] at h
        obtain ⟨pb, hred, hc1⟩ := exceptBind_ok h
        obtain ⟨b0, cR⟩ := pb
        obtain ⟨cX, hbad, hc2⟩ := exceptBind_ok hc1
        exact absurd hbad (by simp)
    | Subshell =>
        simp only [compile_command] at h
        obtain ⟨pb, hred, hc1⟩ := exceptBind_ok h
        obtain ⟨b0, cR⟩ := pb
        obtain ⟨cX, hbad, hc2⟩ := exceptBind_ok hc1
        exact absurd hbad (by simp)
termination_by cmd => sizeOf cmd

theorem compile_seq_emit :
    ∀ (cl : CommandList) (c c2 : Compiler),
      compile_seq c cl = .ok c2 → SegEmit c c2
  | .nil => by
      intro c c2 h
      simp only [compile_seq] at h
      injection h with h
      subst h
      exact segEmit_refl c
  | .cons cmd restC => by
      intro c c2 h
      simp only [compile_seq] at h
      obtain ⟨cB, hcmd, hrest⟩ := exceptBind_ok h
      exact segEmit_trans (segEmit_of_cmd (compile_command_emit cmd c cB hcmd))
        (compile_seq_emit restC cB c2 hrest)
termination_by cl => sizeOf cl

theorem pipeline_loop_emit :
    ∀ (cl : CommandList) (c c2 : Compiler) (i n : Nat),
      pipeline_loop c cl i n = .ok c2 → SegEmit c c2
  | .nil => by
      intro c c2 i n h
      simp only [pipeline_loop] at h
      injection h with h
      subst h
      exact segEmit_refl c
  | .cons cmd restC => by
      intro c c2 i n h
      simp only [pipeline_loop] at h
      cases hfz : (i == 0) <;> rw [hfz] at h <;>
        cases hlz : (i == n - 1) <;> rw [hlz] at h
      · obtain ⟨cB, hcmd, hrest⟩ := exceptBind_ok h
        have hpre : SegEmit c (((c.push Operation.PushIoEnv).push
            Operation.PopPipe).push Operation.PushPipe) :=
          segEmit_push (segEmit_push (segEmit_push (segEmit_refl c)
            Operation.PushIoEnv rfl rfl) Operation.PopPipe rfl rfl)
            Operation.PushPipe rfl rfl
        exact segEmit_trans
          (segEmit_push (segEmit_trans hpre
            (segEmit_of_cmd (compile_command_emit cmd _ cB hcmd)))
            Operation.PopIoEnv rfl rfl)
          (pipeline_loop_emit restC (cB.push Operation.PopIoEnv) c2 (i + 1) n hrest)
      · obtain ⟨cB, hcmd, hrest⟩ := exceptBind_ok h
        have hpre : SegEmit c ((c.push Operation.PushIoEnv).push Operation.PopPipe) :=
          segEmit_push (segEmit_push (segEmit_refl c)
            Operation.PushIoEnv rfl rfl) Operation.PopPipe rfl rfl
        exact segEmit_trans
          (segEmit_push (segEmit_trans hpre
            (segEmit_of_cmd (compile_command_emit cmd _ cB hcmd)))
            Operation.PopIoEnv rfl rfl)
          (pipeline_loop_emit restC (cB.push Operation.PopIoEnv) c2 (i + 1) n hrest)
      · obtain ⟨cB, hcmd, hrest⟩ := exceptBind_ok h
        have hpre : SegEmit c ((c.push Operation.PushIoEnv).push Operation.PushPipe) :=
          segEmit_push (segEmit_push (segEmit_refl c)
            Operation.PushIoEnv rfl rfl) Operation.PushPipe rfl rfl
        exact segEmit_trans
          (segEmit_push (segEmit_trans hpre
            (segEmit_of_cmd (compile_command_emit cmd _ cB hcmd)))
            Operation.PopIoEnv rfl rfl)
          (pipeline_loop_emit restC (cB.push Operation.PopIoEnv) c2 (i + 1) n hrest)
      · obtain ⟨cB, hcmd, hrest⟩ := exceptBind_ok h
        have hpre : SegEmit c (c.push Operation.PushIoEnv) :=
          segEmit_push (segEmit_refl c) Operation.PushIoEnv rfl rfl
        exact segEmit_trans
          (segEmit_push (segEmit_trans hpre
            (segEmit_of_cmd (compile_command_emit cmd _ cB hcmd)))
            Operation.PopIoEnv rfl rfl)
          (pipeline_loop_emit restC (cB.push Operation.PopIoEnv) c2 (i + 1) n hrest)
termination_by cl => sizeOf cl

theorem compound_list_emit :
    ∀ (l : CompoundList) (c c2 : Compiler),
      compound_list c l = .ok c2 → SegEmit c c2
  | .mk commands => by
      intro c c2 h
      simp only [compound_list] at h
      exact compile_seq_emit commands c c2 h
termination_by l => sizeOf l

end

theorem innerOps_no_env {m : Nat} {ops : List Operation} (h : innerOps m ops) :
    Operation.PushEnvironment ∉ ops ∧ Operation.PopEnvironment ∉ ops := by
  constructor <;> intro hmem <;> have hfl := (h _ hmem).1 <;> simp [isFlat] at hfl

theorem freeSlot_program {c : Compiler} {slot : Nat} {c2 : Compiler}
    {fc : FrameCompiler} {rest : List FrameCompiler}
    (h : freeSlot c slot = .ok c2) (hf : c.frames = fc :: rest) :
    c2.program = c.program := by
  rw [freeSlot_spec h hf]

theorem cmdEmit_pack_prog {c cM c2 : Compiler} {b0 : Bool} {fcF : FrameCompiler}
    {body : List Operation}
    (hfrM : cM.frames = fcF :: c.frames)
    (haddr : fcF.frame_start_program_address = c.program.length)
    (hprog : cM.program = (c.program ++ [Operation.PushFrame 0]) ++ body)
    (hc2 : commit_frame (pop_redirection cM b0) = .ok c2) :
    ∃ extra, (extra = [] ∨ extra = [Operation.PopIoEnv]) ∧
      c2.program = c.program ++ (Operation.PushFrame fcF.allocator.frame_size ::
        ((body ++ extra) ++ [Operation.PopFrame])) ∧
      c2.frames = c.frames := by
  have hstep : ∃ extra, (extra = [] ∨ extra = [Operation.PopIoEnv]) ∧
      (pop_redirection cM b0).program
        = (c.program ++ [Operation.PushFrame 0]) ++ (body ++ extra) ∧
      (pop_redirection cM b0).frames = fcF :: c.frames := by
    cases b0 with
    | false => exact ⟨[], Or.inl rfl, by simp [pop_redirection, hprog], hfrM⟩
    | true =>
        refine ⟨[Operation.PopIoEnv], Or.inr rfl, ?_, hfrM⟩
        show cM.program ++ [Operation.PopIoEnv] = _
        rw [hprog, List.append_assoc]
  obtain ⟨extra, hex, hprog2, hfr2⟩ := hstep
  have hcommit := commit_frame_spec hfr2
  rw [hcommit] at hc2
  injection hc2 with hc2
  subst hc2
  have hset : ((c.program ++ [Operation.PushFrame 0]) ++ (body ++ extra)).set
        c.program.length (Operation.PushFrame fcF.allocator.frame_size)
      = c.program ++ (Operation.PushFrame fcF.allocator.frame_size :: (body ++ extra)) := by
    have h0 := list_set_append_length_add c.program ([Operation.PushFrame 0] ++ (body ++ extra)) 0
      (Operation.PushFrame fcF.allocator.frame_size)
    simpa [List.append_assoc] using h0
  refine ⟨extra, hex, ?_, rfl⟩
  show ((pop_redirection cM b0).program.set fcF.frame_start_program_address
      (Operation.PushFrame fcF.allocator.frame_size)) ++ [Operation.PopFrame] = _
  rw [hprog2, haddr, hset]
  simp

theorem compileProg_checkOpsLe (cmd : Command) (prog : List Operation)
    (h : compileProg cmd = .ok prog) : checkOpsLe prog [] = some [] := by
  unfold compileProg at h
  cases hc : compile_command Compiler.new cmd with
  | error e => rw [hc] at h; exact absurd h (by simp [bind, Except.bind])
  | ok c2 =>
      rw [hc] at h
      simp only [exceptOk_bind] at h
      injection h with h
      obtain ⟨hf, sz, T, hp, hs⟩ := compile_command_emit cmd Compiler.new c2 hc
      have hprog : prog = (Operation.PushFrame sz :: (T ++ [Operation.PopFrame]))
          ++ [Operation.Exit Operand.LastWaitStatus] := by
        rw [← h]
        show c2.program ++ [Operation.Exit Operand.LastWaitStatus] = _
        rw [hp]
        simp [Compiler.new]
      rw [hprog, checkOpsLe_append, hs []]
      rfl

theorem pipeline_loop_shape :
    ∀ (cl : CommandList) (c c2 : Compiler) (i n : Nat),
      pipeline_loop c cl i n = .ok c2 →
      ∃ segs, c2.program = c.program ++ segs ∧
        pipeSegs (CommandList.length cl) i n segs
  | .nil => by
      intro c c2 i n h
      simp only [pipeline_loop] at h
      injection h with h
      subst h
      exact ⟨[], by simp, rfl⟩
  | .cons cmd restC => by
      intro c c2 i n h
      simp only [pipeline_loop] at h
      cases hfz : (i == 0) <;> rw [hfz] at h <;>
        cases hlz : (i == n - 1) <;> rw [hlz] at h <;>
        · obtain ⟨cB, hcmd, hrest⟩ := exceptBind_ok h
          obtain ⟨hfB, sz, B, hpB, hsB⟩ := compile_command_emit cmd _ cB hcmd
          obtain ⟨restSegs, hpR, hps⟩ := pipeline_loop_shape restC
            (cB.push Operation.PopIoEnv) c2 (i + 1) n hrest
          refine ⟨_, ?_, sz, B, restSegs, rfl, hps⟩
          rw [hpR]
          show (cB.push Operation.PopIoEnv).program ++ restSegs = _
          simp [Compiler.push, hpB, hfz, hlz, List.append_assoc]

theorem no_env_of_flat {ops : List Operation} (h : ∀ op ∈ ops, isFlat op = true) :
    Operation.PushEnvironment ∉ ops ∧ Operation.PopEnvironment ∉ ops := by
  constructor <;> intro hmem <;> have hfl := h _ hmem <;> simp [isFlat] at hfl

theorem pop_redirection_cases (x : Compiler) (b : Bool) :
    ∃ extra, (extra = [] ∨ extra = [Operation.PopIoEnv]) ∧
      (pop_redirection x b).program = x.program ++ extra ∧
      (pop_redirection x b).frames = x.frames := by
  cases b with
  | false => exact ⟨[], Or.inl rfl, by simp [pop_redirection], rfl⟩
  | true => exact ⟨[Operation.PopIoEnv], Or.inr rfl, rfl, rfl⟩

/-- C2 (with the inclusive bound): every program the compiler emits only
dereferences frame slots `n` with `1 ≤ n ≤ size` of the innermost
enclosing `PushFrame`, checked by the stack walk `checkOpsLe`. -/
theorem compiled_frame_slots_within_bound :
    ∀ (cmd : Command) (prog : List Operation),
      compileProg cmd = .ok prog → checkOpsLe prog [] = some [] := by
  intro cmd prog h
  exact compileProg_checkOpsLe cmd prog h

theorem compiled_frame_slots_within_bound_witness :
    ∃ prog, compileProg echoHelloCmd = Except.ok prog ∧ checkOpsLe prog [] = some [] :=
  ⟨_, rfl, compiled_frame_slots_within_bound echoHelloCmd _ rfl⟩

/-- C2 counterexample to the strict bound: the program compiled from
`echo hello` allocates slots 1 and 2 under `PushFrame 2`, so
`FrameRelative 2` violates `n < size` while the program still runs to
completion (the machine allocates `size + 1` slots per frame). -/
theorem frame_slot_strict_bound_counterexample :
    ∃ prog, compileProg echoHelloCmd = Except.ok prog ∧
      checkOpsLt prog [] = none ∧
      prog.get? 0 = some (Operation.PushFrame 2) ∧
      prog.get? 8 = some (Operation.SpawnCommand (Operand.FrameRelative 1)
        (Operand.FrameRelative 2)) ∧
      runShell echoHelloCmd = .ok (0, [["echo", "hello"]], "hello\n", "") :=
  ⟨_, rfl, rfl, rfl, rfl, rfl⟩

/-- C8: every successfully compiled command leaves the frame stack as it
found it and appends one block whose first operation is a `PushFrame`
and whose last is the matching `PopFrame`, balanced at depth zero;
`commit_frame` patches the reserved placeholder in place with the final
frame size; and every finished program is `PushFrame`/`PopFrame`
balanced. -/
theorem frame_blocks_balanced_and_patched :
    (∀ (cmd : Command) (c c2 : Compiler), compile_command c cmd = .ok c2 →
      c2.frames = c.frames ∧
      ∃ sz T, c2.program = c.program ++
          (Operation.PushFrame sz :: (T ++ [Operation.PopFrame])) ∧
        frameDepthWalk (Operation.PushFrame sz :: (T ++ [Operation.PopFrame])) 0
          = some 0) ∧
    (∀ (c : Compiler) (f : FrameCompiler) (rest : List FrameCompiler),
      c.frames = f :: rest →
      commit_frame c = .ok ⟨(c.program.set f.frame_start_program_address
        (Operation.PushFrame f.allocator.frame_size)) ++ [Operation.PopFrame], rest⟩) ∧
    (∀ (cmd : Command) (prog : List Operation), compileProg cmd = .ok prog →
      frameDepthWalk prog 0 = some 0) := by
  refine ⟨?_, ?_, ?_⟩
  · intro cmd c c2 h
    obtain ⟨hf, sz, T, hp, hs⟩ := compile_command_emit cmd c c2 h
    refine ⟨hf, sz, T, hp, ?_⟩
    have hd := frameDepth_of_checkOpsLe _ [] [] (hs [])
    simpa using hd
  · intro c f rest hf
    exact commit_frame_spec hf
  · intro cmd prog h
    have hd := frameDepth_of_checkOpsLe prog [] [] (compileProg_checkOpsLe cmd prog h)
    simpa using hd

theorem frame_blocks_balanced_and_patched_witness :
    ∃ prog, compileProg echoHelloCmd = Except.ok prog ∧ frameDepthWalk prog 0 = some 0 :=
  ⟨_, rfl, frame_blocks_balanced_and_patched.2.2 echoHelloCmd _ rfl⟩

/-- C4: lowering a pipeline applies the outer redirections, then either
compiles the commands directly when there are at most one, or runs the
indexed loop whose emitted code brackets each compiled command block
with `PushIoEnv` … `PopIoEnv`, preceded by `PopPipe` exactly when it is
not the first command and `PushPipe` exactly when it is not the last;
`InvertLastWait` is appended exactly when the pipeline is inverted. -/
theorem pipeline_lowering :
    ∀ (commands : CommandList) (inverted : Bool) (redirects : List Redirection)
      (asyn : Bool) (c c2 : Compiler),
      compile_command c (.mk (.Pipeline commands inverted) redirects asyn) = .ok c2 →
      PipelineLowered commands inverted redirects c c2 := by
  intro commands inverted redirects asyn c c2 h
  simp only [compile_command] at h
  cases hred : apply_redirection (reserve_frame c) redirects with
  | error e => rw [hred] at h; exact absurd h (by simp [bind, Except.bind])
  | ok pb =>
      obtain ⟨b0, cR⟩ := pb
      rw [hred] at h
      simp only [exceptOk_bind] at h
      by_cases hn : CommandList.length commands ≤ 1
      · rw [if_pos hn] at h
        cases hpipe : compile_seq cR commands with
        | error e => rw [hpipe] at h; exact absurd h (by simp [bind, Except.bind])
        | ok cP =>
            rw [hpipe] at h
            simp only [exceptOk_bind] at h
            exact ⟨b0, cR, cP, hred, Or.inl ⟨hn, hpipe⟩, h⟩
      · rw [if_neg hn] at h
        cases hpipe : pipeline_loop cR commands 0 (CommandList.length commands) with
        | error e => rw [hpipe] at h; exact absurd h (by simp [bind, Except.bind])
        | ok cP =>
            rw [hpipe] at h
            simp only [exceptOk_bind] at h
            obtain ⟨segs, hpsg, hps⟩ := pipeline_loop_shape commands cR cP 0
              (CommandList.length commands) hpipe
            exact ⟨b0, cR, cP, hred, Or.inr ⟨hn, hpipe, segs, hpsg, hps⟩, h⟩

theorem pipeline_lowering_witness :
    ∃ c2, compile_command Compiler.new pipeTwoCmd = Except.ok c2 ∧
      PipelineLowered (.cons echoHelloCmd (.cons echoHelloCmd .nil)) false []
        Compiler.new c2 :=
  ⟨_, rfl, pipeline_lowering _ false [] false Compiler.new _ rfl⟩

/-- C5: compiling a SimpleCommand pushes a fresh environment, with the
matching `PopEnvironment` after the `SpawnCommand`, exactly when both
the word list and the assignment list are non-empty; otherwise neither
environment operation is emitted, so `SetEnv` mutates the surrounding
environment. -/
theorem simple_command_environment_scoping :
    ∀ (simple : SimpleCmd) (redirects : List Redirection) (asyn : Bool)
      (c c2 : Compiler),
      compile_command c (.mk (.SimpleCommand simple) redirects asyn) = .ok c2 →
      EnvScoped simple c c2 := by
  intro simple redirects asyn c c2 h
  have hrcf : (reserve_frame c).frames
      = (⟨RegisterAllocator.new, c.program.length⟩ : FrameCompiler) :: c.frames := rfl
  have hwf0 : allocWF RegisterAllocator.new := by
    intro r hr
    simp [RegisterAllocator.new] at hr
  simp only [compile_command] at h
  obtain ⟨pb, hred, hc1⟩ := exceptBind_ok h
  obtain ⟨b0, cR⟩ := pb
  obtain ⟨cM, harm, hc2⟩ := exceptBind_ok hc1
  obtain ⟨fc1, hemitR⟩ := apply_redirection_emit hred hrcf hwf0
  obtain ⟨pA, hargv, hs1c⟩ := exceptBind_ok harm
  obtain ⟨argv, cA⟩ := pA
  obtain ⟨pR, hred2, hs2c⟩ := exceptBind_ok hs1c
  obtain ⟨b1, cR2⟩ := pR
  obtain ⟨fcA0, hemitA0, hv1, hv2⟩ := allocate_list_emit hargv hemitR.1 hemitR.2.2.2.1
  obtain ⟨fcRi, hemitRi0⟩ := apply_redirection_emit hred2 hemitA0.1 hemitA0.2.2.2.1
  have hemitRi := innerEmit_trans (innerEmit_trans hemitR hemitA0) hemitRi0
  have hvRi : argv ≤ fcRi.allocator.top := le_trans hv2 hemitRi0.2.2.1
  cases hcnd : (!WordList.isEmpty simple.words && !simple.assignments.isEmpty) with
  | true =>
      rw [hcnd] at hs2c
      obtain ⟨cAs, hassign, hs3c⟩ := exceptBind_ok hs2c
      obtain ⟨cW, hwords, hs4c⟩ := exceptBind_ok hs3c
      obtain ⟨pS, hstat, hs5c⟩ := exceptBind_ok hs4c
      obtain ⟨status, cS⟩ := pS
      obtain ⟨cF, hfree, hs6c⟩ := exceptBind_ok hs5c
      have hMeq := Except.ok.inj hs6c
      obtain ⟨fcAs, hemitAs0⟩ := process_assignments_emit simple.assignments
        (cR2.push Operation.PushEnvironment) cAs fcRi c.frames hassign hemitRi0.1
        hemitRi0.2.2.2.1
      obtain ⟨fcW, hemitW0⟩ := expand_words_emit simple.words cAs argv cW fcAs
        c.frames hwords hemitAs0.1 hemitAs0.2.2.2.1 hv1
        (le_trans hvRi hemitAs0.2.2.1)
      have hchain2 := innerEmit_trans hemitAs0 hemitW0
      obtain ⟨aS, hcSdef, htopS, hwfS, hps1, hps2⟩ := allocSlot_spec hstat hchain2.1
        hchain2.2.2.2.1
      have hfrX : (if asyn
            then cS.push (Operation.SpawnCommand (Operand.FrameRelative argv)
              (Operand.FrameRelative status))
            else (cS.push (Operation.SpawnCommand (Operand.FrameRelative argv)
              (Operand.FrameRelative status))).push
              (Operation.Wait (Operand.FrameRelative status))).frames
          = (⟨aS, fcW.frame_start_program_address⟩ : FrameCompiler) :: c.frames := by
        cases asyn <;> simp [hcSdef, Compiler.push]
      have hpCF : cF.program = cW.program ++
          (if asyn
            then [Operation.SpawnCommand (Operand.FrameRelative argv)
              (Operand.FrameRelative status)]
            else [Operation.SpawnCommand (Operand.FrameRelative argv)
              (Operand.FrameRelative status),
              Operation.Wait (Operand.FrameRelative status)]) := by
        have hfp := freeSlot_program hfree hfrX
        rw [hfp]
        cases asyn <;> simp [hcSdef, Compiler.push]
      have hfrCF : cF.frames
          = (⟨aS.free status, fcW.frame_start_program_address⟩ : FrameCompiler)
            :: c.frames := by
        rw [freeSlot_spec hfree hfrX]
      obtain ⟨extra1, hex1, hpx1, hfx1⟩ := pop_redirection_cases
        (cF.push Operation.PopEnvironment) b1
      obtain ⟨hfrR2, haddr2, htop2, hwf2, new1, hp1, hops1⟩ := hemitRi
      obtain ⟨hfrAs, haddrAs, htopAs, hwfAs, newAs, hpAs, hopsAs⟩ := hemitAs0
      obtain ⟨hfrW, haddrW, htopW, hwfW, newW, hpW, hopsW⟩ := hemitW0
      have hfrM : cM.frames
          = (⟨aS.free status, fcW.frame_start_program_address⟩ : FrameCompiler)
            :: c.frames := by
        rw [← hMeq]
        exact hfx1.trans hfrCF
      have haddrM : (⟨aS.free status, fcW.frame_start_program_address⟩
            : FrameCompiler).frame_start_program_address = c.program.length :=
        haddrW.trans (haddrAs.trans haddr2)
      have hprogM : cM.program = (c.program ++ [Operation.PushFrame 0]) ++
          (new1 ++ ([Operation.PushEnvironment] ++ (newAs ++ (newW ++
            ((if asyn
              then [Operation.SpawnCommand (Operand.FrameRelative argv)
                (Operand.FrameRelative status)]
              else [Operation.SpawnCommand (Operand.FrameRelative argv)
                (Operand.FrameRelative status),
                Operation.Wait (Operand.FrameRelative status)]) ++
              ([Operation.PopEnvironment] ++ extra1)))))) := by
        rw [← hMeq]
        have hpe : (pop_redirection (cF.push Operation.PopEnvironment) b1).program
            = (c.program ++ [Operation.PushFrame 0]) ++
              (new1 ++ ([Operation.PushEnvironment] ++ (newAs ++ (newW ++
                ((if asyn
                  then [Operation.SpawnCommand (Operand.FrameRelative argv)
                    (Operand.FrameRelative status)]
                  else [Operation.SpawnCommand (Operand.FrameRelative argv)
                    (Operand.FrameRelative status),
                    Operation.Wait (Operand.FrameRelative status)]) ++
                  ([Operation.PopEnvironment] ++ extra1)))))) := by
          rw [hpx1]
          simp [Compiler.push, hpCF, hpW, hpAs, hp1, reserve_frame, List.append_assoc]
        exact hpe
      obtain ⟨extra0, hex0, hprogC2, hfrC2⟩ := cmdEmit_pack_prog hfrM haddrM hprogM hc2
      refine ⟨_, hprogC2, ?_, ?_⟩
      · intro _
        refine ⟨Operation.PushFrame ((⟨aS.free status,
            fcW.frame_start_program_address⟩ : FrameCompiler).allocator.frame_size)
            :: new1,
          newAs ++ (newW ++ (if asyn
            then [Operation.SpawnCommand (Operand.FrameRelative argv)
              (Operand.FrameRelative status)]
            else [Operation.SpawnCommand (Operand.FrameRelative argv)
              (Operand.FrameRelative status),
              Operation.Wait (Operand.FrameRelative status)])),
          extra1 ++ (extra0 ++ [Operation.PopFrame]), argv, status, ?_, ?_⟩
        · simp [List.append_assoc]
        · cases asyn <;> simp [List.mem_append]
      · intro hfalse
        rw [hcnd] at hfalse
        simp at hfalse
  | false =>
      rw [hcnd] at hs2c
      obtain ⟨cAs, hassign, hs3c⟩ := exceptBind_ok hs2c
      obtain ⟨cW, hwords, hs4c⟩ := exceptBind_ok hs3c
      obtain ⟨pS, hstat, hs5c⟩ := exceptBind_ok hs4c
      obtain ⟨status, cS⟩ := pS
      obtain ⟨cF, hfree, hs6c⟩ := exceptBind_ok hs5c
      have hMeq := Except.ok.inj hs6c
      obtain ⟨fcAs, hemitAs0⟩ := process_assignments_emit simple.assignments
        cR2 cAs fcRi c.frames hassign hemitRi0.1 hemitRi0.2.2.2.1
      obtain ⟨fcW, hemitW0⟩ := expand_words_emit simple.words cAs argv cW fcAs
        c.frames hwords hemitAs0.1 hemitAs0.2.2.2.1 hv1
        (le_trans hvRi hemitAs0.2.2.1)
      have hchain2 := innerEmit_trans hemitAs0 hemitW0
      obtain ⟨aS, hcSdef, htopS, hwfS, hps1, hps2⟩ := allocSlot_spec hstat hchain2.1
        hchain2.2.2.2.1
      have hfrX : (if asyn
            then cS.push (Operation.SpawnCommand (Operand.FrameRelative argv)
              (Operand.FrameRelative status))
            else (cS.push (Operation.SpawnCommand (Operand.FrameRelative argv)
              (Operand.FrameRelative status))).push
              (Operation.Wait (Operand.FrameRelative status))).frames
          = (⟨aS, fcW.frame_start_program_address⟩ : FrameCompiler) :: c.frames := by
        cases asyn <;> simp [hcSdef, Compiler.push]
      have hpCF : cF.program = cW.program ++
          (if asyn
            then [Operation.SpawnCommand (Operand.FrameRelative argv)
              (Operand.FrameRelative status)]
            else [Operation.SpawnCommand (Operand.FrameRelative argv)
              (Operand.FrameRelative status),
              Operation.Wait (Operand.FrameRelative status)]) := by
        have hfp := freeSlot_program hfree hfrX
        rw [hfp]
        cases asyn <;> simp [hcSdef, Compiler.push]
      have hfrCF : cF.frames
          = (⟨aS.free status, fcW.frame_start_program_address⟩ : FrameCompiler)
            :: c.frames := by
        rw [freeSlot_spec hfree hfrX]
      obtain ⟨extra1, hex1, hpx1, hfx1⟩ := pop_redirection_cases cF b1
      obtain ⟨hfrR2, haddr2, htop2, hwf2, new1, hp1, hops1⟩ := hemitRi
      obtain ⟨hfrAs, haddrAs, htopAs, hwfAs, newAs, hpAs, hopsAs⟩ := hemitAs0
      obtain ⟨hfrW, haddrW, htopW, hwfW, newW, hpW, hopsW⟩ := hemitW0
      have hfrM : cM.frames
          = (⟨aS.free status, fcW.frame_start_program_address⟩ : FrameCompiler)
            :: c.frames := by
        rw [← hMeq]
        exact hfx1.trans hfrCF
      have haddrM : (⟨aS.free status, fcW.frame_start_program_address⟩
            : FrameCompiler).frame_start_program_address = c.program.length :=
        haddrW.trans (haddrAs.trans haddr2)
      have hprogM : cM.program = (c.program ++ [Operation.PushFrame 0]) ++
          (new1 ++ (newAs ++ (newW ++
            ((if asyn
              then [Operation.SpawnCommand (Operand.FrameRelative argv)
                (Operand.FrameRelative status)]
              else [Operation.SpawnCommand (Operand.FrameRelative argv)
                (Operand.FrameRelative status),
                Operation.Wait (Operand.FrameRelative status)]) ++ extra1)))) := by
        rw [← hMeq]
        have hpe : (pop_redirection cF b1).program
            = (c.program ++ [Operation.PushFrame 0]) ++
              (new1 ++ (newAs ++ (newW ++
                ((if asyn
                  then [Operation.SpawnCommand (Operand.FrameRelative argv)
                    (Operand.FrameRelative status)]
                  else [Operation.SpawnCommand (Operand.FrameRelative argv)
                    (Operand.FrameRelative status),
                    Operation.Wait (Operand.FrameRelative status)]) ++ extra1)))) := by
          rw [hpx1]
          simp [Compiler.push, hpCF, hpW, hpAs, hp1, reserve_frame, List.append_assoc]
        exact hpe
      obtain ⟨extra0, hex0, hprogC2, hfrC2⟩ := cmdEmit_pack_prog hfrM haddrM hprogM hc2
      refine ⟨_, hprogC2, ?_, ?_⟩
      · intro htrue
        rw [hcnd] at htrue
        simp at htrue
      · intro _
        have hflatBody : ∀ op ∈ (new1 ++ (newAs ++ (newW ++
            ((if asyn
              then [Operation.SpawnCommand (Operand.FrameRelative argv)
                (Operand.FrameRelative status)]
              else [Operation.SpawnCommand (Operand.FrameRelative argv)
                (Operand.FrameRelative status),
                Operation.Wait (Operand.FrameRelative status)]) ++ extra1)))) ++ extra0,
            isFlat op = true := by
          intro op hop
          simp only [List.mem_append] at hop
          rcases hop with (h1m | h2m | h3m | h4m | h5m) | h6m
          · exact (hops1 op h1m).1
          · exact (hopsAs op h2m).1
          · exact (hopsW op h3m).1
          · cases asyn with
            | false =>
                simp at h4m
                rcases h4m with rfl | rfl <;> rfl
            | true =>
                simp at h4m
                subst h4m
                rfl
          · rcases hex1 with rfl | rfl
            · simp at h5m
            · simp at h5m
              subst h5m
              rfl
          · rcases hex0 with rfl | rfl
            · simp at h6m
            · simp at h6m
              subst h6m
              rfl
        have hnoenv := no_env_of_flat hflatBody
        constructor <;> intro hmem
        · rcases List.mem_cons.mp hmem with heq | hmem2
          · simp at heq
          · rcases List.mem_append.mp hmem2 with hmem3 | hmem4
            · exact hnoenv.1 hmem3
            · simp at hmem4
        · rcases List.mem_cons.mp hmem with heq | hmem2
          · simp at heq
          · rcases List.mem_append.mp hmem2 with hmem3 | hmem4
            · exact hnoenv.2 hmem3
            · simp at hmem4

theorem simple_command_environment_scoping_witness :
    ∃ c2, compile_command Compiler.new assignWordCmd = Except.ok c2 ∧
      EnvScoped ⟨[⟨"x", litWord "1"⟩], [], .cons (litWord "echo") .nil⟩
        Compiler.new c2 :=
  ⟨_, rfl, simple_command_environment_scoping _ [] false Compiler.new _ rfl⟩
